import Mathlib

/-!
# Escher (Droste effect) mapper: shallow embedding of `src/escher.cpp`

The development has three layers.

* `Fl`, `Fmt`, `roundQ`, `fadd`, ... : IEEE-754 binary32 / binary64 arithmetic
  (round to nearest, ties to even) on integers.  A finite value is stored as a
  sign and a magnitude counted in units of the smallest subnormal of its
  format (`2^-149` for `float`, `2^-1074` for `double`).  C expressions are
  evaluated in the type given by the usual arithmetic conversions, one
  rounding per operation (no excess precision, no fused multiply-add).
* `Surface`, `getPixel`, `escher` : the pixel accessor and the mapper, with the
  byte buffer of an `SDL_Surface` as a list of bytes.  An access outside the
  buffer and a failed `assert` give `none`.
* `Ctl`, `handleEvent`, `tick` : the event loop of `main`.

The transcendental functions of the C library (`expf`, `logf`, `atan2f`,
`cos`, `sin`) are not part of the program; the mapper takes them as a
parameter `Libm`.
-/

set_option autoImplicit false
set_option exponentiation.threshold 5000
set_option maxRecDepth 100000

namespace Escher

/-! ## Floating point -/

/-- A binary floating-point format: `prec` significand bits, values that are
multiples of `2^(-unit)`, finite magnitudes below `2^top` units. -/
structure Fmt where
  prec : Nat
  unit : Nat
  top : Nat
deriving DecidableEq

/-- The format of C `float`. -/
def binary32 : Fmt := ⟨24, 149, 277⟩

/-- The format of C `double`. -/
def binary64 : Fmt := ⟨53, 1074, 2098⟩

/-- A floating-point datum: a finite value `± k · 2^(-unit)` (the unit is that
of the format the value lives in), an infinity, or a NaN. -/
inductive Fl where
  | fin (neg : Bool) (k : Nat)
  | inf (neg : Bool)
  | nan
deriving DecidableEq

/-- Number of binary digits of `n`, by halving at most `fuel` times. -/
def bitLenAux : Nat → Nat → Nat
  | 0, _ => 0
  | fuel + 1, n => if n = 0 then 0 else bitLenAux fuel (n / 2) + 1

/-- Number of binary digits of `n` (0 for 0); exact for `n < 2^4400`. -/
def bitLen (n : Nat) : Nat := bitLenAux 4400 n

/-- Round the exact magnitude `n / d` units to the nearest value of format
`f`, ties to even; overflow gives an infinity. -/
def roundQ (f : Fmt) (neg : Bool) (n d : Nat) : Fl :=
  let s := bitLen (n / d) - f.prec
  let den := d * 2 ^ s
  let m := n / den
  let rem := n % den
  let m1 := if den < 2 * rem ∨ (2 * rem = den ∧ m % 2 = 1) then m + 1 else m
  let k := m1 * 2 ^ s
  if 2 ^ f.top ≤ k then Fl.inf neg else Fl.fin neg k

/-- Sign change (unary minus). -/
def fneg : Fl → Fl
  | Fl.fin s k => Fl.fin (!s) k
  | Fl.inf s => Fl.inf (!s)
  | Fl.nan => Fl.nan

/-- The signed number of units of a finite value. -/
def signedUnits (s : Bool) (k : Nat) : Int := if s then -(k : Int) else (k : Int)

/-- Addition in format `f`. -/
def addF (f : Fmt) : Fl → Fl → Fl
  | Fl.fin s1 k1, Fl.fin s2 k2 =>
    let z := signedUnits s1 k1 + signedUnits s2 k2
    if z = 0 then Fl.fin (s1 && s2) 0
    else roundQ f (decide (z < 0)) z.natAbs 1
  | Fl.fin _ _, Fl.inf s => Fl.inf s
  | Fl.inf s, Fl.fin _ _ => Fl.inf s
  | Fl.inf s1, Fl.inf s2 => if s1 = s2 then Fl.inf s1 else Fl.nan
  | _, _ => Fl.nan

/-- Subtraction in format `f`. -/
def subF (f : Fmt) (a b : Fl) : Fl := addF f a (fneg b)

/-- Multiplication in format `f`. -/
def mulF (f : Fmt) : Fl → Fl → Fl
  | Fl.fin s1 k1, Fl.fin s2 k2 => roundQ f (xor s1 s2) (k1 * k2) (2 ^ f.unit)
  | Fl.fin s1 k1, Fl.inf s2 => if k1 = 0 then Fl.nan else Fl.inf (xor s1 s2)
  | Fl.inf s1, Fl.fin s2 k2 => if k2 = 0 then Fl.nan else Fl.inf (xor s1 s2)
  | Fl.inf s1, Fl.inf s2 => Fl.inf (xor s1 s2)
  | _, _ => Fl.nan

/-- Division in format `f`. -/
def divF (f : Fmt) : Fl → Fl → Fl
  | Fl.fin s1 k1, Fl.fin s2 k2 =>
    if k2 = 0 then (if k1 = 0 then Fl.nan else Fl.inf (xor s1 s2))
    else roundQ f (xor s1 s2) (k1 * 2 ^ f.unit) k2
  | Fl.fin s1 _, Fl.inf s2 => Fl.fin (xor s1 s2) 0
  | Fl.inf s1, Fl.fin s2 _ => Fl.inf (xor s1 s2)
  | _, _ => Fl.nan

/-- Integer square root by bisection on the bits of the result. -/
def isqrtGo (n : Nat) : Nat → Nat → Nat
  | 0, res => res
  | b + 1, res =>
    let c := res + 2 ^ b
    isqrtGo n b (if c * c ≤ n then c else res)

/-- The floor of the square root of `n`. -/
def isqrt (n : Nat) : Nat := isqrtGo n (bitLen n / 2 + 1) 0

/-- Correctly rounded square root in format `f` (IEEE-754 `sqrt`). -/
def sqrtF (f : Fmt) : Fl → Fl
  | Fl.fin s k =>
    if k = 0 then Fl.fin s 0
    else if s then Fl.nan
    else
      let n := k * 2 ^ f.unit
      let sh := bitLen (isqrt n) - f.prec
      let m := isqrt (n / 4 ^ sh)
      let m1 := if (2 * m + 1) * (2 * m + 1) * 4 ^ sh < 4 * n then m + 1 else m
      Fl.fin false (m1 * 2 ^ sh)
  | Fl.inf s => if s then Fl.nan else Fl.inf false
  | Fl.nan => Fl.nan

/-- Comparison `a < b` of two values of one format (false on NaN). -/
def ltF : Fl → Fl → Bool
  | Fl.fin s1 k1, Fl.fin s2 k2 => decide (signedUnits s1 k1 < signedUnits s2 k2)
  | Fl.fin _ _, Fl.inf s => !s
  | Fl.inf s, Fl.fin _ _ => s
  | Fl.inf s1, Fl.inf s2 => s1 && !s2
  | _, _ => false

/-- Conversion `float → double` (exact). -/
def toDouble : Fl → Fl
  | Fl.fin s k => Fl.fin s (k * 2 ^ (binary64.unit - binary32.unit))
  | x => x

/-- Conversion `double → float` (rounded). -/
def toFloat : Fl → Fl
  | Fl.fin s k => roundQ binary32 s k (2 ^ (binary64.unit - binary32.unit))
  | x => x

/-- Conversion `int → float`, the cast `(float)ix`. -/
def ofInt (n : Int) : Fl := roundQ binary32 (decide (n < 0)) (n.natAbs * 2 ^ binary32.unit) 1

/-- Conversion `float → int`, the cast `(int)(...)`: truncation toward zero.
A NaN, an infinity or a value outside the range of `int` has no defined
result in C++; the model returns `-2^31`, as the x86 conversion does. -/
def toInt : Fl → Int
  | Fl.fin s k =>
    let t := signedUnits s (k / 2 ^ binary32.unit)
    if -2147483648 ≤ t ∧ t ≤ 2147483647 then t else -2147483648
  | _ => -2147483648

/-- Addition of two `float`s. -/
def fadd : Fl → Fl → Fl := addF binary32
/-- Subtraction of two `float`s. -/
def fsub : Fl → Fl → Fl := subF binary32
/-- Multiplication of two `float`s. -/
def fmul : Fl → Fl → Fl := mulF binary32
/-- Division of two `float`s. -/
def fdiv : Fl → Fl → Fl := divF binary32
/-- The function `sqrtf`. -/
def sqrtf : Fl → Fl := sqrtF binary32
/-- Addition of two `double`s. -/
def dadd : Fl → Fl → Fl := addF binary64
/-- Subtraction of two `double`s. -/
def dsub : Fl → Fl → Fl := subF binary64
/-- Multiplication of two `double`s. -/
def dmul : Fl → Fl → Fl := mulF binary64
/-- Division of two `double`s. -/
def ddiv : Fl → Fl → Fl := divF binary64

/-- The `float` with significand `m` and exponent `e`: `m · 2^e`, for
`e ≥ -149`. -/
def f32 (m : Nat) (e : Int) : Fl := Fl.fin false (m * 2 ^ (e + 149).toNat)

/-- The `double` with significand `m` and exponent `e`: `m · 2^e`, for
`e ≥ -1074`. -/
def f64 (m : Nat) (e : Int) : Fl := Fl.fin false (m * 2 ^ (e + 1074).toNat)

/-- The constant `M_PI` of `<cmath>`, `0x1.921fb54442d18p+1`. -/
def M_PI : Fl := f64 0x1921fb54442d18 (-51)

/-- The `double` literal `1.0e-6`, `0x1.0c6f7a0b5ed8dp-20`. -/
def epsilon : Fl := f64 0x10c6f7a0b5ed8d (-72)

/-- The `float` literal `0.1f`, `0x1.99999ap-4`. -/
def tenth : Fl := f32 0xcccccd (-27)

/-- The `float` literal `1.0f`. -/
def one : Fl := f32 1 0


/-! ## Surfaces and the pixel accessor -/

/-- One byte of a pixel buffer (`Uint8`). -/
abbrev Byte := Fin 256

/-- The fields of an `SDL_Surface` that the program uses: width, height, row
stride in bytes, bytes per pixel of the format, and the pixel buffer. -/
structure Surface where
  w : Int
  h : Int
  pitch : Nat
  bpp : Nat
  pixels : List Byte
deriving DecidableEq

/-- The value `(Uint32)q[0] | ((Uint32)q[1] << 8) | ((Uint32)q[2] << 16)`. -/
def pack (q0 q1 q2 : Byte) : Nat :=
  (q0.val ||| (q1.val <<< 8) ||| (q2.val <<< 16)) % 2 ^ 32

/-- The three bytes `q[0], q[1], q[2]` at offset `i` of a buffer; `none` when
one of them lies outside the buffer. -/
def read3 (buf : List Byte) (i : Nat) : Option (Byte × Byte × Byte) :=
  match buf[i]?, buf[i + 1]?, buf[i + 2]? with
  | some q0, some q1, some q2 => some (q0, q1, q2)
  | _, _, _ => none

/-- The test `x < 0 || y < 0 || x >= image->w || y >= image->h`. -/
def outOfBounds (image : Surface) (x y : Int) : Bool :=
  decide (x < 0) || decide (y < 0) || decide (x ≥ image.w) || decide (y ≥ image.h)

/-- The byte offset `y*image->pitch + x*bpp` of a pixel. -/
def offset (image : Surface) (bpp : Nat) (x y : Int) : Nat :=
  (y * (image.pitch : Int) + x * (bpp : Int)).toNat

/-- The function `getPixel` of the source. -/
def getPixel (image : Surface) (x y : Int) : Option Nat :=
  if outOfBounds image x y then some 0
  else
    match read3 image.pixels (offset image image.bpp x y) with
    | some (q0, q1, q2) => some (pack q0 q1 q2)
    | none => none

/-! ## The mapper -/

/-- The functions of the C mathematical library that the mapper calls. -/
structure Libm where
  expf : Fl → Fl
  logf : Fl → Fl
  atan2f : Fl → Fl → Fl
  cosf : Fl → Fl
  sinf : Fl → Fl

/-- The assignments `p[0] = b0; p[1] = b1; p[2] = b2` at offset `p`; `none`
when one of them lies outside the buffer. -/
def write3 (buf : List Byte) (p : Nat) (b0 b1 b2 : Byte) : Option (List Byte) :=
  if p + 2 < buf.length then some (((buf.set p b0).set (p + 1) b1).set (p + 2) b2) else none

/-- The values that stay fixed while one pixel is searched: source, marker
colour, centre, `bpp`, `baseScale` and the unit direction `(x, y)`. -/
structure Search where
  src : Surface
  clearColour : Nat
  xOff : Fl
  yOff : Fl
  bpp : Nat
  baseScale : Fl
  x : Fl
  y : Fl

/-- The candidate `ix2 = (int)(xOff + r*x)`. -/
def candX (c : Search) (r : Fl) : Int := toInt (fadd c.xOff (fmul r c.x))

/-- The candidate `iy2 = (int)(yOff - r*y)`. -/
def candY (c : Search) (r : Fl) : Int := toInt (fsub c.yOff (fmul r c.y))

/-- The first `while` loop (lines 79-103), entered with `count` tries left
and radius `r`; the result is the radius at exit. -/
def outward (c : Search) : Nat → Fl → Option Fl
  | 0, r => some r
  | count + 1, r =>
    if outOfBounds c.src (candX c r) (candY c r) then
      outward c count (fmul r c.baseScale)
    else
      match read3 c.src.pixels (offset c.src c.bpp (candX c r) (candY c r)) with
      | none => none
      | some (q0, q1, q2) =>
        if pack q0 q1 q2 = c.clearColour then some r
        else outward c count (fmul r c.baseScale)

/-- The second `while` loop (lines 108-138), entered with `count` tries left
and radius `r`, writing at offset `p` of the destination buffer. -/
def inward (c : Search) (p : Nat) : Nat → Fl → List Byte → Option (List Byte)
  | 0, _, buf => some buf
  | count + 1, r, buf =>
    if outOfBounds c.src (candX c r) (candY c r) then
      write3 buf p 0xff 0x0 0x0
    else
      match read3 c.src.pixels (offset c.src c.bpp (candX c r) (candY c r)) with
      | none => none
      | some (q0, q1, q2) =>
        if pack q0 q1 q2 ≠ c.clearColour then write3 buf p q0 q1 q2
        else inward c p count (fdiv r c.baseScale) buf

/-- The values that stay fixed during one pass of the mapper. -/
structure Pass where
  libm : Libm
  src : Surface
  clearColour : Nat
  xOff : Fl
  yOff : Fl
  bpp : Nat
  alpha : Fl
  beta : Fl
  baseScale : Fl

/-- The constant `maxTries`. -/
def maxTries : Nat := 32

/-- The vector component `x = (float)ix - xOff`. -/
def vecX (P : Pass) (ix : Int) : Fl := fsub (ofInt ix) P.xOff

/-- The vector component `y = yOff - (float)iy`. -/
def vecY (P : Pass) (iy : Int) : Fl := fsub P.yOff (ofInt iy)

/-- The radius `r = sqrtf(x*x + y*y)`. -/
def radius (x y : Fl) : Fl := sqrtf (fadd (fmul x x) (fmul y y))

/-- The test `r < 1.0e-6`, a comparison of `double`s. -/
def tooClose (r : Fl) : Bool := ltF (toDouble r) epsilon

/-- The `float` literal `0.5f`. -/
def half : Fl := f32 1 (-1)

/-- The value `0.125f*M_PI/4.0f`, a `double`. -/
def phase : Fl := ddiv (dmul (toDouble (f32 1 (-3))) M_PI) (toDouble (f32 4 0))

/-- Lines 67-74: the search state of a pixel with vector `(x, y)` and radius
`r`, and the radius the first loop starts from. -/
def remap (P : Pass) (x y r : Fl) : Search × Fl :=
  let a := P.libm.atan2f y x
  let tmp := fmul (fmul r half)
    (P.libm.expf (toFloat (dmul (toDouble (fneg P.alpha)) (dadd (toDouble a) M_PI))))
  let a1 := toFloat (dsub (toDouble a)
    (dadd (toDouble (fmul P.beta (P.libm.logf r))) phase))
  (⟨P.src, P.clearColour, P.xOff, P.yOff, P.bpp, P.baseScale,
    P.libm.cosf a1, P.libm.sinf a1⟩, tmp)

/-- The body of the inner `for` loop (lines 52-139) for pixel `(ix, iy)`,
whose bytes start at offset `p` of the destination buffer. -/
def pixel (P : Pass) (ix iy : Int) (p : Nat) (buf : List Byte) : Option (List Byte) :=
  let x := vecX P ix
  let y := vecY P iy
  let r := radius x y
  if tooClose r then write3 buf p 0x0 0x0 0x0
  else
    match outward (remap P x y r).1 maxTries (remap P x y r).2 with
    | none => none
    | some r1 => inward (remap P x y r).1 p maxTries r1 buf

/-- The inner `for` loop, with `n` columns left, at column `ix` and
pointer `p`. -/
def rowLoop (P : Pass) (iy : Int) : Nat → Int → Nat → List Byte → Option (List Byte)
  | 0, _, _, buf => some buf
  | n + 1, ix, p, buf =>
    match pixel P ix iy p buf with
    | none => none
    | some buf1 => rowLoop P iy n (ix + 1) (p + P.bpp) buf1

/-- The outer `for` loop, with `n` rows left, at row `iy`, for a destination
of width `w` and row stride `pitch`. -/
def rowsLoop (P : Pass) (w : Int) (pitch : Nat) : Nat → Int → List Byte → Option (List Byte)
  | 0, _, buf => some buf
  | n + 1, iy, buf =>
    match rowLoop P iy w.toNat 0 (iy * (pitch : Int)).toNat buf with
    | none => none
    | some buf1 => rowsLoop P w pitch n (iy + 1) buf1

/-- The value `alpha = _alpha/(2.0f*M_PI)` (and likewise `beta`), a `float`. -/
def normalise (a : Fl) : Fl := toFloat (ddiv (toDouble a) (dmul (toDouble (f32 2 0)) M_PI))

/-- The value `baseScale = expf(-2.0f*M_PI*alpha)`. -/
def baseScaleOf (m : Libm) (alpha : Fl) : Fl :=
  m.expf (toFloat (dmul (dmul (toDouble (fneg (f32 2 0))) M_PI) (toDouble alpha)))

/-- The function `escher` of the source.  A failed `assert` and an access
outside a pixel buffer give `none`. -/
def escher (m : Libm) (dest src : Surface) (clearColour : Nat)
    (xOff yOff _alpha _beta : Fl) : Option Surface :=
  if dest.w = src.w ∧ dest.h = src.h ∧ dest.bpp = src.bpp then
    let bpp := dest.bpp
    let alpha := normalise _alpha
    let beta := normalise _beta
    let baseScale := baseScaleOf m alpha
    if bpp = 3 then
      let P : Pass := ⟨m, src, clearColour, xOff, yOff, bpp, alpha, beta, baseScale⟩
      match rowsLoop P dest.w dest.pitch dest.h.toNat 0 dest.pixels with
      | none => none
      | some buf => some { dest with pixels := buf }
    else none
  else none

/-! ## The controller (`main`) -/

/-- The keys that `main` tells apart. -/
inductive SDLKey where
  | escape
  | space
  | left
  | right
  | up
  | down
  | other
deriving DecidableEq

/-- An input event.  The coordinates of a mouse event are unsigned
(`Uint16 x, y` in `SDL_MouseButtonEvent`). -/
inductive Event where
  | keyDown (k : SDLKey)
  | mouseButtonUp (x y : Nat)
  | quit
  | other
deriving DecidableEq

/-- A call of `main` into the display, the file system or the mapper. -/
inductive Effect where
  | fillScreen
  | blitImage
  | flip
  | escherCall (clearColour : Nat) (xOff yOff : Int) (alpha beta : Fl)
  | saveBMP (out : Surface)
  | blitDest (out : Surface)
  | delay
deriving DecidableEq

/-- The variables of `main`: the transform parameters, the loop flags
`running` and `changed`, and the calls made so far. -/
structure Ctl where
  xOff : Int
  yOff : Int
  clearColour : Nat
  alpha : Fl
  beta : Fl
  running : Bool
  changed : Bool
  log : List Effect
deriving DecidableEq

/-- The call `SDL_ConvertSurface(image, image->format, image->flags)`: a new
surface with the format, size and pixels of `image`. -/
def convertSurface (image : Surface) : Surface := image

/-- Lines 159-221 after a successful load: the checks on the image, the
initial parameters and the first display.  `none` is the exit with status
-1 (or a read outside the buffer). -/
def startup (image : Surface) : Option Ctl :=
  if image.w ≤ 0 ∨ image.h ≤ 0 ∨ image.bpp ≠ 3 then none
  else
    match getPixel image (Int.tdiv image.w 2) (Int.tdiv image.h 2) with
    | none => none
    | some c =>
      some ⟨Int.tdiv image.w 2, Int.tdiv image.h 2, c, one, Fl.fin false 0, true, false,
        [Effect.fillScreen, Effect.blitImage, Effect.flip]⟩

/-- The body of the `SDL_PollEvent` loop (lines 234-286) for one event. -/
def handleEvent (image : Surface) (s : Ctl) (e : Event) : Option Ctl :=
  let s1 : Option Ctl :=
    match e with
    | Event.keyDown k =>
      match k with
      | SDLKey.escape => some { s with running := false }
      | SDLKey.space => some { s with log := s.log ++ [Effect.blitImage], changed := true }
      | SDLKey.left => some { s with alpha := fsub s.alpha tenth, changed := true }
      | SDLKey.right => some { s with alpha := fadd s.alpha tenth, changed := true }
      | SDLKey.up => some { s with beta := fadd s.beta tenth, changed := true }
      | SDLKey.down => some { s with beta := fsub s.beta tenth, changed := true }
      | SDLKey.other => some s
    | Event.mouseButtonUp x y =>
      if (x : Int) < image.w ∧ (y : Int) < image.h then
        match getPixel image x y with
        | none => none
        | some c => some { s with xOff := x, yOff := y, clearColour := c, changed := true }
      else some s
    | _ => some s
  match s1 with
  | none => none
  | some s2 => if e = Event.quit then some { s2 with running := false } else some s2

/-- The `SDL_PollEvent` loop over the events pending in one tick. -/
def handleEvents (image : Surface) : Ctl → List Event → Option Ctl
  | s, [] => some s
  | s, e :: es =>
    match handleEvent image s e with
    | none => none
    | some s1 => handleEvents image s1 es

/-- Lines 289-301: the render of a tick in which `changed` was set. -/
def render (m : Libm) (image : Surface) (s : Ctl) : Option Ctl :=
  match escher m (convertSurface image) image s.clearColour (ofInt s.xOff) (ofInt s.yOff)
      s.alpha s.beta with
  | none => none
  | some out =>
    some { s with log := s.log ++
      [Effect.escherCall s.clearColour s.xOff s.yOff s.alpha s.beta,
       Effect.saveBMP out, Effect.blitDest out, Effect.flip] }

/-- One pass of the main loop (lines 228-303) with the events it polls. -/
def tick (m : Libm) (image : Surface) (s : Ctl) (events : List Event) : Option Ctl :=
  match handleEvents image { s with changed := false } events with
  | none => none
  | some s1 =>
    match (if s1.changed then render m image s1 else some s1) with
    | none => none
    | some s2 => some { s2 with log := s2.log ++ [Effect.delay] }

/-- The states the main loop passes through: the state after start-up, and
the state after a tick taken while `running` holds. -/
inductive Reachable (m : Libm) (image : Surface) : Ctl → Prop where
  | start (s : Ctl) : startup image = some s → Reachable m image s
  | step (s s1 : Ctl) (events : List Event) : Reachable m image s → s.running = true →
      tick m image s events = some s1 → Reachable m image s1

/-- The number of calls of the mapper in a log. -/
def mapperCalls : List Effect → Nat
  | [] => 0
  | Effect.escherCall _ _ _ _ _ :: l => mapperCalls l + 1
  | _ :: l => mapperCalls l

/-- The number of times the output file is written in a log. -/
def fileWrites : List Effect → Nat
  | [] => 0
  | Effect.saveBMP _ :: l => fileWrites l + 1
  | _ :: l => fileWrites l

/-! ## What one pixel's search decides -/

/-- The effect of the loop body on the destination pixel: its three bytes
are left alone, or three bytes are stored. -/
inductive Outcome where
  | keep
  | put (b0 b1 b2 : Byte)
deriving DecidableEq

/-- The stores of the second loop, as a value: the loop `inward` without the
destination buffer. -/
def inwardOutcome (c : Search) : Nat → Fl → Option Outcome
  | 0, _ => some Outcome.keep
  | count + 1, r =>
    if outOfBounds c.src (candX c r) (candY c r) then some (Outcome.put 0xff 0x0 0x0)
    else
      match read3 c.src.pixels (offset c.src c.bpp (candX c r) (candY c r)) with
      | none => none
      | some (q0, q1, q2) =>
        if pack q0 q1 q2 ≠ c.clearColour then some (Outcome.put q0 q1 q2)
        else inwardOutcome c count (fdiv r c.baseScale)

/-- The stores of the loop body for pixel `(ix, iy)`, as a value. -/
def pixelOutcome (P : Pass) (ix iy : Int) : Option Outcome :=
  let x := vecX P ix
  let y := vecY P iy
  let r := radius x y
  if tooClose r then some (Outcome.put 0x0 0x0 0x0)
  else
    match outward (remap P x y r).1 maxTries (remap P x y r).2 with
    | none => none
    | some r1 => inwardOutcome (remap P x y r).1 maxTries r1

/-- Carry out an outcome at offset `p` of a buffer. -/
def applyOutcome (buf : List Byte) (p : Nat) : Outcome → Option (List Byte)
  | Outcome.keep => some buf
  | Outcome.put b0 b1 b2 => write3 buf p b0 b1 b2

/-- The bytes a pixel holds after an outcome, given the bytes it held. -/
def Outcome.bytes (prior : Option (Byte × Byte × Byte)) : Outcome → Option (Byte × Byte × Byte)
  | Outcome.keep => prior
  | Outcome.put b0 b1 b2 => some (b0, b1, b2)

/-- What a search loop finds at a candidate: a position outside the source,
a marker-coloured pixel, a pixel of another colour (with its bytes), or a
read outside the buffer. -/
inductive Cand where
  | outside
  | marker
  | colour (q0 q1 q2 : Byte)
  | fault
deriving DecidableEq

/-- The tests of lines 84-94 and 113-126 on the candidate at radius `r`. -/
def classify (c : Search) (r : Fl) : Cand :=
  if outOfBounds c.src (candX c r) (candY c r) then Cand.outside
  else
    match read3 c.src.pixels (offset c.src c.bpp (candX c r) (candY c r)) with
    | none => Cand.fault
    | some (q0, q1, q2) =>
      if pack q0 q1 q2 = c.clearColour then Cand.marker else Cand.colour q0 q1 q2

/-- The radius of the second loop after `k` steps `r /= baseScale`. -/
def radiusAt (c : Search) : Fl → Nat → Fl
  | r, 0 => r
  | r, k + 1 => radiusAt c (fdiv r c.baseScale) k

/-- The search state of pixel `(ix, iy)` (lines 53-74). -/
def searchOf (P : Pass) (ix iy : Int) : Search :=
  (remap P (vecX P ix) (vecY P iy) (radius (vecX P ix) (vecY P iy))).1

/-- The radius with which pixel `(ix, iy)` enters the first loop. -/
def startRadius (P : Pass) (ix iy : Int) : Fl :=
  (remap P (vecX P ix) (vecY P iy) (radius (vecX P ix) (vecY P iy))).2

/-- The pixel `(ix, iy)` is within `1.0e-6` of the centre (line 58). -/
def atCentre (P : Pass) (ix iy : Int) : Bool :=
  tooClose (radius (vecX P ix) (vecY P iy))

/-- The surface invariant the mapper relies on: three bytes per pixel, rows
of `w` pixels that fit in the stride, `h` rows that fit in the buffer. -/
def Surface.WF (s : Surface) : Prop :=
  s.bpp = 3 ∧ 3 * s.w ≤ (s.pitch : Int) ∧ s.h * (s.pitch : Int) ≤ (s.pixels.length : Int)

instance (s : Surface) : Decidable s.WF := by
  unfold Surface.WF; infer_instance

/-- The pass record that `escher` builds from its arguments. -/
def passOf (m : Libm) (src : Surface) (clearColour : Nat) (xOff yOff _alpha _beta : Fl) : Pass :=
  ⟨m, src, clearColour, xOff, yOff, 3, normalise _alpha, normalise _beta,
    baseScaleOf m (normalise _alpha)⟩

/-- Byte `j` belongs to a pixel of a `w × h` image with row stride `pitch`. -/
def inPixelArea (w h : Int) (pitch : Nat) (j : Nat) : Prop :=
  ∃ ix iy : Nat, (ix : Int) < w ∧ (iy : Int) < h ∧ iy * pitch + 3 * ix ≤ j ∧ j < iy * pitch + 3 * ix + 3

/-- Every pixel of `src` has the packed colour `C`. -/
def Solid (src : Surface) (C : Nat) : Prop :=
  ∀ x y : Int, outOfBounds src x y = false → getPixel src x y = some C

/-! ## Concrete inputs -/

/-- The `float` `+0.0f`. -/
def zero : Fl := Fl.fin false 0

/-- A sample of the C library: the values, rounded to the nearest `float`,
at the arguments that pixel `(0, 1)` of a 2×2 image with centre `(1, 1)`
reaches for `_beta = 0` and `_alpha = 0` or `1`; NaN at every argument that
is not tabulated.  `expf(-0) = 1`, `logf(1) = +0` and `atan2f(+0, -1) = π`
(`0x1.921fb6p+1`) are exact by Annex F of the C standard;
`expf(-1) = expf(-0.99999994) = 0.36787945` (`0x1.78b564p-2`),
`cos(3.0434179) = -0.9951847` (`-0x1.fd88dap-1`) and
`sin(3.0434179) = 0.098017097` (`0x1.917a6p-4`), where `3.0434179`
(`0x1.858eb8p+1`) is the angle `a` of line 71 for that pixel. -/
def sampleLibm : Libm where
  expf := fun v =>
    if v = fneg zero then one
    else if v = fneg one then f32 0x5e2d59 (-24)
    else if v = fneg (f32 0xffffff (-24)) then f32 0x5e2d59 (-24)
    else Fl.nan
  logf := fun v => if v = one then zero else Fl.nan
  atan2f := fun y x => if y = zero ∧ x = fneg one then f32 0xc90fdb (-22) else Fl.nan
  cosf := fun v => if v = f32 0x30b1d7 (-20) then fneg (f32 0xfec46d (-24)) else Fl.nan
  sinf := fun v => if v = f32 0x30b1d7 (-20) then f32 0xc8bd3 (-23) else Fl.nan

/-- A 2×2 image of one colour, bytes `30 20 10` (packed `0x102030`), with the
row stride 8 that SDL gives a 24-bit surface of width 2. -/
def solid2 : Surface :=
  ⟨2, 2, 8, 3,
    [0x30, 0x20, 0x10, 0x30, 0x20, 0x10, 0, 0,
     0x30, 0x20, 0x10, 0x30, 0x20, 0x10, 0, 0]⟩

/-- A 2×2 destination whose bytes are all `99`. -/
def grey2 : Surface :=
  ⟨2, 2, 8, 3,
    [0x99, 0x99, 0x99, 0x99, 0x99, 0x99, 0x99, 0x99,
     0x99, 0x99, 0x99, 0x99, 0x99, 0x99, 0x99, 0x99]⟩

/-- The 4×4 image of the scenario: packed colour `0xFF0000` (bytes
`00 00 FF`) everywhere except packed `0x0000FF` (bytes `FF 00 00`) at
`(2, 2)`; row stride 12. -/
def scene4 : Surface :=
  ⟨4, 4, 12, 3,
    [0, 0, 0xff, 0, 0, 0xff, 0, 0, 0xff, 0, 0, 0xff,
     0, 0, 0xff, 0, 0, 0xff, 0, 0, 0xff, 0, 0, 0xff,
     0, 0, 0xff, 0, 0, 0xff, 0xff, 0, 0, 0, 0, 0xff,
     0, 0, 0xff, 0, 0, 0xff, 0, 0, 0xff, 0, 0, 0xff]⟩

/-- The pass that follows start-up on `solid2` with the sample library:
centre `(1, 1)`, the marker colour found there, `_alpha = 1`, `_beta = 0`. -/
def passA : Pass := passOf sampleLibm solid2 0x102030 (ofInt 1) (ofInt 1) one zero

/-- The state after start-up on `solid2`. -/
def startA : Ctl :=
  ⟨1, 1, 0x102030, one, zero, true, false, [Effect.fillScreen, Effect.blitImage, Effect.flip]⟩

/-- The centre lies in the image and the marker colour is the colour there. -/
def CtlInv (image : Surface) (s : Ctl) : Prop :=
  0 ≤ s.xOff ∧ s.xOff < image.w ∧ 0 ≤ s.yOff ∧ s.yOff < image.h ∧
    getPixel image s.xOff s.yOff = some s.clearColour

/-- Two states with the same centre, marker colour, alpha and beta. -/
def SameParams (s s1 : Ctl) : Prop :=
  s1.xOff = s.xOff ∧ s1.yOff = s.yOff ∧ s1.clearColour = s.clearColour ∧
    s1.alpha = s.alpha ∧ s1.beta = s.beta

/-- The relation between a buffer before and after an outcome at offset `p`. -/
def Stored (buf : List Byte) (p : Nat) (o : Outcome) (buf1 : List Byte) : Prop :=
  buf1.length = buf.length ∧
  (∀ j, (j < p ∨ p + 3 ≤ j) → buf1[j]? = buf[j]?) ∧
  read3 buf1 p = o.bytes (read3 buf p)

/-! ## The loops with counters, and further inputs -/

/-- The first `while` loop (lines 79-103) with two counters: the result is
the radius at exit, the number of passes of the loop body (candidates
tested) and the number of multiplications `r *= baseScale`. -/
def outwardRun (c : Search) : Nat → Fl → Option (Fl × Nat × Nat)
  | 0, r => some (r, 0, 0)
  | count + 1, r =>
    if outOfBounds c.src (candX c r) (candY c r) then
      (outwardRun c count (fmul r c.baseScale)).map (fun t => (t.1, t.2.1 + 1, t.2.2 + 1))
    else
      match read3 c.src.pixels (offset c.src c.bpp (candX c r) (candY c r)) with
      | none => none
      | some (q0, q1, q2) =>
        if pack q0 q1 q2 = c.clearColour then some (r, 1, 0)
        else
          (outwardRun c count (fmul r c.baseScale)).map (fun t => (t.1, t.2.1 + 1, t.2.2 + 1))

/-- The second `while` loop (lines 108-138) with a counter: the stores it
makes and the number of passes of the loop body (candidates tested). -/
def inwardRun (c : Search) : Nat → Fl → Option (Outcome × Nat)
  | 0, _ => some (Outcome.keep, 0)
  | count + 1, r =>
    if outOfBounds c.src (candX c r) (candY c r) then some (Outcome.put 0xff 0x0 0x0, 1)
    else
      match read3 c.src.pixels (offset c.src c.bpp (candX c r) (candY c r)) with
      | none => none
      | some (q0, q1, q2) =>
        if pack q0 q1 q2 ≠ c.clearColour then some (Outcome.put q0 q1 q2, 1)
        else (inwardRun c count (fdiv r c.baseScale)).map (fun t => (t.1, t.2 + 1))

/-- The radius of the first loop after `k` steps `r *= baseScale`. -/
def radiusOut (c : Search) : Fl → Nat → Fl
  | r, 0 => r
  | r, k + 1 => radiusOut c (fmul r c.baseScale) k

/-- The `float` `xOff + r*x` that line 81 (and 110) casts to `int`. -/
def candU (c : Search) (r : Fl) : Fl := fadd c.xOff (fmul r c.x)

/-- The `float` `yOff - r*y` that line 82 (and 111) casts to `int`. -/
def candV (c : Search) (r : Fl) : Fl := fsub c.yOff (fmul r c.y)

/-- The real coordinate `u` satisfies `0 <= u < n` (a finite `float`, in
units of `2^-149`). -/
def realInside (n : Int) : Fl → Bool
  | Fl.fin s k => decide (0 ≤ signedUnits s k ∧ signedUnits s k < n * 2 ^ 149)
  | _ => false

/-- The real coordinate `u` satisfies `-1 < u < n`. -/
def truncInside (n : Int) : Fl → Bool
  | Fl.fin s k => decide (-(2 ^ 149) < signedUnits s k ∧ signedUnits s k < n * 2 ^ 149)
  | _ => false

/-- A datum that is a value of the format `float`: NaN, an infinity, or a
finite magnitude below `2^277` units with a significand of 24 bits. -/
def IsFloat : Fl → Prop
  | Fl.fin _ k => k < 2 ^ 277 ∧ ∃ m e : Nat, k = m * 2 ^ e ∧ m < 2 ^ 24
  | _ => True

/-- The events on which `main` sets `changed`: the space key, the four
arrow keys, and a mouse button released inside the source image. -/
def dirties (image : Surface) : Event → Bool
  | Event.keyDown SDLKey.space => true
  | Event.keyDown SDLKey.left => true
  | Event.keyDown SDLKey.right => true
  | Event.keyDown SDLKey.up => true
  | Event.keyDown SDLKey.down => true
  | Event.mouseButtonUp x y => decide ((x : Int) < image.w ∧ (y : Int) < image.h)
  | _ => false

/-- The `float` `0.53f`, `0x1.0f5c28p-1`. -/
def alphaC : Fl := f32 0x43d70a (-23)

/-- The sample library with one more value: `expf(-0.53f) = 0.58860499`
(`0x1.2d5da2p-1`, rounded to the nearest `float`). -/
def sampleLibmC : Libm :=
  { sampleLibm with
    expf := fun v => if v = fneg alphaC then f32 0x96aed1 (-24) else sampleLibm.expf v }

/-- A 2×2 image with the bytes `30 20 10` (packed `0x102030`) at `(1, 1)` and
`50 60 70` at the other three pixels; row stride 8. -/
def spot2 : Surface :=
  ⟨2, 2, 8, 3,
    [0x50, 0x60, 0x70, 0x50, 0x60, 0x70, 0, 0,
     0x50, 0x60, 0x70, 0x30, 0x20, 0x10, 0, 0]⟩

/-- The pass on `spot2` with centre `(1, 1)`, the marker colour found there,
`_alpha = 0.53f`, `_beta = 0`. -/
def passC : Pass := passOf sampleLibmC spot2 0x102030 (ofInt 1) (ofInt 1) alphaC zero

/-- The pass on `solid2` with centre `(1, 1)`, the marker colour found there,
`_alpha = 0`, `_beta = 0`. -/
def passB : Pass := passOf sampleLibm solid2 0x102030 (ofInt 1) (ofInt 1) zero zero

/-- A 1×1 image with the bytes `30 20 10`; row stride 4. -/
def dot1 : Surface := ⟨1, 1, 4, 3, [0x30, 0x20, 0x10, 0]⟩

/-- A search state on `dot1`: centre `(0, 0)`, marker `0x102030`,
`baseScale = 0.5`, direction `(x, y) = (1, 0)`. -/
def searchD : Search := ⟨dot1, 0x102030, zero, zero, 3, half, one, zero⟩

/-- The search of pixel `(ix, iy)` ends without a decision: the pixel is not
at the centre and all 32 candidates of its inward search, from the radius
the outward search ended with, are in-bounds marker pixels. -/
def Undecided (P : Pass) (ix iy : Int) : Prop :=
  atCentre P ix iy = false ∧
    ∃ r1, outward (searchOf P ix iy) maxTries (startRadius P ix iy) = some r1 ∧
      ∀ k, k < maxTries →
        classify (searchOf P ix iy) (radiusAt (searchOf P ix iy) r1 k) = Cand.marker

/-- A 2×2 destination with row stride 6 (no padding), all bytes `99`. -/
def tight2 : Surface :=
  ⟨2, 2, 6, 3,
    [0x99, 0x99, 0x99, 0x99, 0x99, 0x99,
     0x99, 0x99, 0x99, 0x99, 0x99, 0x99]⟩

/-! ## Lemmas on buffers -/

theorem read3_congr {b1 b2 : List Byte} {i : Nat}
    (h : ∀ j, i ≤ j → j < i + 3 → b1[j]? = b2[j]?) : read3 b1 i = read3 b2 i := by
  unfold read3
  rw [h i (by omega) (by omega), h (i + 1) (by omega) (by omega), h (i + 2) (by omega) (by omega)]

theorem read3_isSome {buf : List Byte} {i : Nat} (h : i + 2 < buf.length) :
    ∃ q, read3 buf i = some q := by
  unfold read3
  rw [List.getElem?_eq_getElem (by omega : i < buf.length),
    List.getElem?_eq_getElem (by omega : i + 1 < buf.length),
    List.getElem?_eq_getElem h]
  exact ⟨_, rfl⟩

theorem write3_spec {buf buf1 : List Byte} {p : Nat} {b0 b1 b2 : Byte}
    (h : write3 buf p b0 b1 b2 = some buf1) :
    p + 2 < buf.length ∧ buf1.length = buf.length ∧
    (∀ j, (j < p ∨ p + 3 ≤ j) → buf1[j]? = buf[j]?) ∧
    read3 buf1 p = some (b0, b1, b2) := by
  unfold write3 at h
  split at h
  · rename_i hlt
    cases h
    refine ⟨hlt, by simp, ?_, ?_⟩
    · intro j hj
      rw [List.getElem?_set_ne (by omega), List.getElem?_set_ne (by omega),
        List.getElem?_set_ne (by omega)]
    · have e0 : (((buf.set p b0).set (p + 1) b1).set (p + 2) b2)[p]? = some b0 := by
        rw [List.getElem?_set_ne (by omega), List.getElem?_set_ne (by omega),
          List.getElem?_set_self (by omega)]
      have e1 : (((buf.set p b0).set (p + 1) b1).set (p + 2) b2)[p + 1]? = some b1 := by
        rw [List.getElem?_set_ne (by omega), List.getElem?_set_self (by simp; omega)]
      have e2 : (((buf.set p b0).set (p + 1) b1).set (p + 2) b2)[p + 2]? = some b2 := by
        rw [List.getElem?_set_self (by simp; omega)]
      unfold read3
      rw [e0, e1, e2]
  · cases h

theorem write3_isSome {buf : List Byte} {p : Nat} (b0 b1 b2 : Byte) (h : p + 2 < buf.length) :
    ∃ buf1, write3 buf p b0 b1 b2 = some buf1 := by
  unfold write3
  rw [if_pos h]
  exact ⟨_, rfl⟩

theorem applyOutcome_spec {buf buf1 : List Byte} {p : Nat} {o : Outcome}
    (h : applyOutcome buf p o = some buf1) : Stored buf p o buf1 := by
  cases o with
  | keep =>
    simp only [applyOutcome, Option.some.injEq] at h
    subst h
    exact ⟨rfl, fun _ _ => rfl, rfl⟩
  | put b0 b1 b2 =>
    obtain ⟨_, h1, h2, h3⟩ := write3_spec h
    exact ⟨h1, h2, h3⟩

theorem applyOutcome_isSome (buf : List Byte) (p : Nat) (o : Outcome) (h : p + 2 < buf.length) :
    ∃ buf1, applyOutcome buf p o = some buf1 := by
  cases o with
  | keep => exact ⟨_, rfl⟩
  | put b0 b1 b2 => exact write3_isSome b0 b1 b2 h

/-! ## The loops in terms of outcomes -/

theorem inward_eq (c : Search) (p : Nat) (buf : List Byte) (count : Nat) (r : Fl) :
    inward c p count r buf = (inwardOutcome c count r).bind (applyOutcome buf p) := by
  induction count generalizing r with
  | zero => rfl
  | succ n ih =>
    unfold inward inwardOutcome
    split
    · rfl
    · split
      · rfl
      · split
        · rfl
        · exact ih _

theorem pixel_eq (P : Pass) (ix iy : Int) (p : Nat) (buf : List Byte) :
    pixel P ix iy p buf = (pixelOutcome P ix iy).bind (applyOutcome buf p) := by
  unfold pixel pixelOutcome
  simp only
  split
  · rfl
  · split
    · rfl
    · rename_i r1 h; exact inward_eq _ _ _ _ _

/-! ## Reads of the source stay inside its buffer -/

theorem outOfBounds_eq_false {image : Surface} {x y : Int}
    (h : ¬ outOfBounds image x y = true) : 0 ≤ x ∧ 0 ≤ y ∧ x < image.w ∧ y < image.h := by
  simp only [outOfBounds, Bool.or_eq_true, decide_eq_true_eq, not_or, not_lt, ge_iff_le,
    not_le] at h
  omega

theorem outOfBounds_eq_true {image : Surface} {x y : Int}
    (h : outOfBounds image x y = true) : x < 0 ∨ y < 0 ∨ image.w ≤ x ∨ image.h ≤ y := by
  simp only [outOfBounds, Bool.or_eq_true, decide_eq_true_eq, ge_iff_le] at h
  omega

theorem offset_lt {image : Surface} (hwf : image.WF) {x y : Int}
    (h : ¬ outOfBounds image x y = true) : offset image 3 x y + 2 < image.pixels.length := by
  obtain ⟨hx, hy, hxw, hyh⟩ := outOfBounds_eq_false h
  obtain ⟨_, hp, hl⟩ := hwf
  have h1 : (y + 1) * (image.pitch : Int) ≤ image.h * (image.pitch : Int) :=
    Int.mul_le_mul_of_nonneg_right (by omega) (by omega)
  have h2 : (y + 1) * (image.pitch : Int) = y * (image.pitch : Int) + image.pitch := by ring
  have h3 : 0 ≤ y * (image.pitch : Int) := Int.mul_nonneg hy (by omega)
  unfold offset
  have h4 : ((y * (image.pitch : Int) + x * ((3 : Nat) : Int)).toNat : Int)
      = y * (image.pitch : Int) + x * 3 := by
    rw [Int.toNat_of_nonneg (by push_cast; omega)]; push_cast; ring
  omega

theorem outward_isSome (c : Search) (hwf : c.src.WF) (hb : c.bpp = 3) (count : Nat) (r : Fl) :
    ∃ r1, outward c count r = some r1 := by
  induction count generalizing r with
  | zero => exact ⟨r, rfl⟩
  | succ n ih =>
    unfold outward
    split
    · exact ih _
    · rename_i hin
      obtain ⟨q, hq⟩ := read3_isSome (offset_lt hwf hin)
      rw [hb, hq]
      obtain ⟨q0, q1, q2⟩ := q
      simp only
      split
      · exact ⟨r, rfl⟩
      · exact ih _

theorem inwardOutcome_isSome (c : Search) (hwf : c.src.WF) (hb : c.bpp = 3) (count : Nat)
    (r : Fl) : ∃ o, inwardOutcome c count r = some o := by
  induction count generalizing r with
  | zero => exact ⟨_, rfl⟩
  | succ n ih =>
    unfold inwardOutcome
    split
    · exact ⟨_, rfl⟩
    · rename_i hin
      obtain ⟨q, hq⟩ := read3_isSome (offset_lt hwf hin)
      rw [hb, hq]
      obtain ⟨q0, q1, q2⟩ := q
      simp only
      split
      · exact ⟨_, rfl⟩
      · exact ih _

theorem remap_src (P : Pass) (x y r : Fl) : (remap P x y r).1.src = P.src := rfl
theorem remap_bpp (P : Pass) (x y r : Fl) : (remap P x y r).1.bpp = P.bpp := rfl
theorem remap_clearColour (P : Pass) (x y r : Fl) :
    (remap P x y r).1.clearColour = P.clearColour := rfl

theorem pixelOutcome_isSome (P : Pass) (hwf : P.src.WF) (hb : P.bpp = 3) (ix iy : Int) :
    ∃ o, pixelOutcome P ix iy = some o := by
  unfold pixelOutcome
  simp only
  generalize radius (vecX P ix) (vecY P iy) = r
  generalize vecX P ix = x
  generalize vecY P iy = y
  by_cases hc : tooClose r = true
  · rw [if_pos hc]
    exact ⟨_, rfl⟩
  · rw [if_neg hc]
    have hwf1 : (remap P x y r).1.src.WF := by rw [remap_src]; exact hwf
    have hb1 : (remap P x y r).1.bpp = 3 := by rw [remap_bpp]; exact hb
    obtain ⟨r1, h1⟩ := outward_isSome (remap P x y r).1 hwf1 hb1 maxTries (remap P x y r).2
    rw [h1]
    exact inwardOutcome_isSome _ hwf1 hb1 _ _

/-! ## The row loop and the loop over rows -/

theorem rowLoop_zero (P : Pass) (iy ix : Int) (p : Nat) (buf : List Byte) :
    rowLoop P iy 0 ix p buf = some buf := rfl

theorem rowLoop_succ (P : Pass) (iy ix : Int) (n p : Nat) (buf : List Byte) :
    rowLoop P iy (n + 1) ix p buf =
      (pixel P ix iy p buf).bind (fun buf1 => rowLoop P iy n (ix + 1) (p + P.bpp) buf1) := by
  cases h : pixel P ix iy p buf with
  | none => show (match pixel P ix iy p buf with
      | none => none
      | some buf1 => rowLoop P iy n (ix + 1) (p + P.bpp) buf1) = _
            rw [h]; rfl
  | some b => show (match pixel P ix iy p buf with
      | none => none
      | some buf1 => rowLoop P iy n (ix + 1) (p + P.bpp) buf1) = _
              rw [h]; rfl

theorem rowLoop_spec (P : Pass) (hb : P.bpp = 3) (iy : Int) :
    ∀ (n : Nat) (ix : Int) (p : Nat) (buf buf1 : List Byte),
      rowLoop P iy n ix p buf = some buf1 →
      buf1.length = buf.length ∧
      (∀ j, (j < p ∨ p + 3 * n ≤ j) → buf1[j]? = buf[j]?) ∧
      ∀ t : Nat, t < n → ∃ o, pixelOutcome P (ix + t) iy = some o ∧
        read3 buf1 (p + 3 * t) = o.bytes (read3 buf (p + 3 * t)) := by
  intro n
  induction n with
  | zero =>
    intro ix p buf buf1 h
    rw [rowLoop_zero] at h
    cases h
    exact ⟨rfl, fun _ _ => rfl, fun t ht => absurd ht (Nat.not_lt_zero t)⟩
  | succ n ih =>
    intro ix p buf buf1 h
    rw [rowLoop_succ, pixel_eq] at h
    cases ho : pixelOutcome P ix iy with
    | none => rw [ho] at h; cases h
    | some o =>
      rw [ho] at h
      cases hpix : applyOutcome buf p o with
      | none => rw [Option.some_bind, hpix] at h; cases h
      | some bufm =>
        rw [Option.some_bind, hpix, Option.some_bind] at h
        obtain ⟨hl1, hf1, hr1⟩ := applyOutcome_spec hpix
        rw [hb] at h
        obtain ⟨hl2, hf2, hr2⟩ := ih (ix + 1) (p + 3) bufm buf1 h
        refine ⟨by rw [hl2, hl1], ?_, ?_⟩
        · intro j hj
          rw [hf2 j (by omega), hf1 j (by omega)]
        · intro t ht
          cases t with
          | zero =>
            refine ⟨o, by simpa using ho, ?_⟩
            have : read3 buf1 (p + 3 * 0) = read3 bufm p :=
              read3_congr (fun j h1 h2 => hf2 j (by omega))
            rw [this, hr1]
            rfl
          | succ t =>
            obtain ⟨o2, ho2, hb2⟩ := hr2 t (by omega)
            have e1 : ix + ((t + 1 : Nat) : Int) = ix + 1 + (t : Int) := by push_cast; ring
            have e2 : p + 3 * (t + 1) = p + 3 + 3 * t := by ring
            refine ⟨o2, by rw [e1]; exact ho2, ?_⟩
            rw [e2, hb2]
            congr 1
            exact read3_congr (fun j h1 h2 => hf1 j (by omega))

theorem rowLoop_isSome (P : Pass) (hb : P.bpp = 3) (hwf : P.src.WF) (iy : Int) :
    ∀ (n : Nat) (ix : Int) (p : Nat) (buf : List Byte), p + 3 * n ≤ buf.length →
      ∃ buf1, rowLoop P iy n ix p buf = some buf1 := by
  intro n
  induction n with
  | zero => intro ix p buf _; exact ⟨buf, rowLoop_zero P iy ix p buf⟩
  | succ n ih =>
    intro ix p buf hlen
    obtain ⟨o, ho⟩ := pixelOutcome_isSome P hwf hb ix iy
    obtain ⟨bufm, hm⟩ := applyOutcome_isSome buf p o (by omega)
    obtain ⟨hl, _, _⟩ := applyOutcome_spec hm
    obtain ⟨buf1, h1⟩ := ih (ix + 1) (p + 3) bufm (by omega)
    refine ⟨buf1, ?_⟩
    rw [rowLoop_succ, pixel_eq, ho, Option.some_bind, hm, Option.some_bind, hb]
    exact h1

theorem rowsLoop_zero (P : Pass) (w : Int) (pitch : Nat) (iy : Int) (buf : List Byte) :
    rowsLoop P w pitch 0 iy buf = some buf := rfl

theorem rowsLoop_succ (P : Pass) (w : Int) (pitch n : Nat) (iy : Int) (buf : List Byte) :
    rowsLoop P w pitch (n + 1) iy buf =
      (rowLoop P iy w.toNat 0 (iy * (pitch : Int)).toNat buf).bind
        (fun buf1 => rowsLoop P w pitch n (iy + 1) buf1) := by
  cases h : rowLoop P iy w.toNat 0 (iy * (pitch : Int)).toNat buf with
  | none => show (match rowLoop P iy w.toNat 0 (iy * (pitch : Int)).toNat buf with
      | none => none
      | some buf1 => rowsLoop P w pitch n (iy + 1) buf1) = _
            rw [h]; rfl
  | some b => show (match rowLoop P iy w.toNat 0 (iy * (pitch : Int)).toNat buf with
      | none => none
      | some buf1 => rowsLoop P w pitch n (iy + 1) buf1) = _
              rw [h]; rfl

theorem rowStart_eq (i pitch : Nat) : ((i : Int) * (pitch : Int)).toNat = i * pitch := by
  rw [← Nat.cast_mul]; exact Int.toNat_ofNat _

theorem rowsLoop_spec (P : Pass) (hb : P.bpp = 3) (w : Int) (pitch : Nat)
    (hw : 3 * w ≤ (pitch : Int)) :
    ∀ (n i : Nat) (buf buf1 : List Byte),
      rowsLoop P w pitch n (i : Int) buf = some buf1 →
      buf1.length = buf.length ∧
      (∀ j, (∀ t u : Nat, t < n → (u : Int) < w →
          (j < (i + t) * pitch + 3 * u ∨ (i + t) * pitch + 3 * u + 3 ≤ j)) →
        buf1[j]? = buf[j]?) ∧
      ∀ t u : Nat, t < n → (u : Int) < w →
        ∃ o, pixelOutcome P (u : Int) ((i + t : Nat) : Int) = some o ∧
          read3 buf1 ((i + t) * pitch + 3 * u) = o.bytes (read3 buf ((i + t) * pitch + 3 * u)) := by
  intro n
  induction n with
  | zero =>
    intro i buf buf1 h
    rw [rowsLoop_zero] at h
    cases h
    exact ⟨rfl, fun _ _ => rfl, fun t u ht => absurd ht (Nat.not_lt_zero t)⟩
  | succ n ih =>
    intro i buf buf1 h
    rw [rowsLoop_succ, rowStart_eq] at h
    cases hrow : rowLoop P (i : Int) w.toNat 0 (i * pitch) buf with
    | none => rw [hrow] at h; cases h
    | some bufm =>
      rw [hrow, Option.some_bind] at h
      obtain ⟨hl1, hf1, hr1⟩ := rowLoop_spec P hb (i : Int) w.toNat 0 (i * pitch) buf bufm hrow
      have hcast : (i : Int) + 1 = ((i + 1 : Nat) : Int) := by push_cast; rfl
      rw [hcast] at h
      obtain ⟨hl2, hf2, hr2⟩ := ih (i + 1) bufm buf1 h
      have hrows : ∀ t : Nat, (i + (t + 1)) * pitch = (i + 1 + t) * pitch := by
        intro t; ring
      have hge : ∀ t : Nat, i * pitch + pitch ≤ (i + 1 + t) * pitch := by
        intro t
        have : (i + 1) * pitch ≤ (i + 1 + t) * pitch := Nat.mul_le_mul_right _ (by omega)
        have e : (i + 1) * pitch = i * pitch + pitch := by ring
        omega
      have hi0 : (i + 0) * pitch = i * pitch := by rw [Nat.add_zero]
      refine ⟨by rw [hl2, hl1], ?_, ?_⟩
      · intro j hj
        have hj2 : buf1[j]? = bufm[j]? := by
          apply hf2
          intro t u ht hu
          have := hj (t + 1) u (by omega) hu
          rw [hrows] at this
          exact this
        rw [hj2]
        apply hf1
        by_contra hcon
        have hu := hj 0 ((j - i * pitch) / 3) (by omega) (by omega)
        rw [hi0] at hu
        omega
      · intro t u ht hu
        cases t with
        | zero =>
          obtain ⟨o, ho, hbytes⟩ := hr1 u (by omega)
          refine ⟨o, by simpa using ho, ?_⟩
          rw [hi0]
          have : read3 buf1 (i * pitch + 3 * u) = read3 bufm (i * pitch + 3 * u) := by
            apply read3_congr
            intro j h1 h2
            apply hf2
            intro t2 u2 _ _
            have := hge t2
            omega
          rw [this, hbytes]
        | succ t =>
          obtain ⟨o, ho, hbytes⟩ := hr2 t u (by omega) hu
          have e1 : ((i + (t + 1) : Nat) : Int) = ((i + 1 + t : Nat) : Int) := by
            push_cast; ring
          refine ⟨o, by rw [e1]; exact ho, ?_⟩
          rw [hrows, hbytes]
          congr 1
          apply read3_congr
          intro j h1 h2
          apply hf1
          have := hge t
          omega

theorem rowsLoop_isSome (P : Pass) (hb : P.bpp = 3) (hwf : P.src.WF) (w : Int) (pitch : Nat)
    (hw : 3 * w ≤ (pitch : Int)) :
    ∀ (n i : Nat) (buf : List Byte), (i + n) * pitch ≤ buf.length →
      ∃ buf1, rowsLoop P w pitch n (i : Int) buf = some buf1 := by
  intro n
  induction n with
  | zero => intro i buf _; exact ⟨buf, rowsLoop_zero P w pitch _ buf⟩
  | succ n ih =>
    intro i buf hlen
    have e : (i + (n + 1)) * pitch = i * pitch + pitch + n * pitch := by ring
    obtain ⟨bufm, hm⟩ := rowLoop_isSome P hb hwf (i : Int) w.toNat 0 (i * pitch) buf (by omega)
    obtain ⟨hl, _, _⟩ := rowLoop_spec P hb (i : Int) w.toNat 0 (i * pitch) buf bufm hm
    have e2 : (i + 1 + n) * pitch = i * pitch + pitch + n * pitch := by ring
    obtain ⟨buf1, h1⟩ := ih (i + 1) bufm (by omega)
    refine ⟨buf1, ?_⟩
    rw [rowsLoop_succ, rowStart_eq, hm, Option.some_bind]
    have hcast : (i : Int) + 1 = ((i + 1 : Nat) : Int) := by push_cast; rfl
    rw [hcast]
    exact h1

/-! ## One pass of the mapper -/

theorem offset_nat (image : Surface) (ix iy : Nat) :
    offset image 3 (ix : Int) (iy : Int) = iy * image.pitch + 3 * ix := by
  unfold offset
  have : (iy : Int) * (image.pitch : Int) + (ix : Int) * ((3 : Nat) : Int)
      = ((iy * image.pitch + 3 * ix : Nat) : Int) := by push_cast; ring
  rw [this]; exact Int.toNat_ofNat _

theorem escher_eq (m : Libm) (dest src : Surface) (clearColour : Nat)
    (xOff yOff _alpha _beta : Fl)
    (hw : dest.w = src.w) (hh : dest.h = src.h) (hb : dest.bpp = 3) (hsb : src.bpp = 3) :
    escher m dest src clearColour xOff yOff _alpha _beta =
      (rowsLoop (passOf m src clearColour xOff yOff _alpha _beta) dest.w dest.pitch
        dest.h.toNat 0 dest.pixels).map (fun buf => { dest with pixels := buf }) := by
  unfold escher
  rw [if_pos ⟨hw, hh, by rw [hb, hsb]⟩]
  simp only
  rw [if_pos hb, hb]
  unfold passOf
  cases rowsLoop ⟨m, src, clearColour, xOff, yOff, 3, normalise _alpha, normalise _beta,
    baseScaleOf m (normalise _alpha)⟩ dest.w dest.pitch dest.h.toNat 0 dest.pixels <;> rfl

/-- One pass of the mapper on well-formed surfaces of equal size: it returns
a surface with the fields of the destination, the bytes outside the pixels
are those of the destination, and each pixel holds what its outcome says. -/
theorem escher_spec (m : Libm) (dest src : Surface) (clearColour : Nat)
    (xOff yOff _alpha _beta : Fl)
    (hd : dest.WF) (hs : src.WF) (hw : dest.w = src.w) (hh : dest.h = src.h) :
    ∃ out, escher m dest src clearColour xOff yOff _alpha _beta = some out ∧
      out.w = dest.w ∧ out.h = dest.h ∧ out.pitch = dest.pitch ∧ out.bpp = dest.bpp ∧
      out.pixels.length = dest.pixels.length ∧
      (∀ j, ¬ inPixelArea dest.w dest.h dest.pitch j → out.pixels[j]? = dest.pixels[j]?) ∧
      ∀ ix iy : Nat, (ix : Int) < dest.w → (iy : Int) < dest.h →
        ∃ o, pixelOutcome (passOf m src clearColour xOff yOff _alpha _beta) ix iy = some o ∧
          read3 out.pixels (offset out 3 ix iy) =
            o.bytes (read3 dest.pixels (offset dest 3 ix iy)) := by
  have hP : (passOf m src clearColour xOff yOff _alpha _beta).bpp = 3 := rfl
  have hPs : (passOf m src clearColour xOff yOff _alpha _beta).src.WF := hs
  have hlen : (0 + dest.h.toNat) * dest.pitch ≤ dest.pixels.length := by
    rw [Nat.zero_add]
    rcases Int.lt_or_le dest.h 0 with hneg | hpos
    · rw [Int.toNat_eq_zero.mpr (by omega : dest.h ≤ 0)]; omega
    · have h3 := hd.2.2
      have h4 : ((dest.h.toNat * dest.pitch : Nat) : Int) = dest.h * (dest.pitch : Int) := by
        push_cast; rw [Int.toNat_of_nonneg hpos]
      omega
  obtain ⟨buf1, h1⟩ := rowsLoop_isSome _ hP hPs dest.w dest.pitch hd.2.1 dest.h.toNat 0
    dest.pixels hlen
  have h1' : rowsLoop (passOf m src clearColour xOff yOff _alpha _beta) dest.w dest.pitch
      dest.h.toNat 0 dest.pixels = some buf1 := h1
  obtain ⟨hl, hf, hr⟩ := rowsLoop_spec _ hP dest.w dest.pitch hd.2.1 dest.h.toNat 0
    dest.pixels buf1 h1
  refine ⟨{ dest with pixels := buf1 }, ?_, rfl, rfl, rfl, rfl, hl, ?_, ?_⟩
  · rw [escher_eq m dest src clearColour xOff yOff _alpha _beta hw hh hd.1 hs.1, h1']
    rfl
  · intro j hj
    apply hf
    intro t u ht hu
    by_contra hcon
    apply hj
    refine ⟨u, t, hu, by omega, ?_, ?_⟩ <;> · rw [Nat.zero_add] at hcon; omega
  · intro ix iy hix hiy
    obtain ⟨o, ho, hbytes⟩ := hr iy ix (by omega) hix
    rw [Nat.zero_add] at ho hbytes
    refine ⟨o, ho, ?_⟩
    rw [offset_nat, offset_nat]
    exact hbytes

/-! ## Facts of the arithmetic used at the centre -/

theorem bitLenAux_zero (fuel : Nat) : bitLenAux fuel 0 = 0 := by
  cases fuel <;> simp [bitLenAux]

theorem two_pow_bitLenAux_le (fuel : Nat) : ∀ n : Nat, n ≠ 0 → 2 ^ bitLenAux fuel n ≤ 2 * n := by
  induction fuel with
  | zero => intro n hn; simp only [bitLenAux, pow_zero]; omega
  | succ f ih =>
    intro n hn
    rw [bitLenAux, if_neg hn, pow_succ]
    by_cases h2 : n / 2 = 0
    · rw [h2, bitLenAux_zero]; omega
    · have := ih (n / 2) h2
      omega

theorem roundQ_one_finite (f : Fmt) (neg : Bool) (n : Nat) (h : 3 * n < 2 ^ f.top) :
    ∃ k, roundQ f neg n 1 = Fl.fin neg k := by
  unfold roundQ
  simp only [Nat.div_one, one_mul]
  generalize hs : bitLen n - f.prec = s
  have hpow : n = 0 ∨ 2 ^ s ≤ 2 * n := by
    by_cases hn : n = 0
    · exact Or.inl hn
    · right
      have h1 := two_pow_bitLenAux_le 4400 n hn
      have h2 : 2 ^ s ≤ 2 ^ bitLenAux 4400 n :=
        Nat.pow_le_pow_right (by omega) (by rw [← hs]; unfold bitLen; omega)
      omega
  have hm : n / 2 ^ s * 2 ^ s ≤ n := Nat.div_mul_le_self n (2 ^ s)
  have hpos : 0 < 2 ^ s := Nat.pow_pos (by omega)
  have hmod : n % 2 ^ s < 2 ^ s := Nat.mod_lt _ hpos
  have hdm : 2 ^ s * (n / 2 ^ s) + n % 2 ^ s = n := Nat.div_add_mod n (2 ^ s)
  split
  · rename_i hup
    have e : (n / 2 ^ s + 1) * 2 ^ s = n / 2 ^ s * 2 ^ s + 2 ^ s := by ring
    rw [if_neg]
    · exact ⟨_, rfl⟩
    · rw [e]
      rcases hpow with h0 | hp
      · subst h0
        simp at hup
      · have e2 : 2 ^ s * (n / 2 ^ s) = n / 2 ^ s * 2 ^ s := Nat.mul_comm _ _
        rcases hup with h1 | ⟨h1, _⟩ <;> omega
  · rw [if_neg (by omega)]
    exact ⟨_, rfl⟩

theorem ofInt_finite (n : Int) (h : -2147483648 ≤ n ∧ n ≤ 2147483647) :
    ∃ s k, ofInt n = Fl.fin s k := by
  have hb : 3 * (n.natAbs * 2 ^ binary32.unit) < 2 ^ binary32.top := by
    have h1 : n.natAbs ≤ 2147483648 := by omega
    have h2 : n.natAbs * 2 ^ binary32.unit ≤ 2147483648 * 2 ^ binary32.unit :=
      Nat.mul_le_mul_right _ h1
    have h3 : 3 * (2147483648 * 2 ^ binary32.unit) < 2 ^ binary32.top := by
      simp only [binary32]; norm_num
    omega
  obtain ⟨k, hk⟩ := roundQ_one_finite binary32 (decide (n < 0)) _ hb
  exact ⟨_, k, hk⟩

theorem fsub_self_fin (s : Bool) (k : Nat) : fsub (Fl.fin s k) (Fl.fin s k) = Fl.fin false 0 := by
  cases s <;> simp [fsub, subF, fneg, addF, signedUnits]

theorem radius_zero : radius (Fl.fin false 0) (Fl.fin false 0) = Fl.fin false 0 := by decide

theorem tooClose_zero : tooClose (Fl.fin false 0) = true := by decide

/-- At the pixel whose coordinates are the centre, the loop body stores
black. -/
theorem pixelOutcome_centre (P : Pass) (cx cy : Int)
    (hx : -2147483648 ≤ cx ∧ cx ≤ 2147483647) (hy : -2147483648 ≤ cy ∧ cy ≤ 2147483647)
    (hxo : P.xOff = ofInt cx) (hyo : P.yOff = ofInt cy) :
    pixelOutcome P cx cy = some (Outcome.put 0x0 0x0 0x0) := by
  obtain ⟨s1, k1, h1⟩ := ofInt_finite cx hx
  obtain ⟨s2, k2, h2⟩ := ofInt_finite cy hy
  have ex : vecX P cx = Fl.fin false 0 := by
    unfold vecX; rw [hxo, h1]; exact fsub_self_fin s1 k1
  have ey : vecY P cy = Fl.fin false 0 := by
    unfold vecY; rw [hyo, h2]; exact fsub_self_fin s2 k2
  unfold pixelOutcome
  simp only
  rw [ex, ey, radius_zero, if_pos tooClose_zero]

/-! ## The second loop, candidate by candidate -/

theorem inwardOutcome_succ (c : Search) (n : Nat) (r : Fl) :
    inwardOutcome c (n + 1) r =
      match classify c r with
      | Cand.outside => some (Outcome.put 0xff 0x0 0x0)
      | Cand.marker => inwardOutcome c n (fdiv r c.baseScale)
      | Cand.colour q0 q1 q2 => some (Outcome.put q0 q1 q2)
      | Cand.fault => none := by
  unfold classify
  rw [inwardOutcome]
  by_cases h : outOfBounds c.src (candX c r) (candY c r) = true
  · rw [if_pos h, if_pos h]
  · rw [if_neg h, if_neg h]
    cases hq : read3 c.src.pixels (offset c.src c.bpp (candX c r) (candY c r)) with
    | none => rfl
    | some q =>
      obtain ⟨q0, q1, q2⟩ := q
      simp only
      by_cases hm : pack q0 q1 q2 = c.clearColour
      · rw [if_pos hm, if_neg (by simp [hm])]
      · rw [if_neg hm, if_pos hm]

theorem outward_succ (c : Search) (n : Nat) (r : Fl) :
    outward c (n + 1) r =
      match classify c r with
      | Cand.outside => outward c n (fmul r c.baseScale)
      | Cand.marker => some r
      | Cand.colour _ _ _ => outward c n (fmul r c.baseScale)
      | Cand.fault => none := by
  unfold classify
  rw [outward]
  by_cases h : outOfBounds c.src (candX c r) (candY c r) = true
  · rw [if_pos h, if_pos h]
  · rw [if_neg h, if_neg h]
    cases hq : read3 c.src.pixels (offset c.src c.bpp (candX c r) (candY c r)) with
    | none => rfl
    | some q =>
      obtain ⟨q0, q1, q2⟩ := q
      simp only
      by_cases hm : pack q0 q1 q2 = c.clearColour
      · rw [if_pos hm, if_pos hm]
      · rw [if_neg hm, if_neg hm]

theorem classify_outside {c : Search} {r : Fl} (h : classify c r = Cand.outside) :
    outOfBounds c.src (candX c r) (candY c r) = true := by
  unfold classify at h
  by_cases ho : outOfBounds c.src (candX c r) (candY c r) = true
  · exact ho
  · rw [if_neg ho] at h
    cases hq : read3 c.src.pixels (offset c.src c.bpp (candX c r) (candY c r)) with
    | none => rw [hq] at h; cases h
    | some q =>
      obtain ⟨q0, q1, q2⟩ := q
      rw [hq] at h
      simp only at h
      split at h <;> cases h

theorem classify_colour {c : Search} {r : Fl} {q0 q1 q2 : Byte}
    (h : classify c r = Cand.colour q0 q1 q2) :
    outOfBounds c.src (candX c r) (candY c r) = false ∧
    read3 c.src.pixels (offset c.src c.bpp (candX c r) (candY c r)) = some (q0, q1, q2) ∧
    pack q0 q1 q2 ≠ c.clearColour := by
  unfold classify at h
  by_cases ho : outOfBounds c.src (candX c r) (candY c r) = true
  · rw [if_pos ho] at h; cases h
  · rw [if_neg ho] at h
    cases hq : read3 c.src.pixels (offset c.src c.bpp (candX c r) (candY c r)) with
    | none => rw [hq] at h; cases h
    | some q =>
      obtain ⟨p0, p1, p2⟩ := q
      rw [hq] at h
      simp only at h
      by_cases hm : pack p0 p1 p2 = c.clearColour
      · rw [if_pos hm] at h; cases h
      · rw [if_neg hm] at h
        cases h
        exact ⟨by simpa using ho, rfl, hm⟩

theorem classify_marker {c : Search} {r : Fl} (h : classify c r = Cand.marker) :
    outOfBounds c.src (candX c r) (candY c r) = false ∧
    ∃ q0 q1 q2,
      read3 c.src.pixels (offset c.src c.bpp (candX c r) (candY c r)) = some (q0, q1, q2) ∧
      pack q0 q1 q2 = c.clearColour := by
  unfold classify at h
  by_cases ho : outOfBounds c.src (candX c r) (candY c r) = true
  · rw [if_pos ho] at h; cases h
  · rw [if_neg ho] at h
    cases hq : read3 c.src.pixels (offset c.src c.bpp (candX c r) (candY c r)) with
    | none => rw [hq] at h; cases h
    | some q =>
      obtain ⟨p0, p1, p2⟩ := q
      rw [hq] at h
      simp only at h
      by_cases hm : pack p0 p1 p2 = c.clearColour
      · exact ⟨by simpa using ho, p0, p1, p2, rfl, hm⟩
      · rw [if_neg hm] at h; cases h

/-- The first candidate of the second loop that is not an in-bounds marker
pixel decides the outcome. -/
theorem inwardOutcome_first (c : Search) :
    ∀ (k n : Nat) (r : Fl), k < n →
      (∀ j, j < k → classify c (radiusAt c r j) = Cand.marker) →
      (classify c (radiusAt c r k) = Cand.outside →
        inwardOutcome c n r = some (Outcome.put 0xff 0x0 0x0)) ∧
      (∀ q0 q1 q2, classify c (radiusAt c r k) = Cand.colour q0 q1 q2 →
        inwardOutcome c n r = some (Outcome.put q0 q1 q2)) := by
  intro k
  induction k with
  | zero =>
    intro n r hn _
    obtain ⟨n1, rfl⟩ : ∃ n1, n = n1 + 1 := ⟨n - 1, by omega⟩
    refine ⟨fun h => ?_, fun q0 q1 q2 h => ?_⟩
    · rw [inwardOutcome_succ]; simp only [radiusAt] at h; rw [h]
    · rw [inwardOutcome_succ]; simp only [radiusAt] at h; rw [h]
  | succ k ih =>
    intro n r hn hm
    obtain ⟨n1, rfl⟩ : ∃ n1, n = n1 + 1 := ⟨n - 1, by omega⟩
    have h0 : classify c r = Cand.marker := hm 0 (by omega)
    have hrest : ∀ j, j < k → classify c (radiusAt c (fdiv r c.baseScale) j) = Cand.marker :=
      fun j hj => hm (j + 1) (by omega)
    obtain ⟨i1, i2⟩ := ih n1 (fdiv r c.baseScale) (by omega) hrest
    refine ⟨fun h => ?_, fun q0 q1 q2 h => ?_⟩
    · rw [inwardOutcome_succ, h0]; exact i1 h
    · rw [inwardOutcome_succ, h0]; exact i2 q0 q1 q2 h

/-- The second loop leaves the pixel alone only when every one of its
candidates is an in-bounds marker pixel. -/
theorem inwardOutcome_keep (c : Search) :
    ∀ (n : Nat) (r : Fl), inwardOutcome c n r = some Outcome.keep →
      ∀ k, k < n → classify c (radiusAt c r k) = Cand.marker := by
  intro n
  induction n with
  | zero => intro r _ k hk; omega
  | succ n ih =>
    intro r h k hk
    rw [inwardOutcome_succ] at h
    cases hc : classify c r with
    | outside => rw [hc] at h; cases h
    | colour q0 q1 q2 => rw [hc] at h; cases h
    | fault => rw [hc] at h; cases h
    | marker =>
      rw [hc] at h
      cases k with
      | zero => exact hc
      | succ k => exact ih _ h k (by omega)

/-- A stored outcome of the second loop is the red sentinel of an outside
candidate or the bytes of an in-bounds candidate that is not marker
coloured, after marker candidates only. -/
theorem inwardOutcome_put (c : Search) :
    ∀ (n : Nat) (r : Fl) (b0 b1 b2 : Byte),
      inwardOutcome c n r = some (Outcome.put b0 b1 b2) →
      ∃ k, k < n ∧ (∀ j, j < k → classify c (radiusAt c r j) = Cand.marker) ∧
        ((classify c (radiusAt c r k) = Cand.outside ∧ (b0, b1, b2) = (0xff, 0x0, 0x0)) ∨
          classify c (radiusAt c r k) = Cand.colour b0 b1 b2) := by
  intro n
  induction n with
  | zero => intro r b0 b1 b2 h; simp [inwardOutcome] at h
  | succ n ih =>
    intro r b0 b1 b2 h
    rw [inwardOutcome_succ] at h
    cases hc : classify c r with
    | outside =>
      rw [hc] at h
      simp only [Option.some.injEq, Outcome.put.injEq] at h
      obtain ⟨rfl, rfl, rfl⟩ := h
      exact ⟨0, by omega, fun j hj => by omega, Or.inl ⟨hc, rfl⟩⟩
    | colour q0 q1 q2 =>
      rw [hc] at h
      simp only [Option.some.injEq, Outcome.put.injEq] at h
      obtain ⟨rfl, rfl, rfl⟩ := h
      exact ⟨0, by omega, fun j hj => by omega, Or.inr hc⟩
    | fault => rw [hc] at h; cases h
    | marker =>
      rw [hc] at h
      obtain ⟨k, hk, hm, hd⟩ := ih _ _ _ _ h
      refine ⟨k + 1, by omega, ?_, hd⟩
      intro j hj
      cases j with
      | zero => exact hc
      | succ j => exact hm j (by omega)

theorem pixelOutcome_eq (P : Pass) (ix iy : Int) :
    pixelOutcome P ix iy =
      if atCentre P ix iy then some (Outcome.put 0x0 0x0 0x0)
      else (outward (searchOf P ix iy) maxTries (startRadius P ix iy)).bind
        (fun r1 => inwardOutcome (searchOf P ix iy) maxTries r1) := by
  unfold pixelOutcome atCentre searchOf startRadius
  simp only
  by_cases hc : tooClose (radius (vecX P ix) (vecY P iy)) = true
  · rw [if_pos hc, if_pos hc]
  · rw [if_neg hc, if_neg hc]
    cases outward (remap P (vecX P ix) (vecY P iy) (radius (vecX P ix) (vecY P iy))).1 maxTries
      (remap P (vecX P ix) (vecY P iy) (radius (vecX P ix) (vecY P iy))).2 <;> rfl

/-! ## One pixel of a pass -/

theorem searchOf_src (P : Pass) (ix iy : Int) : (searchOf P ix iy).src = P.src := rfl

theorem searchOf_bpp (P : Pass) (ix iy : Int) : (searchOf P ix iy).bpp = P.bpp := rfl

theorem searchOf_clearColour (P : Pass) (ix iy : Int) :
    (searchOf P ix iy).clearColour = P.clearColour := rfl

theorem getPixel_of_read3 (d : Surface) (hb : d.bpp = 3) (x y : Int) (q0 q1 q2 : Byte)
    (hin : outOfBounds d x y = false)
    (hr : read3 d.pixels (offset d 3 x y) = some (q0, q1, q2)) :
    getPixel d x y = some (pack q0 q1 q2) := by
  unfold getPixel
  rw [if_neg (by simp [hin]), hb, hr]

theorem outOfBounds_nat (d : Surface) (ix iy : Nat) (hx : (ix : Int) < d.w)
    (hy : (iy : Int) < d.h) : outOfBounds d ix iy = false := by
  cases h : outOfBounds d (ix : Int) (iy : Int) with
  | false => rfl
  | true => have := outOfBounds_eq_true h; omega

/-- The bytes of one pixel after a pass, from the outcome of that pixel. -/
theorem escher_pixel (m : Libm) (dest src : Surface) (clearColour : Nat)
    (xOff yOff _alpha _beta : Fl)
    (hd : dest.WF) (hs : src.WF) (hw : dest.w = src.w) (hh : dest.h = src.h)
    (ix iy : Nat) (hx : (ix : Int) < dest.w) (hy : (iy : Int) < dest.h) (o : Outcome)
    (ho : pixelOutcome (passOf m src clearColour xOff yOff _alpha _beta) ix iy = some o) :
    ∃ out, escher m dest src clearColour xOff yOff _alpha _beta = some out ∧
      out.w = dest.w ∧ out.h = dest.h ∧ out.bpp = 3 ∧
      read3 out.pixels (offset out 3 ix iy) =
        o.bytes (read3 dest.pixels (offset dest 3 ix iy)) := by
  obtain ⟨out, hout, h1, h2, _, h4, _, _, hpix⟩ :=
    escher_spec m dest src clearColour xOff yOff _alpha _beta hd hs hw hh
  obtain ⟨o1, ho1, hbytes⟩ := hpix ix iy hx hy
  rw [ho] at ho1
  cases ho1
  exact ⟨out, hout, h1, h2, by rw [h4, hd.1], hbytes⟩

/-- The first candidate of the second loop that is not an in-bounds marker
pixel decides the outcome of the pixel. -/
theorem pixelOutcome_first (P : Pass) (ix iy : Int) (r1 : Fl) (k : Nat)
    (hc : atCentre P ix iy = false)
    (ho : outward (searchOf P ix iy) maxTries (startRadius P ix iy) = some r1)
    (hk : k < maxTries)
    (hm : ∀ j, j < k → classify (searchOf P ix iy) (radiusAt (searchOf P ix iy) r1 j)
      = Cand.marker) :
    (classify (searchOf P ix iy) (radiusAt (searchOf P ix iy) r1 k) = Cand.outside →
      pixelOutcome P ix iy = some (Outcome.put 0xff 0x0 0x0)) ∧
    (∀ q0 q1 q2,
      classify (searchOf P ix iy) (radiusAt (searchOf P ix iy) r1 k) = Cand.colour q0 q1 q2 →
      pixelOutcome P ix iy = some (Outcome.put q0 q1 q2)) := by
  obtain ⟨i1, i2⟩ := inwardOutcome_first (searchOf P ix iy) k maxTries r1 hk hm
  refine ⟨fun h => ?_, fun q0 q1 q2 h => ?_⟩
  · rw [pixelOutcome_eq, hc, ho]; exact i1 h
  · rw [pixelOutcome_eq, hc, ho]; exact i2 q0 q1 q2 h

/-- The outcome of a pixel: black at the centre; otherwise what the second
loop decides from the radius the first loop ends with. -/
theorem pixelOutcome_cases (P : Pass) (ix iy : Int) (o : Outcome)
    (h : pixelOutcome P ix iy = some o) :
    (atCentre P ix iy = true ∧ o = Outcome.put 0x0 0x0 0x0) ∨
    (atCentre P ix iy = false ∧
      ∃ r1, outward (searchOf P ix iy) maxTries (startRadius P ix iy) = some r1 ∧
        inwardOutcome (searchOf P ix iy) maxTries r1 = some o) := by
  rw [pixelOutcome_eq] at h
  cases hc : atCentre P ix iy with
  | true =>
    rw [hc] at h
    simp only [if_true, Option.some.injEq] at h
    exact Or.inl ⟨rfl, h.symm⟩
  | false =>
    rw [hc] at h
    simp only [Bool.false_eq_true, if_false] at h
    cases ho : outward (searchOf P ix iy) maxTries (startRadius P ix iy) with
    | none => rw [ho] at h; cases h
    | some r1 =>
      rw [ho] at h
      exact Or.inr ⟨rfl, r1, rfl, h⟩

theorem classify_solid (c : Search) (hb : c.bpp = 3) (hsb : c.src.bpp = 3)
    (hsolid : Solid c.src c.clearColour) (r : Fl) (q0 q1 q2 : Byte) :
    classify c r ≠ Cand.colour q0 q1 q2 := by
  intro h
  obtain ⟨hin, hr, hne⟩ := classify_colour h
  rw [hb] at hr
  have h1 := getPixel_of_read3 c.src hsb _ _ q0 q1 q2 hin hr
  rw [hsolid _ _ hin] at h1
  exact hne (Option.some.inj h1).symm

theorem solid2_solid : Solid solid2 0x102030 := by
  intro x y h
  have hb : 0 ≤ x ∧ 0 ≤ y ∧ x < 2 ∧ y < 2 :=
    @outOfBounds_eq_false solid2 x y (by simp [h])
  obtain ⟨h1, h2, h3, h4⟩ := hb
  interval_cases x <;> interval_cases y <;> decide

/-- When every candidate of the second loop is an in-bounds marker pixel
the loop stores nothing. -/
theorem inwardOutcome_all_marker (c : Search) :
    ∀ (n : Nat) (r : Fl), (∀ k, k < n → classify c (radiusAt c r k) = Cand.marker) →
      inwardOutcome c n r = some Outcome.keep := by
  intro n
  induction n with
  | zero => intro r _; rfl
  | succ n ih =>
    intro r h
    have h0 : classify c r = Cand.marker := h 0 (by omega)
    rw [inwardOutcome_succ, h0]
    exact ih _ (fun k hk => h (k + 1) (by omega))

/-- A pixel is left alone exactly when its search ends without a decision. -/
theorem pixelOutcome_keep_iff (P : Pass) (ix iy : Int) (o : Outcome)
    (h : pixelOutcome P ix iy = some o) : o = Outcome.keep ↔ Undecided P ix iy := by
  constructor
  · intro hk
    subst hk
    rcases pixelOutcome_cases P ix iy _ h with ⟨_, hb⟩ | ⟨hc, r1, hr1, hin⟩
    · cases hb
    · exact ⟨hc, r1, hr1, inwardOutcome_keep _ _ _ hin⟩
  · rintro ⟨hc, r1, hr1, hall⟩
    rw [pixelOutcome_eq, hc, hr1] at h
    simp only [Bool.false_eq_true, if_false, Option.some_bind] at h
    rw [inwardOutcome_all_marker _ _ _ hall] at h
    exact (Option.some.inj h).symm

/-! ## The claims -/

/-- C1: `getPixel(image, x, y)` returns 0 for every image and every integer
pair `(x, y)` with `x < 0`, `y < 0`, `x >= W` or `y >= H`, whatever bytes the
image holds. -/
theorem getPixel_outside (image : Surface) (x y : Int)
    (h : x < 0 ∨ y < 0 ∨ x ≥ image.w ∨ y ≥ image.h) : getPixel image x y = some 0 := by
  have ho : outOfBounds image x y = true := by
    simp only [outOfBounds, Bool.or_eq_true, decide_eq_true_eq]
    omega
  unfold getPixel
  rw [if_pos ho]

theorem getPixel_outside_witness :
    ((2 : Int) < 0 ∨ (0 : Int) < 0 ∨ (2 : Int) ≥ solid2.w ∨ (0 : Int) ≥ solid2.h) ∧
      getPixel solid2 2 0 = some 0 :=
  ⟨by decide, getPixel_outside solid2 2 0 (by decide)⟩

/-- C2: for every source image, marker colour, alpha and beta, and every
integer centre `(cx, cy)` with `0 <= cx < W` and `0 <= cy < H`, the pass of
the mapper (on well-formed surfaces of equal size, with `W` and `H` in the
range of `int`) returns and leaves the bytes `0, 0, 0` (packed colour 0) in
destination pixel `(cx, cy)`. -/
theorem centre_pixel_black (m : Libm) (dest src : Surface) (clearColour : Nat)
    (cx cy : Int) (_alpha _beta : Fl)
    (hd : dest.WF) (hs : src.WF) (hw : dest.w = src.w) (hh : dest.h = src.h)
    (hint : src.w ≤ 2147483647 ∧ src.h ≤ 2147483647)
    (hcx : 0 ≤ cx ∧ cx < src.w) (hcy : 0 ≤ cy ∧ cy < src.h) :
    ∃ out, escher m dest src clearColour (ofInt cx) (ofInt cy) _alpha _beta = some out ∧
      read3 out.pixels (offset out 3 cx cy) = some (0x0, 0x0, 0x0) ∧
      getPixel out cx cy = some 0 := by
  obtain ⟨out, hout, h1, h2, _, h4, _, _, hpix⟩ :=
    escher_spec m dest src clearColour (ofInt cx) (ofInt cy) _alpha _beta hd hs hw hh
  obtain ⟨o, ho, hbytes⟩ := hpix cx.toNat cy.toNat (by omega) (by omega)
  have ecx : ((cx.toNat : Nat) : Int) = cx := Int.toNat_of_nonneg hcx.1
  have ecy : ((cy.toNat : Nat) : Int) = cy := Int.toNat_of_nonneg hcy.1
  rw [ecx, ecy] at ho hbytes
  rw [pixelOutcome_centre _ cx cy (by omega) (by omega) rfl rfl] at ho
  cases ho
  have hb : read3 out.pixels (offset out 3 cx cy) = some (0x0, 0x0, 0x0) := hbytes
  refine ⟨out, hout, hb, ?_⟩
  have hin : ¬ outOfBounds out cx cy = true := by
    simp only [outOfBounds, Bool.or_eq_true, decide_eq_true_eq]
    omega
  unfold getPixel
  rw [if_neg hin, h4, hd.1, hb]
  rfl

theorem centre_pixel_black_witness :
    (convertSurface scene4).WF ∧ scene4.WF ∧ (convertSurface scene4).w = scene4.w ∧
      (convertSurface scene4).h = scene4.h ∧
      (scene4.w ≤ 2147483647 ∧ scene4.h ≤ 2147483647) ∧
      ((0 : Int) ≤ 2 ∧ (2 : Int) < scene4.w) ∧ ((0 : Int) ≤ 2 ∧ (2 : Int) < scene4.h) ∧
      ∃ out, escher sampleLibm (convertSurface scene4) scene4 0x0000FF (ofInt 2) (ofInt 2)
          one zero = some out ∧
        read3 out.pixels (offset out 3 2 2) = some (0x0, 0x0, 0x0) ∧
        getPixel out 2 2 = some 0 :=
  ⟨by decide, by decide, by decide, by decide, by decide, by decide, by decide,
    centre_pixel_black sampleLibm (convertSurface scene4) scene4 0x0000FF 2 2 one zero
      (by decide) (by decide) (by decide) (by decide) (by decide) (by decide) (by decide)⟩

/-- C3 (as stated, refuted): the 2×2 image `solid2` has the single colour
`0x102030`; mapped with that marker colour, centre `(1, 1)`, `_alpha = 1`,
`_beta = 0`, the output pixel `(1, 1)` holds the bytes `0, 0, 0`, not the
red sentinel; and with `_alpha = 0` the output pixel `(0, 1)` still holds
the bytes `30 20 10` that the destination held before the pass. -/
theorem solid_output_not_all_red :
    Solid solid2 0x102030 ∧
    (∃ out, escher sampleLibm (convertSurface solid2) solid2 0x102030 (ofInt 1) (ofInt 1)
        one zero = some out ∧
      read3 out.pixels (offset out 3 1 1) = some (0x0, 0x0, 0x0) ∧
      read3 out.pixels (offset out 3 1 1) ≠ some (0xff, 0x0, 0x0)) ∧
    (∃ out, escher sampleLibm (convertSurface solid2) solid2 0x102030 (ofInt 1) (ofInt 1)
        zero zero = some out ∧
      read3 out.pixels (offset out 3 0 1) = some (0x30, 0x20, 0x10) ∧
      read3 out.pixels (offset out 3 0 1) ≠ some (0xff, 0x0, 0x0)) := by
  refine ⟨solid2_solid, ?_, ?_⟩
  · obtain ⟨out, h1, _, _, _, h5⟩ := escher_pixel sampleLibm (convertSurface solid2) solid2
      0x102030 (ofInt 1) (ofInt 1) one zero (by decide) (by decide) (by decide) (by decide)
      1 1 (by decide) (by decide) (Outcome.put 0x0 0x0 0x0)
      (pixelOutcome_centre _ 1 1 (by decide) (by decide) rfl rfl)
    have h6 : read3 out.pixels (offset out 3 1 1) = some (0x0, 0x0, 0x0) := h5
    refine ⟨out, h1, h6, ?_⟩
    rw [h6]
    decide
  · obtain ⟨out, h1, _, _, _, h5⟩ := escher_pixel sampleLibm (convertSurface solid2) solid2
      0x102030 (ofInt 1) (ofInt 1) zero zero (by decide) (by decide) (by decide) (by decide)
      0 1 (by decide) (by decide) Outcome.keep (by decide)
    have h6 : read3 out.pixels (offset out 3 0 1) = some (0x30, 0x20, 0x10) := by
      have h7 : read3 out.pixels (offset out 3 0 1) =
          Outcome.keep.bytes (read3 (convertSurface solid2).pixels
            (offset (convertSurface solid2) 3 0 1)) := h5
      rw [h7]; decide
    refine ⟨out, h1, h6, ?_⟩
    rw [h6]
    decide

/-- C3 (amended): for every source image all of whose pixels have one colour
`C`, mapped with marker colour `C` (for every centre, alpha and beta), the
pass returns and every pixel of the output is
* black (bytes `0, 0, 0`) when it lies within `1.0e-6` of the centre,
* left with the bytes the destination held before the pass when it is not
  at the centre and all 32 candidates of its inward search are in-bounds
  (hence marker) pixels,
* the red sentinel (bytes `FF, 0, 0`) otherwise.
No pixel is copied from the source. -/
theorem solid_output_pixels (m : Libm) (dest src : Surface) (C : Nat)
    (xOff yOff _alpha _beta : Fl)
    (hd : dest.WF) (hs : src.WF) (hw : dest.w = src.w) (hh : dest.h = src.h)
    (hsolid : Solid src C) :
    ∃ out, escher m dest src C xOff yOff _alpha _beta = some out ∧
      ∀ ix iy : Nat, (ix : Int) < dest.w → (iy : Int) < dest.h →
        (atCentre (passOf m src C xOff yOff _alpha _beta) ix iy = true ∧
          read3 out.pixels (offset out 3 ix iy) = some (0x0, 0x0, 0x0)) ∨
        (Undecided (passOf m src C xOff yOff _alpha _beta) ix iy ∧
          read3 out.pixels (offset out 3 ix iy) =
            read3 dest.pixels (offset dest 3 ix iy)) ∨
        (atCentre (passOf m src C xOff yOff _alpha _beta) ix iy = false ∧
          ¬ Undecided (passOf m src C xOff yOff _alpha _beta) ix iy ∧
          read3 out.pixels (offset out 3 ix iy) = some (0xff, 0x0, 0x0)) := by
  obtain ⟨out, hout, _, _, _, _, _, _, hpix⟩ :=
    escher_spec m dest src C xOff yOff _alpha _beta hd hs hw hh
  refine ⟨out, hout, ?_⟩
  intro ix iy hx hy
  obtain ⟨o, ho, hbytes⟩ := hpix ix iy hx hy
  have hiff := pixelOutcome_keep_iff _ _ _ o ho
  rcases pixelOutcome_cases _ _ _ o ho with ⟨hc, rfl⟩ | ⟨hc, r1, _, hin⟩
  · exact Or.inl ⟨hc, hbytes⟩
  · right
    cases o with
    | keep => exact Or.inl ⟨hiff.mp rfl, hbytes⟩
    | put b0 b1 b2 =>
      right
      have hnot : ¬ Undecided (passOf m src C xOff yOff _alpha _beta) ix iy :=
        fun hu => by cases hiff.mpr hu
      obtain ⟨k, _, _, hk⟩ := inwardOutcome_put _ _ _ _ _ _ hin
      rcases hk with ⟨_, hb⟩ | hcol
      · simp only [Prod.mk.injEq] at hb
        obtain ⟨rfl, rfl, rfl⟩ := hb
        exact ⟨hc, hnot, hbytes⟩
      · exact absurd hcol
          (classify_solid (searchOf (passOf m src C xOff yOff _alpha _beta) ix iy) rfl hs.1
            hsolid _ b0 b1 b2)

theorem solid_output_pixels_witness :
    (convertSurface solid2).WF ∧ solid2.WF ∧ (convertSurface solid2).w = solid2.w ∧
      (convertSurface solid2).h = solid2.h ∧ Solid solid2 0x102030 ∧
      ∃ out, escher sampleLibm (convertSurface solid2) solid2 0x102030 (ofInt 1) (ofInt 1)
          one zero = some out ∧
        (∀ ix iy : Nat, (ix : Int) < (convertSurface solid2).w →
          (iy : Int) < (convertSurface solid2).h →
          (atCentre (passOf sampleLibm solid2 0x102030 (ofInt 1) (ofInt 1) one zero) ix iy
              = true ∧
            read3 out.pixels (offset out 3 ix iy) = some (0x0, 0x0, 0x0)) ∨
          (Undecided (passOf sampleLibm solid2 0x102030 (ofInt 1) (ofInt 1) one zero) ix iy ∧
            read3 out.pixels (offset out 3 ix iy) =
              read3 (convertSurface solid2).pixels (offset (convertSurface solid2) 3 ix iy)) ∨
          (atCentre (passOf sampleLibm solid2 0x102030 (ofInt 1) (ofInt 1) one zero) ix iy
              = false ∧
            ¬ Undecided (passOf sampleLibm solid2 0x102030 (ofInt 1) (ofInt 1) one zero)
              ix iy ∧
            read3 out.pixels (offset out 3 ix iy) = some (0xff, 0x0, 0x0))) ∧
        read3 out.pixels (offset out 3 ((1 : Nat) : Int) ((1 : Nat) : Int))
          = some (0x0, 0x0, 0x0) ∧
        read3 out.pixels (offset out 3 ((0 : Nat) : Int) ((1 : Nat) : Int))
          = some (0xff, 0x0, 0x0) := by
  refine ⟨by decide, by decide, by decide, by decide, solid2_solid, ?_⟩
  obtain ⟨out, hout, hall⟩ :=
    solid_output_pixels sampleLibm (convertSurface solid2) solid2 0x102030 (ofInt 1) (ofInt 1)
      one zero (by decide) (by decide) (by decide) (by decide) solid2_solid
  have c11 : atCentre (passOf sampleLibm solid2 0x102030 (ofInt 1) (ofInt 1) one zero)
      ((1 : Nat) : Int) ((1 : Nat) : Int) = true := by decide
  have c01 : atCentre (passOf sampleLibm solid2 0x102030 (ofInt 1) (ofInt 1) one zero)
      ((0 : Nat) : Int) ((1 : Nat) : Int) = false := by decide
  have o01 : outward
      (searchOf (passOf sampleLibm solid2 0x102030 (ofInt 1) (ofInt 1) one zero)
        ((0 : Nat) : Int) ((1 : Nat) : Int)) maxTries
      (startRadius (passOf sampleLibm solid2 0x102030 (ofInt 1) (ofInt 1) one zero)
        ((0 : Nat) : Int) ((1 : Nat) : Int)) = some (startRadius passA 0 1) := by decide
  have k01 : classify
      (searchOf (passOf sampleLibm solid2 0x102030 (ofInt 1) (ofInt 1) one zero)
        ((0 : Nat) : Int) ((1 : Nat) : Int))
      (radiusAt (searchOf (passOf sampleLibm solid2 0x102030 (ofInt 1) (ofInt 1) one zero)
        ((0 : Nat) : Int) ((1 : Nat) : Int)) (startRadius passA 0 1) 3) = Cand.outside := by
    decide
  refine ⟨out, hout, hall, ?_, ?_⟩
  · rcases hall 1 1 (by decide) (by decide) with ⟨_, hb⟩ | ⟨hu, _⟩ | ⟨hc, _, _⟩
    · exact hb
    · rw [hu.1] at c11; cases c11
    · rw [hc] at c11; cases c11
  · rcases hall 0 1 (by decide) (by decide) with ⟨hc, _⟩ | ⟨hu, _⟩ | ⟨_, _, hb⟩
    · rw [hc] at c01; cases c01
    · obtain ⟨_, r1, hr1, hm⟩ := hu
      rw [o01] at hr1
      cases hr1
      have h3 := hm 3 (by decide)
      rw [k01] at h3
      cases h3
    · exact hb

/-- C4 (as stated, refuted): with the one-colour source `solid2`, its colour
as marker, centre `(1, 1)` and `_alpha = _beta = 0`, the pass stores nothing
in pixel `(0, 1)`: a destination filled with bytes `99` keeps `99 99 99`
there, a destination that is a copy of the source keeps `30 20 10`, so the
output depends on the prior contents of the destination. -/
theorem pass_leaves_pixel_unwritten :
    (∃ out, escher sampleLibm grey2 solid2 0x102030 (ofInt 1) (ofInt 1) zero zero = some out ∧
      read3 out.pixels (offset out 3 0 1) = some (0x99, 0x99, 0x99)) ∧
    (∃ out, escher sampleLibm (convertSurface solid2) solid2 0x102030 (ofInt 1) (ofInt 1)
        zero zero = some out ∧
      read3 out.pixels (offset out 3 0 1) = some (0x30, 0x20, 0x10)) := by
  constructor
  · obtain ⟨out, h1, _, _, _, h5⟩ := escher_pixel sampleLibm grey2 solid2
      0x102030 (ofInt 1) (ofInt 1) zero zero (by decide) (by decide) (by decide) (by decide)
      0 1 (by decide) (by decide) Outcome.keep (by decide)
    have h7 : read3 out.pixels (offset out 3 0 1) =
        Outcome.keep.bytes (read3 grey2.pixels (offset grey2 3 0 1)) := h5
    exact ⟨out, h1, by rw [h7]; decide⟩
  · obtain ⟨out, h1, _, _, _, h5⟩ := escher_pixel sampleLibm (convertSurface solid2) solid2
      0x102030 (ofInt 1) (ofInt 1) zero zero (by decide) (by decide) (by decide) (by decide)
      0 1 (by decide) (by decide) Outcome.keep (by decide)
    have h7 : read3 out.pixels (offset out 3 0 1) =
        Outcome.keep.bytes (read3 (convertSurface solid2).pixels
          (offset (convertSurface solid2) 3 0 1)) := h5
    exact ⟨out, h1, by rw [h7]; decide⟩

/-- C4 (amended): one pass of the mapper returns, and for every source
image, marker colour, centre, alpha and beta and every pixel `(ix, iy)` with
`0 <= ix < W`, `0 <= iy < H` the pixel's three bytes after the pass are
black, red, the bytes of an in-bounds source pixel, or (when the pixel is
not at the centre and all 32 candidates of its inward search are in-bounds
marker pixels) the bytes the destination held before the pass.  Only at such
pixels does the output depend on the destination's prior contents: for any
second destination the two outputs agree at every other pixel, and at such a
pixel each output holds what its own destination held. -/
theorem pass_pixel_written_or_kept (m : Libm) (dest src : Surface) (clearColour : Nat)
    (xOff yOff _alpha _beta : Fl)
    (hd : dest.WF) (hs : src.WF) (hw : dest.w = src.w) (hh : dest.h = src.h) :
    ∃ out, escher m dest src clearColour xOff yOff _alpha _beta = some out ∧
      (∀ ix iy : Nat, (ix : Int) < dest.w → (iy : Int) < dest.h →
        read3 out.pixels (offset out 3 ix iy) = some (0x0, 0x0, 0x0) ∨
        read3 out.pixels (offset out 3 ix iy) = some (0xff, 0x0, 0x0) ∨
        (∃ x y : Int, outOfBounds src x y = false ∧ ∃ q0 q1 q2,
          read3 src.pixels (offset src 3 x y) = some (q0, q1, q2) ∧
          read3 out.pixels (offset out 3 ix iy) = some (q0, q1, q2)) ∨
        (read3 out.pixels (offset out 3 ix iy) = read3 dest.pixels (offset dest 3 ix iy) ∧
          Undecided (passOf m src clearColour xOff yOff _alpha _beta) ix iy)) ∧
      ∀ dest2 : Surface, dest2.WF → dest2.w = src.w → dest2.h = src.h →
        ∃ out2, escher m dest2 src clearColour xOff yOff _alpha _beta = some out2 ∧
          ∀ ix iy : Nat, (ix : Int) < src.w → (iy : Int) < src.h →
            (¬ Undecided (passOf m src clearColour xOff yOff _alpha _beta) ix iy →
              read3 out.pixels (offset out 3 ix iy) =
                read3 out2.pixels (offset out2 3 ix iy)) ∧
            (Undecided (passOf m src clearColour xOff yOff _alpha _beta) ix iy →
              read3 out.pixels (offset out 3 ix iy) =
                read3 dest.pixels (offset dest 3 ix iy) ∧
              read3 out2.pixels (offset out2 3 ix iy) =
                read3 dest2.pixels (offset dest2 3 ix iy)) := by
  obtain ⟨out, hout, _, _, _, _, _, _, hpix⟩ :=
    escher_spec m dest src clearColour xOff yOff _alpha _beta hd hs hw hh
  refine ⟨out, hout, ?_, ?_⟩
  · intro ix iy hx hy
    obtain ⟨o, ho, hbytes⟩ := hpix ix iy hx hy
    have hiff := pixelOutcome_keep_iff _ _ _ o ho
    rcases pixelOutcome_cases _ _ _ o ho with ⟨_, rfl⟩ | ⟨hc, r1, hr1, hin⟩
    · exact Or.inl hbytes
    · cases o with
      | keep => exact Or.inr (Or.inr (Or.inr ⟨hbytes, hiff.mp rfl⟩))
      | put b0 b1 b2 =>
        obtain ⟨k, _, _, hk⟩ := inwardOutcome_put _ _ _ _ _ _ hin
        rcases hk with ⟨_, hb⟩ | hcol
        · simp only [Prod.mk.injEq] at hb
          obtain ⟨rfl, rfl, rfl⟩ := hb
          exact Or.inr (Or.inl hbytes)
        · obtain ⟨h1, h2, _⟩ := classify_colour hcol
          exact Or.inr (Or.inr (Or.inl ⟨_, _, h1, b0, b1, b2, h2, hbytes⟩))
  · intro dest2 hd2 hw2 hh2
    obtain ⟨out2, hout2, _, _, _, _, _, _, hpix2⟩ :=
      escher_spec m dest2 src clearColour xOff yOff _alpha _beta hd2 hs hw2 hh2
    refine ⟨out2, hout2, ?_⟩
    intro ix iy hx hy
    obtain ⟨o, ho, hbytes⟩ := hpix ix iy (by rw [hw]; exact hx) (by rw [hh]; exact hy)
    obtain ⟨o2, ho2, hbytes2⟩ := hpix2 ix iy (by rw [hw2]; exact hx) (by rw [hh2]; exact hy)
    rw [ho] at ho2
    cases ho2
    have hiff := pixelOutcome_keep_iff _ _ _ o ho
    constructor
    · intro hnot
      cases o with
      | keep => exact absurd (hiff.mp rfl) hnot
      | put b0 b1 b2 => rw [hbytes, hbytes2]; rfl
    · intro hu
      have hk := hiff.mpr hu
      subst hk
      exact ⟨hbytes, hbytes2⟩

theorem pass_pixel_written_or_kept_witness :
    grey2.WF ∧ solid2.WF ∧ grey2.w = solid2.w ∧ grey2.h = solid2.h ∧
    Undecided (passOf sampleLibm solid2 0x102030 (ofInt 1) (ofInt 1) zero zero)
      ((0 : Nat) : Int) ((1 : Nat) : Int) ∧
    ¬ Undecided (passOf sampleLibm solid2 0x102030 (ofInt 1) (ofInt 1) zero zero)
      ((1 : Nat) : Int) ((1 : Nat) : Int) ∧
    ∃ out, escher sampleLibm grey2 solid2 0x102030 (ofInt 1) (ofInt 1) zero zero = some out ∧
      (∀ ix iy : Nat, (ix : Int) < grey2.w → (iy : Int) < grey2.h →
        read3 out.pixels (offset out 3 ix iy) = some (0x0, 0x0, 0x0) ∨
        read3 out.pixels (offset out 3 ix iy) = some (0xff, 0x0, 0x0) ∨
        (∃ x y : Int, outOfBounds solid2 x y = false ∧ ∃ q0 q1 q2,
          read3 solid2.pixels (offset solid2 3 x y) = some (q0, q1, q2) ∧
          read3 out.pixels (offset out 3 ix iy) = some (q0, q1, q2)) ∨
        (read3 out.pixels (offset out 3 ix iy) = read3 grey2.pixels (offset grey2 3 ix iy) ∧
          Undecided (passOf sampleLibm solid2 0x102030 (ofInt 1) (ofInt 1) zero zero)
            ix iy)) ∧
      ∀ dest2 : Surface, dest2.WF → dest2.w = solid2.w → dest2.h = solid2.h →
        ∃ out2, escher sampleLibm dest2 solid2 0x102030 (ofInt 1) (ofInt 1) zero zero
            = some out2 ∧
          ∀ ix iy : Nat, (ix : Int) < solid2.w → (iy : Int) < solid2.h →
            (¬ Undecided (passOf sampleLibm solid2 0x102030 (ofInt 1) (ofInt 1) zero zero)
                ix iy →
              read3 out.pixels (offset out 3 ix iy) =
                read3 out2.pixels (offset out2 3 ix iy)) ∧
            (Undecided (passOf sampleLibm solid2 0x102030 (ofInt 1) (ofInt 1) zero zero)
                ix iy →
              read3 out.pixels (offset out 3 ix iy) =
                read3 grey2.pixels (offset grey2 3 ix iy) ∧
              read3 out2.pixels (offset out2 3 ix iy) =
                read3 dest2.pixels (offset dest2 3 ix iy)) :=
  ⟨by decide, by decide, by decide, by decide,
    ⟨by decide, startRadius passB 0 1, by decide, by decide⟩,
    fun hu => absurd hu.1 (by decide),
    pass_pixel_written_or_kept sampleLibm grey2 solid2 0x102030 (ofInt 1) (ofInt 1) zero zero
      (by decide) (by decide) (by decide) (by decide)⟩

/-- C5 (as stated, refuted): in the pass `passA` (2×2 one-colour source,
centre `(1, 1)`, `_alpha = 1`, `_beta = 0`) the inward search of pixel
`(0, 1)` starts at the radius the outward search stopped at, tests three
in-bounds marker candidates and then the candidate `(-2, 0)` outside the
source; the destination pixel then holds `FF 00 00`, and `getPixel` of the
destination there returns `0x0000FF = 255`, not `0xFF0000`. -/
theorem outside_candidate_not_0xFF0000 :
    outward (searchOf passA 0 1) maxTries (startRadius passA 0 1)
      = some (startRadius passA 0 1) ∧
    (∀ j, j < 3 → classify (searchOf passA 0 1)
      (radiusAt (searchOf passA 0 1) (startRadius passA 0 1) j) = Cand.marker) ∧
    candX (searchOf passA 0 1) (radiusAt (searchOf passA 0 1) (startRadius passA 0 1) 3) = -2 ∧
    candY (searchOf passA 0 1) (radiusAt (searchOf passA 0 1) (startRadius passA 0 1) 3) = 0 ∧
    classify (searchOf passA 0 1)
      (radiusAt (searchOf passA 0 1) (startRadius passA 0 1) 3) = Cand.outside ∧
    ∃ out, escher sampleLibm (convertSurface solid2) solid2 0x102030 (ofInt 1) (ofInt 1)
        one zero = some out ∧
      read3 out.pixels (offset out 3 0 1) = some (0xff, 0x0, 0x0) ∧
      getPixel out 0 1 = some 0x0000FF ∧
      getPixel out 0 1 ≠ some 0xFF0000 := by
  refine ⟨by decide, by decide, by decide, by decide, by decide, ?_⟩
  obtain ⟨out, h1, h2, h3, h4, h5⟩ := escher_pixel sampleLibm (convertSurface solid2) solid2
    0x102030 (ofInt 1) (ofInt 1) one zero (by decide) (by decide) (by decide) (by decide)
    0 1 (by decide) (by decide) (Outcome.put 0xff 0x0 0x0) (by decide)
  have h6 : read3 out.pixels (offset out 3 0 1) = some (0xff, 0x0, 0x0) := h5
  have h7 : getPixel out 0 1 = some (pack 0xff 0x0 0x0) :=
    getPixel_of_read3 out h4 0 1 0xff 0x0 0x0
      (outOfBounds_nat out 0 1 (by rw [h2]; decide) (by rw [h3]; decide)) h6
  refine ⟨out, h1, h6, ?_, ?_⟩
  · rw [h7]; decide
  · rw [h7]; decide

/-- C5 (amended): whenever the inward search tests a candidate that lies
outside the source bounds, it stores the bytes `FF 00 00` in the destination
pixel and stops at that iteration; in the program's packed encoding that is
`0x0000FF`: after the pass `getPixel` of the destination at that pixel
returns `0x0000FF = 255`. -/
theorem outside_candidate_red (m : Libm) (dest src : Surface) (clearColour : Nat)
    (xOff yOff _alpha _beta : Fl)
    (hd : dest.WF) (hs : src.WF) (hw : dest.w = src.w) (hh : dest.h = src.h)
    (ix iy : Nat) (hx : (ix : Int) < dest.w) (hy : (iy : Int) < dest.h) (r1 : Fl) (k : Nat)
    (hc : atCentre (passOf m src clearColour xOff yOff _alpha _beta) ix iy = false)
    (ho : outward (searchOf (passOf m src clearColour xOff yOff _alpha _beta) ix iy) maxTries
      (startRadius (passOf m src clearColour xOff yOff _alpha _beta) ix iy) = some r1)
    (hk : k < maxTries)
    (hm : ∀ j, j < k →
      classify (searchOf (passOf m src clearColour xOff yOff _alpha _beta) ix iy)
        (radiusAt (searchOf (passOf m src clearColour xOff yOff _alpha _beta) ix iy) r1 j)
        = Cand.marker)
    (hout : classify (searchOf (passOf m src clearColour xOff yOff _alpha _beta) ix iy)
        (radiusAt (searchOf (passOf m src clearColour xOff yOff _alpha _beta) ix iy) r1 k)
        = Cand.outside) :
    (∀ (p count : Nat) (buf : List Byte),
      inward (searchOf (passOf m src clearColour xOff yOff _alpha _beta) ix iy) p (count + 1)
        (radiusAt (searchOf (passOf m src clearColour xOff yOff _alpha _beta) ix iy) r1 k) buf
        = write3 buf p 0xff 0x0 0x0) ∧
    ∃ out, escher m dest src clearColour xOff yOff _alpha _beta = some out ∧
      read3 out.pixels (offset out 3 ix iy) = some (0xff, 0x0, 0x0) ∧
      getPixel out ix iy = some 0x0000FF := by
  constructor
  · intro p count buf
    rw [inward, if_pos (classify_outside hout)]
  · obtain ⟨out, h1, h2, h3, h4, h5⟩ := escher_pixel m dest src clearColour xOff yOff _alpha
      _beta hd hs hw hh ix iy hx hy (Outcome.put 0xff 0x0 0x0)
      ((pixelOutcome_first _ ix iy r1 k hc ho hk hm).1 hout)
    have h6 : read3 out.pixels (offset out 3 ix iy) = some (0xff, 0x0, 0x0) := h5
    have h7 := getPixel_of_read3 out h4 ix iy 0xff 0x0 0x0
      (outOfBounds_nat out ix iy (by rw [h2]; exact hx) (by rw [h3]; exact hy)) h6
    refine ⟨out, h1, h6, ?_⟩
    rw [h7]
    decide

theorem outside_candidate_red_witness :
    (convertSurface solid2).WF ∧ solid2.WF ∧ (convertSurface solid2).w = solid2.w ∧
    (convertSurface solid2).h = solid2.h ∧
    (((0 : Nat) : Int) < (convertSurface solid2).w) ∧
    (((1 : Nat) : Int) < (convertSurface solid2).h) ∧
    atCentre (passOf sampleLibm solid2 0x102030 (ofInt 1) (ofInt 1) one zero)
      ((0 : Nat) : Int) ((1 : Nat) : Int) = false ∧
    outward (searchOf (passOf sampleLibm solid2 0x102030 (ofInt 1) (ofInt 1) one zero)
        ((0 : Nat) : Int) ((1 : Nat) : Int)) maxTries
      (startRadius (passOf sampleLibm solid2 0x102030 (ofInt 1) (ofInt 1) one zero)
        ((0 : Nat) : Int) ((1 : Nat) : Int))
      = some (startRadius passA 0 1) ∧
    3 < maxTries ∧
    (∀ j, j < 3 →
      classify (searchOf (passOf sampleLibm solid2 0x102030 (ofInt 1) (ofInt 1) one zero)
          ((0 : Nat) : Int) ((1 : Nat) : Int))
        (radiusAt (searchOf (passOf sampleLibm solid2 0x102030 (ofInt 1) (ofInt 1) one zero)
          ((0 : Nat) : Int) ((1 : Nat) : Int)) (startRadius passA 0 1) j) = Cand.marker) ∧
    classify (searchOf (passOf sampleLibm solid2 0x102030 (ofInt 1) (ofInt 1) one zero)
        ((0 : Nat) : Int) ((1 : Nat) : Int))
      (radiusAt (searchOf (passOf sampleLibm solid2 0x102030 (ofInt 1) (ofInt 1) one zero)
        ((0 : Nat) : Int) ((1 : Nat) : Int)) (startRadius passA 0 1) 3) = Cand.outside ∧
    ((∀ (p count : Nat) (buf : List Byte),
      inward (searchOf (passOf sampleLibm solid2 0x102030 (ofInt 1) (ofInt 1) one zero)
          ((0 : Nat) : Int) ((1 : Nat) : Int)) p (count + 1)
        (radiusAt (searchOf (passOf sampleLibm solid2 0x102030 (ofInt 1) (ofInt 1) one zero)
          ((0 : Nat) : Int) ((1 : Nat) : Int)) (startRadius passA 0 1) 3) buf
        = write3 buf p 0xff 0x0 0x0) ∧
    ∃ out, escher sampleLibm (convertSurface solid2) solid2 0x102030 (ofInt 1) (ofInt 1)
        one zero = some out ∧
      read3 out.pixels (offset out 3 ((0 : Nat) : Int) ((1 : Nat) : Int))
        = some (0xff, 0x0, 0x0) ∧
      getPixel out ((0 : Nat) : Int) ((1 : Nat) : Int) = some 0x0000FF) :=
  ⟨by decide, by decide, by decide, by decide, by decide, by decide, by decide, by decide,
    by decide, by decide, by decide,
    outside_candidate_red sampleLibm (convertSurface solid2) solid2 0x102030 (ofInt 1)
      (ofInt 1) one zero (by decide) (by decide) (by decide) (by decide) 0 1 (by decide)
      (by decide) (startRadius passA 0 1) 3 (by decide) (by decide) (by decide) (by decide)
      (by decide)⟩

/-- C6: postcondition of the inward search for one pixel.  Let the search
start at radius `r1` (the radius the outward search ended with) and let
candidate `k < 32`, at the radius reached by `k` divisions by `baseScale`, be
the first that is not an in-bounds marker pixel.  If it is out of bounds the
pixel holds `FF 00 00` after the pass; if it is in bounds with a non-marker
colour, the pixel's three bytes equal the three bytes of that source pixel,
and the packed colour of the destination pixel differs from the marker
colour. -/
theorem inward_search_postcondition (m : Libm) (dest src : Surface) (clearColour : Nat)
    (xOff yOff _alpha _beta : Fl)
    (hd : dest.WF) (hs : src.WF) (hw : dest.w = src.w) (hh : dest.h = src.h)
    (ix iy : Nat) (hx : (ix : Int) < dest.w) (hy : (iy : Int) < dest.h) (r1 : Fl) (k : Nat)
    (hc : atCentre (passOf m src clearColour xOff yOff _alpha _beta) ix iy = false)
    (ho : outward (searchOf (passOf m src clearColour xOff yOff _alpha _beta) ix iy) maxTries
      (startRadius (passOf m src clearColour xOff yOff _alpha _beta) ix iy) = some r1)
    (hk : k < maxTries)
    (hm : ∀ j, j < k →
      classify (searchOf (passOf m src clearColour xOff yOff _alpha _beta) ix iy)
        (radiusAt (searchOf (passOf m src clearColour xOff yOff _alpha _beta) ix iy) r1 j)
        = Cand.marker) :
    ∃ out, escher m dest src clearColour xOff yOff _alpha _beta = some out ∧
      (classify (searchOf (passOf m src clearColour xOff yOff _alpha _beta) ix iy)
          (radiusAt (searchOf (passOf m src clearColour xOff yOff _alpha _beta) ix iy) r1 k)
          = Cand.outside →
        read3 out.pixels (offset out 3 ix iy) = some (0xff, 0x0, 0x0)) ∧
      (∀ q0 q1 q2,
        classify (searchOf (passOf m src clearColour xOff yOff _alpha _beta) ix iy)
          (radiusAt (searchOf (passOf m src clearColour xOff yOff _alpha _beta) ix iy) r1 k)
          = Cand.colour q0 q1 q2 →
        read3 out.pixels (offset out 3 ix iy) = some (q0, q1, q2) ∧
        read3 src.pixels (offset src 3
          (candX (searchOf (passOf m src clearColour xOff yOff _alpha _beta) ix iy)
            (radiusAt (searchOf (passOf m src clearColour xOff yOff _alpha _beta) ix iy) r1 k))
          (candY (searchOf (passOf m src clearColour xOff yOff _alpha _beta) ix iy)
            (radiusAt (searchOf (passOf m src clearColour xOff yOff _alpha _beta) ix iy) r1 k)))
          = some (q0, q1, q2) ∧
        getPixel out ix iy = some (pack q0 q1 q2) ∧
        pack q0 q1 q2 ≠ clearColour) := by
  obtain ⟨out, hout, h1, h2, _, h4, _, _, hpix⟩ :=
    escher_spec m dest src clearColour xOff yOff _alpha _beta hd hs hw hh
  obtain ⟨o, ho1, hbytes⟩ := hpix ix iy hx hy
  obtain ⟨f1, f2⟩ := pixelOutcome_first _ ix iy r1 k hc ho hk hm
  refine ⟨out, hout, ?_, ?_⟩
  · intro hcase
    rw [f1 hcase] at ho1
    cases ho1
    exact hbytes
  · intro q0 q1 q2 hcase
    rw [f2 q0 q1 q2 hcase] at ho1
    cases ho1
    have hb : read3 out.pixels (offset out 3 ix iy) = some (q0, q1, q2) := hbytes
    obtain ⟨_, c2, c3⟩ := classify_colour hcase
    refine ⟨hb, c2, ?_, c3⟩
    exact getPixel_of_read3 out (by rw [h4, hd.1]) ix iy q0 q1 q2
      (outOfBounds_nat out ix iy (by rw [h1]; exact hx) (by rw [h2]; exact hy)) hb

theorem inward_search_postcondition_witness :
    (convertSurface spot2).WF ∧ spot2.WF ∧ (convertSurface spot2).w = spot2.w ∧
    (convertSurface spot2).h = spot2.h ∧
    (((0 : Nat) : Int) < (convertSurface spot2).w) ∧
    (((1 : Nat) : Int) < (convertSurface spot2).h) ∧
    atCentre passC ((0 : Nat) : Int) ((1 : Nat) : Int) = false ∧
    outward (searchOf passC ((0 : Nat) : Int) ((1 : Nat) : Int)) maxTries
        (startRadius passC ((0 : Nat) : Int) ((1 : Nat) : Int))
      = some (radiusOut (searchOf passC 0 1) (startRadius passC 0 1) 31) ∧
    1 < maxTries ∧
    (∀ j, j < 1 →
      classify (searchOf passC ((0 : Nat) : Int) ((1 : Nat) : Int))
        (radiusAt (searchOf passC ((0 : Nat) : Int) ((1 : Nat) : Int))
          (radiusOut (searchOf passC 0 1) (startRadius passC 0 1) 31) j) = Cand.marker) ∧
    classify (searchOf passC ((0 : Nat) : Int) ((1 : Nat) : Int))
      (radiusAt (searchOf passC ((0 : Nat) : Int) ((1 : Nat) : Int))
        (radiusOut (searchOf passC 0 1) (startRadius passC 0 1) 31) 1)
      = Cand.colour 0x50 0x60 0x70 ∧
    candX (searchOf passC 0 1)
      (radiusAt (searchOf passC 0 1)
        (radiusOut (searchOf passC 0 1) (startRadius passC 0 1) 31) 1) = 0 ∧
    candY (searchOf passC 0 1)
      (radiusAt (searchOf passC 0 1)
        (radiusOut (searchOf passC 0 1) (startRadius passC 0 1) 31) 1) = 1 ∧
    ∃ out, escher sampleLibmC (convertSurface spot2) spot2 0x102030 (ofInt 1) (ofInt 1)
        alphaC zero = some out ∧
      read3 out.pixels (offset out 3 ((0 : Nat) : Int) ((1 : Nat) : Int))
        = some (0x50, 0x60, 0x70) ∧
      read3 spot2.pixels (offset spot2 3
        (candX (searchOf passC ((0 : Nat) : Int) ((1 : Nat) : Int))
          (radiusAt (searchOf passC ((0 : Nat) : Int) ((1 : Nat) : Int))
            (radiusOut (searchOf passC 0 1) (startRadius passC 0 1) 31) 1))
        (candY (searchOf passC ((0 : Nat) : Int) ((1 : Nat) : Int))
          (radiusAt (searchOf passC ((0 : Nat) : Int) ((1 : Nat) : Int))
            (radiusOut (searchOf passC 0 1) (startRadius passC 0 1) 31) 1)))
        = some (0x50, 0x60, 0x70) ∧
      getPixel out ((0 : Nat) : Int) ((1 : Nat) : Int) = some (pack 0x50 0x60 0x70) ∧
      pack 0x50 0x60 0x70 ≠ 0x102030 := by
  refine ⟨by decide, by decide, by decide, by decide, by decide, by decide, by decide,
    by decide, by decide, by decide, by decide, by decide, by decide, ?_⟩
  obtain ⟨out, hout, _, hcopy⟩ :=
    inward_search_postcondition sampleLibmC (convertSurface spot2) spot2 0x102030 (ofInt 1)
      (ofInt 1) alphaC zero (by decide) (by decide) (by decide) (by decide) 0 1 (by decide)
      (by decide) (radiusOut (searchOf passC 0 1) (startRadius passC 0 1) 31) 1 (by decide)
      (by decide) (by decide) (by decide)
  exact ⟨out, hout, hcopy 0x50 0x60 0x70 (by decide)⟩

/-- C7 (as stated, refuted): the mapper asserts equal width, height and
bytes per pixel only (line 35), not equal row stride.  With the destination
`tight2` (row stride 6) and the source `solid2` (row stride 8), both 2×2,
the pass returns an output of row stride 6, which is not the source's. -/
theorem output_pitch_differs_from_source :
    tight2.WF ∧ solid2.WF ∧ tight2.w = solid2.w ∧ tight2.h = solid2.h ∧
    tight2.bpp = solid2.bpp ∧
    ∃ out, escher sampleLibm tight2 solid2 0x102030 (ofInt 1) (ofInt 1) one zero = some out ∧
      out.w = solid2.w ∧ out.h = solid2.h ∧
      out.pitch = 6 ∧ solid2.pitch = 8 ∧ out.pitch ≠ solid2.pitch := by
  refine ⟨by decide, by decide, by decide, by decide, by decide, ?_⟩
  obtain ⟨out, hout, h1, h2, h3, _⟩ :=
    escher_spec sampleLibm tight2 solid2 0x102030 (ofInt 1) (ofInt 1) one zero
      (by decide) (by decide) (by decide) (by decide)
  have hp : out.pitch = 6 := h3
  refine ⟨out, hout, h1, h2, hp, rfl, ?_⟩
  rw [hp]
  decide

/-- C7 (amended): a pass of the mapper returns a surface with the width and
height of the source and the row stride of the destination; it changes no
dimension field of the destination (width, height, row stride, bytes per
pixel, buffer length) and only bytes inside the `3*W` pixel bytes of each of
its `H` rows.  The row stride of the output is that of the source whenever
the destination's is, as for the destination that `main` makes with
`SDL_ConvertSurface`. -/
theorem pass_preserves_dimensions (m : Libm) (dest src : Surface) (clearColour : Nat)
    (xOff yOff _alpha _beta : Fl)
    (hd : dest.WF) (hs : src.WF) (hw : dest.w = src.w) (hh : dest.h = src.h) :
    (∃ out, escher m dest src clearColour xOff yOff _alpha _beta = some out ∧
      out.w = src.w ∧ out.h = src.h ∧
      out.w = dest.w ∧ out.h = dest.h ∧ out.pitch = dest.pitch ∧ out.bpp = dest.bpp ∧
      (dest.pitch = src.pitch → out.pitch = src.pitch) ∧
      out.pixels.length = dest.pixels.length ∧
      ∀ j, ¬ inPixelArea dest.w dest.h dest.pitch j → out.pixels[j]? = dest.pixels[j]?) ∧
    (∃ out, escher m (convertSurface src) src clearColour xOff yOff _alpha _beta = some out ∧
      out.w = src.w ∧ out.h = src.h ∧ out.pitch = src.pitch) := by
  constructor
  · obtain ⟨out, hout, h1, h2, h3, h4, h5, h6, _⟩ :=
      escher_spec m dest src clearColour xOff yOff _alpha _beta hd hs hw hh
    exact ⟨out, hout, by rw [h1, hw], by rw [h2, hh], h1, h2, h3, h4,
      fun hp => by rw [h3, hp], h5, h6⟩
  · obtain ⟨out, hout, h1, h2, h3, _⟩ :=
      escher_spec m (convertSurface src) src clearColour xOff yOff _alpha _beta hs hs rfl rfl
    exact ⟨out, hout, h1, h2, h3⟩

theorem pass_preserves_dimensions_witness :
    grey2.WF ∧ solid2.WF ∧ grey2.w = solid2.w ∧ grey2.h = solid2.h ∧
    ((∃ out, escher sampleLibm grey2 solid2 0x102030 (ofInt 1) (ofInt 1) one zero = some out ∧
      out.w = solid2.w ∧ out.h = solid2.h ∧
      out.w = grey2.w ∧ out.h = grey2.h ∧ out.pitch = grey2.pitch ∧ out.bpp = grey2.bpp ∧
      (grey2.pitch = solid2.pitch → out.pitch = solid2.pitch) ∧
      out.pixels.length = grey2.pixels.length ∧
      ∀ j, ¬ inPixelArea grey2.w grey2.h grey2.pitch j → out.pixels[j]? = grey2.pixels[j]?) ∧
    (∃ out, escher sampleLibm (convertSurface solid2) solid2 0x102030 (ofInt 1) (ofInt 1)
        one zero = some out ∧
      out.w = solid2.w ∧ out.h = solid2.h ∧ out.pitch = solid2.pitch)) :=
  ⟨by decide, by decide, by decide, by decide,
    pass_preserves_dimensions sampleLibm grey2 solid2 0x102030 (ofInt 1) (ofInt 1) one zero
      (by decide) (by decide) (by decide) (by decide)⟩

/-! ## The event loop: lemmas and claims -/

theorem startup_solid2 : startup solid2 = some startA := by decide

theorem handleEvent_right (image : Surface) (s : Ctl) :
    handleEvent image s (Event.keyDown SDLKey.right) =
      some { s with alpha := fadd s.alpha tenth, changed := true } := rfl

theorem handleEvent_space (image : Surface) (s : Ctl) :
    handleEvent image s (Event.keyDown SDLKey.space) =
      some { s with log := s.log ++ [Effect.blitImage], changed := true } := rfl

theorem handleEvents_nil (image : Surface) (s : Ctl) : handleEvents image s [] = some s := rfl

theorem handleEvents_cons (image : Surface) (s : Ctl) (e : Event) (es : List Event) :
    handleEvents image s (e :: es) =
      (handleEvent image s e).bind (fun s1 => handleEvents image s1 es) := by
  cases h : handleEvent image s e with
  | none => rw [handleEvents, h]; rfl
  | some s1 => rw [handleEvents, h]; rfl

theorem five_tenths : fadd (fadd (fadd (fadd (fadd one tenth) tenth) tenth) tenth) tenth
    = f32 12582913 (-23) := by decide

/-- A tick in which `changed` gets set renders once: the log grows by one
call of the mapper with the parameters at the end of the event loop, one
write of the output file, the display of the result and the delay. -/
theorem tick_changed (m : Libm) (image : Surface) (hwf : image.WF) (s s1 : Ctl)
    (events : List Event)
    (he : handleEvents image { s with changed := false } events = some s1)
    (hc : s1.changed = true) :
    ∃ out, escher m (convertSurface image) image s1.clearColour (ofInt s1.xOff)
        (ofInt s1.yOff) s1.alpha s1.beta = some out ∧
      tick m image s events = some { s1 with log := s1.log ++
        [Effect.escherCall s1.clearColour s1.xOff s1.yOff s1.alpha s1.beta,
         Effect.saveBMP out, Effect.blitDest out, Effect.flip] ++ [Effect.delay] } := by
  obtain ⟨out, hout, _⟩ := escher_spec m (convertSurface image) image s1.clearColour
    (ofInt s1.xOff) (ofInt s1.yOff) s1.alpha s1.beta hwf hwf rfl rfl
  refine ⟨out, hout, ?_⟩
  unfold tick
  rw [he]
  simp only
  rw [if_pos hc]
  unfold render
  rw [hout]

theorem mapperCalls_append (l1 l2 : List Effect) :
    mapperCalls (l1 ++ l2) = mapperCalls l1 + mapperCalls l2 := by
  induction l1 with
  | nil => simp [mapperCalls]
  | cons e l ih =>
    cases e <;> simp [mapperCalls, ih]
    omega

theorem fileWrites_append (l1 l2 : List Effect) :
    fileWrites (l1 ++ l2) = fileWrites l1 + fileWrites l2 := by
  induction l1 with
  | nil => simp [fileWrites]
  | cons e l ih =>
    cases e <;> simp [fileWrites, ih]
    omega

theorem tick_space (m : Libm) (image : Surface) (hwf : image.WF) (s : Ctl) :
    ∃ out, escher m (convertSurface image) image s.clearColour (ofInt s.xOff) (ofInt s.yOff)
        s.alpha s.beta = some out ∧
      tick m image s [Event.keyDown SDLKey.space] =
        some { s with changed := true, log := s.log ++ [Effect.blitImage] ++
          [Effect.escherCall s.clearColour s.xOff s.yOff s.alpha s.beta,
           Effect.saveBMP out, Effect.blitDest out, Effect.flip] ++ [Effect.delay] } := by
  have he : handleEvents image { s with changed := false } [Event.keyDown SDLKey.space] =
      some { s with changed := true, log := s.log ++ [Effect.blitImage] } := rfl
  obtain ⟨out, h1, h2⟩ := tick_changed m image hwf s _ _ he rfl
  exact ⟨out, h1, h2⟩

theorem handleEvent_inv (image : Surface) (s s1 : Ctl) (e : Event) (hinv : CtlInv image s)
    (h : handleEvent image s e = some s1) : CtlInv image s1 := by
  cases e with
  | keyDown k =>
    cases k <;> (simp only [handleEvent, reduceCtorEq, if_false, Option.some.injEq] at h
                 subst h
                 exact hinv)
  | quit =>
    simp only [handleEvent, if_true, Option.some.injEq] at h
    subst h
    exact hinv
  | other =>
    simp only [handleEvent, reduceCtorEq, if_false, Option.some.injEq] at h
    subst h
    exact hinv
  | mouseButtonUp x y =>
    simp only [handleEvent, reduceCtorEq, if_false] at h
    by_cases hin : (x : Int) < image.w ∧ (y : Int) < image.h
    · rw [if_pos hin] at h
      cases hg : getPixel image x y with
      | none => rw [hg] at h; cases h
      | some c =>
        rw [hg] at h
        simp only [Option.some.injEq] at h
        subst h
        exact ⟨by simp, hin.1, by simp, hin.2, hg⟩
    · rw [if_neg hin] at h
      simp only [Option.some.injEq] at h
      subst h
      exact hinv

theorem handleEvents_inv (image : Surface) (events : List Event) :
    ∀ (s s1 : Ctl), CtlInv image s → handleEvents image s events = some s1 →
      CtlInv image s1 := by
  induction events with
  | nil =>
    intro s s1 hinv h
    rw [handleEvents_nil] at h
    cases h
    exact hinv
  | cons e es ih =>
    intro s s1 hinv h
    rw [handleEvents_cons] at h
    cases he : handleEvent image s e with
    | none => rw [he] at h; cases h
    | some s2 =>
      rw [he, Option.some_bind] at h
      exact ih s2 s1 (handleEvent_inv image s s2 e hinv he) h

/-- A tick ends with the parameters that the event loop left. -/
theorem tick_params (m : Libm) (image : Surface) (s s1 : Ctl) (events : List Event)
    (h : tick m image s events = some s1) :
    ∃ s2, handleEvents image { s with changed := false } events = some s2 ∧
      SameParams s2 s1 := by
  unfold tick at h
  cases he : handleEvents image { s with changed := false } events with
  | none => rw [he] at h; cases h
  | some s2 =>
    rw [he] at h
    simp only at h
    refine ⟨s2, rfl, ?_⟩
    by_cases hc : s2.changed = true
    · rw [if_pos hc] at h
      unfold render at h
      cases hr : escher m (convertSurface image) image s2.clearColour (ofInt s2.xOff)
          (ofInt s2.yOff) s2.alpha s2.beta with
      | none => rw [hr] at h; cases h
      | some out =>
        rw [hr] at h
        simp only [Option.some.injEq] at h
        subst h
        exact ⟨rfl, rfl, rfl, rfl, rfl⟩
    · rw [if_neg hc] at h
      simp only [Option.some.injEq] at h
      subst h
      exact ⟨rfl, rfl, rfl, rfl, rfl⟩

theorem startup_inv (image : Surface) (s : Ctl) (h : startup image = some s) :
    CtlInv image s := by
  unfold startup at h
  by_cases hbad : image.w ≤ 0 ∨ image.h ≤ 0 ∨ image.bpp ≠ 3
  · rw [if_pos hbad] at h; cases h
  · rw [if_neg hbad] at h
    have hw : 0 < image.w := by omega
    have hh : 0 < image.h := by omega
    have ew : Int.tdiv image.w 2 = image.w / 2 := Int.tdiv_eq_ediv (by omega) (by omega)
    have eh : Int.tdiv image.h 2 = image.h / 2 := Int.tdiv_eq_ediv (by omega) (by omega)
    cases hg : getPixel image (Int.tdiv image.w 2) (Int.tdiv image.h 2) with
    | none => rw [hg] at h; cases h
    | some c =>
      rw [hg] at h
      simp only [Option.some.injEq] at h
      subst h
      refine ⟨?_, ?_, ?_, ?_, hg⟩
      · show 0 ≤ Int.tdiv image.w 2
        omega
      · show Int.tdiv image.w 2 < image.w
        omega
      · show 0 ≤ Int.tdiv image.h 2
        omega
      · show Int.tdiv image.h 2 < image.h
        omega

theorem reachable_inv (m : Libm) (image : Surface) (s : Ctl) (h : Reachable m image s) :
    CtlInv image s := by
  induction h with
  | start s hs => exact startup_inv image s hs
  | step s s1 events _ _ ht ih =>
    obtain ⟨s2, he, hp1, hp2, hp3, _, _⟩ := tick_params m image s s1 events ht
    have h0 : CtlInv image { s with changed := false } := ih
    have h2 : CtlInv image s2 := handleEvents_inv image events _ s2 h0 he
    unfold CtlInv at h2 ⊢
    rw [hp1, hp2, hp3]
    exact h2

/-- C8 (as stated, refuted): the state after start-up has `alpha = 1.0f`;
after five "increase alpha" events `alpha` is `12582913 · 2^-23`
(`1.5 + 2^-23`, about `1.5000001`), which is not the `float` `1.5`. -/
theorem alpha_after_five_steps_not_1_5 :
    startup solid2 = some startA ∧ startA.alpha = one ∧
    (handleEvents solid2 startA
      [Event.keyDown SDLKey.right, Event.keyDown SDLKey.right, Event.keyDown SDLKey.right,
       Event.keyDown SDLKey.right, Event.keyDown SDLKey.right]).map (fun s => s.alpha)
      = some (f32 12582913 (-23)) ∧
    f32 12582913 (-23) ≠ f32 3 (-1) := by
  refine ⟨by decide, by decide, by decide, by decide⟩

/-- C8 (amended): in the controller each "increase alpha" action replaces
`alpha` by the `float` sum `alpha + 0.1f` and changes nothing but `alpha`
and the dirty flag; starting from `alpha = 1.0f`, five such actions yield
`alpha = 12582913 · 2^-23 = 1.5 + 2^-23` (about `1.5000001`, the `float`
next above `1.5`), with the other parameters, `running` and the log of
calls (no render) unchanged. -/
theorem five_increases (image : Surface) (s : Ctl) (h : s.alpha = one) :
    (∀ t : Ctl, handleEvent image t (Event.keyDown SDLKey.right) =
      some { t with alpha := fadd t.alpha tenth, changed := true }) ∧
    ∃ s5, handleEvents image s
        [Event.keyDown SDLKey.right, Event.keyDown SDLKey.right, Event.keyDown SDLKey.right,
         Event.keyDown SDLKey.right, Event.keyDown SDLKey.right] = some s5 ∧
      s5.alpha = f32 12582913 (-23) ∧ s5.changed = true ∧
      s5.xOff = s.xOff ∧ s5.yOff = s.yOff ∧ s5.clearColour = s.clearColour ∧
      s5.beta = s.beta ∧ s5.running = s.running ∧ s5.log = s.log := by
  refine ⟨fun t => handleEvent_right image t, ?_⟩
  refine ⟨{ s with
      alpha := fadd (fadd (fadd (fadd (fadd s.alpha tenth) tenth) tenth) tenth) tenth,
      changed := true }, ?_, ?_, rfl, rfl, rfl, rfl, rfl, rfl, rfl⟩
  · simp only [handleEvents_cons, handleEvent_right, Option.some_bind, handleEvents_nil]
  · show fadd (fadd (fadd (fadd (fadd s.alpha tenth) tenth) tenth) tenth) tenth = _
    rw [h]
    exact five_tenths

theorem five_increases_witness :
    startA.alpha = one ∧
    ((∀ t : Ctl, handleEvent solid2 t (Event.keyDown SDLKey.right) =
      some { t with alpha := fadd t.alpha tenth, changed := true }) ∧
    ∃ s5, handleEvents solid2 startA
        [Event.keyDown SDLKey.right, Event.keyDown SDLKey.right, Event.keyDown SDLKey.right,
         Event.keyDown SDLKey.right, Event.keyDown SDLKey.right] = some s5 ∧
      s5.alpha = f32 12582913 (-23) ∧ s5.changed = true ∧
      s5.xOff = startA.xOff ∧ s5.yOff = startA.yOff ∧ s5.clearColour = startA.clearColour ∧
      s5.beta = startA.beta ∧ s5.running = startA.running ∧ s5.log = startA.log) :=
  ⟨by decide, five_increases solid2 startA (by decide)⟩

/-- C9 (as stated, refuted): from the state after start-up on `solid2`, a
tick whose only input event is the reset action (the space key) calls the
mapper once and writes the output file once. -/
theorem reset_tick_invokes_mapper :
    startup solid2 = some startA ∧
    ∃ s1, tick sampleLibm solid2 startA [Event.keyDown SDLKey.space] = some s1 ∧
      mapperCalls startA.log = 0 ∧ mapperCalls s1.log = 1 ∧
      fileWrites startA.log = 0 ∧ fileWrites s1.log = 1 := by
  refine ⟨by decide, ?_⟩
  obtain ⟨out, _, h2⟩ := tick_space sampleLibm solid2 (by decide) startA
  refine ⟨_, h2, by decide, ?_, by decide, ?_⟩
  · simp only [mapperCalls_append]
    rfl
  · simp only [fileWrites_append]
    rfl

/-- C9 (amended): the controller's reset action redraws the source view and
sets the dirty flag: a tick whose only input event is the reset action
invokes the mapper exactly once, with the unchanged parameters, and writes
the output file once. -/
theorem reset_tick_renders (m : Libm) (image : Surface) (hwf : image.WF) (s : Ctl) :
    ∃ out s1, escher m (convertSurface image) image s.clearColour (ofInt s.xOff)
        (ofInt s.yOff) s.alpha s.beta = some out ∧
      tick m image s [Event.keyDown SDLKey.space] = some s1 ∧
      s1.log = s.log ++ [Effect.blitImage,
        Effect.escherCall s.clearColour s.xOff s.yOff s.alpha s.beta,
        Effect.saveBMP out, Effect.blitDest out, Effect.flip, Effect.delay] ∧
      mapperCalls s1.log = mapperCalls s.log + 1 ∧
      fileWrites s1.log = fileWrites s.log + 1 ∧
      SameParams s s1 := by
  obtain ⟨out, h1, h2⟩ := tick_space m image hwf s
  refine ⟨out, _, h1, h2, ?_, ?_, ?_, ⟨rfl, rfl, rfl, rfl, rfl⟩⟩
  · simp
  · simp only [mapperCalls_append]
    simp [mapperCalls]
  · simp only [fileWrites_append]
    simp [fileWrites]

theorem reset_tick_renders_witness :
    solid2.WF ∧
    ∃ out s1, escher sampleLibm (convertSurface solid2) solid2 startA.clearColour
        (ofInt startA.xOff) (ofInt startA.yOff) startA.alpha startA.beta = some out ∧
      tick sampleLibm solid2 startA [Event.keyDown SDLKey.space] = some s1 ∧
      s1.log = startA.log ++ [Effect.blitImage,
        Effect.escherCall startA.clearColour startA.xOff startA.yOff startA.alpha startA.beta,
        Effect.saveBMP out, Effect.blitDest out, Effect.flip, Effect.delay] ∧
      mapperCalls s1.log = mapperCalls startA.log + 1 ∧
      fileWrites s1.log = fileWrites startA.log + 1 ∧
      SameParams startA s1 :=
  ⟨by decide, reset_tick_renders sampleLibm solid2 (by decide) startA⟩

/-- C10: controller invariant.  In every state reachable from start-up (of
a loaded image with `W, H > 0`, centre `(W/2, H/2)`) by any sequence of
ticks with any input events, the centre lies in `[0, W) x [0, H)` and the
marker colour equals `getPixel(source, cx, cy)`; a pick-point event outside
the source image region changes neither centre nor marker (nor any other
part of the state). -/
theorem controller_invariant (m : Libm) (image : Surface) (s : Ctl)
    (h : Reachable m image s) :
    (0 ≤ s.xOff ∧ s.xOff < image.w ∧ 0 ≤ s.yOff ∧ s.yOff < image.h ∧
      getPixel image s.xOff s.yOff = some s.clearColour) ∧
    (∀ x y : Nat, ¬ ((x : Int) < image.w ∧ (y : Int) < image.h) →
      handleEvent image s (Event.mouseButtonUp x y) = some s) ∧
    ∀ (events : List Event) (s1 : Ctl), handleEvents image s events = some s1 →
      0 ≤ s1.xOff ∧ s1.xOff < image.w ∧ 0 ≤ s1.yOff ∧ s1.yOff < image.h ∧
        getPixel image s1.xOff s1.yOff = some s1.clearColour := by
  refine ⟨reachable_inv m image s h, ?_, ?_⟩
  · intro x y hout
    simp only [handleEvent, reduceCtorEq, if_false]
    rw [if_neg hout]
  · intro events s1 he
    exact handleEvents_inv image events s s1 (reachable_inv m image s h) he

theorem controller_invariant_witness :
    Reachable sampleLibm solid2 startA ∧
    ((0 ≤ startA.xOff ∧ startA.xOff < solid2.w ∧ 0 ≤ startA.yOff ∧ startA.yOff < solid2.h ∧
      getPixel solid2 startA.xOff startA.yOff = some startA.clearColour) ∧
    (∀ x y : Nat, ¬ ((x : Int) < solid2.w ∧ (y : Int) < solid2.h) →
      handleEvent solid2 startA (Event.mouseButtonUp x y) = some startA) ∧
    ∀ (events : List Event) (s1 : Ctl), handleEvents solid2 startA events = some s1 →
      0 ≤ s1.xOff ∧ s1.xOff < solid2.w ∧ 0 ≤ s1.yOff ∧ s1.yOff < solid2.h ∧
        getPixel solid2 s1.xOff s1.yOff = some s1.clearColour) :=
  ⟨Reachable.start startA startup_solid2,
    controller_invariant sampleLibm solid2 startA (Reachable.start startA startup_solid2)⟩

/-! ## Colours and buffer indices -/

theorem pack_eq_sum (b0 b1 b2 : Byte) :
    pack b0 b1 b2 = b0.val + 256 * b1.val + 65536 * b2.val := by
  have h0 := b0.isLt
  have h1 := b1.isLt
  have h2 := b2.isLt
  have e1 : b0.val ||| (b1.val <<< 8) = b0.val + 256 * b1.val := by
    rw [Nat.shiftLeft_eq, Nat.lor_comm, Nat.mul_comm b1.val (2 ^ 8)]
    rw [← Nat.mul_add_lt_is_or (by omega : b0.val < 2 ^ 8) b1.val]
    omega
  have e2 : (b0.val + 256 * b1.val) ||| (b2.val <<< 16)
      = b0.val + 256 * b1.val + 65536 * b2.val := by
    rw [Nat.shiftLeft_eq, Nat.lor_comm, Nat.mul_comm b2.val (2 ^ 16)]
    rw [← Nat.mul_add_lt_is_or (by omega : b0.val + 256 * b1.val < 2 ^ 16) b2.val]
    omega
  unfold pack
  rw [e1, e2]
  omega

theorem pack_lt (b0 b1 b2 : Byte) : pack b0 b1 b2 < 2 ^ 24 := by
  have h0 := b0.isLt
  have h1 := b1.isLt
  have h2 := b2.isLt
  rw [pack_eq_sum]
  omega

theorem classify_ne_fault (c : Search) (hwf : c.src.WF) (hb : c.bpp = 3) (r : Fl) :
    classify c r ≠ Cand.fault := by
  unfold classify
  by_cases ho : outOfBounds c.src (candX c r) (candY c r) = true
  · rw [if_pos ho]; exact fun h => by cases h
  · rw [if_neg ho]
    obtain ⟨q, hq⟩ := read3_isSome (offset_lt hwf ho)
    rw [hb, hq]
    obtain ⟨q0, q1, q2⟩ := q
    simp only
    by_cases hm : pack q0 q1 q2 = c.clearColour
    · rw [if_pos hm]; exact fun h => by cases h
    · rw [if_neg hm]; exact fun h => by cases h

theorem getPixel_isSome (image : Surface) (hwf : image.WF) (x y : Int) :
    ∃ v, getPixel image x y = some v := by
  unfold getPixel
  by_cases ho : outOfBounds image x y = true
  · rw [if_pos ho]; exact ⟨0, rfl⟩
  · rw [if_neg ho, hwf.1]
    obtain ⟨q, hq⟩ := read3_isSome (offset_lt hwf ho)
    rw [hq]
    exact ⟨_, rfl⟩

/-- C15: for an in-bounds candidate `(ix2, iy2)` the colour the mapper
computes inline equals `getPixel(source, ix2, iy2)`, which is
`b0 + 256*b1 + 65536*b2` of the pixel's three bytes and below `2^24`;
a marker colour sampled with `getPixel` at that point makes the candidate
compare equal to the marker, and a marker colour of `2^24` or more is
matched by no candidate. -/
theorem inline_colour_eq_getPixel (c : Search) (hwf : c.src.WF) (hb : c.bpp = 3) (r : Fl)
    (hin : outOfBounds c.src (candX c r) (candY c r) = false) :
    (∃ b0 b1 b2 : Byte,
      read3 c.src.pixels (offset c.src c.bpp (candX c r) (candY c r)) = some (b0, b1, b2) ∧
      pack b0 b1 b2 = b0.val + 256 * b1.val + 65536 * b2.val ∧
      pack b0 b1 b2 < 2 ^ 24 ∧
      getPixel c.src (candX c r) (candY c r) = some (pack b0 b1 b2) ∧
      (classify c r = Cand.marker ↔ pack b0 b1 b2 = c.clearColour)) ∧
    (getPixel c.src (candX c r) (candY c r) = some c.clearColour →
      classify c r = Cand.marker) ∧
    (2 ^ 24 ≤ c.clearColour → ∀ r1 : Fl, classify c r1 ≠ Cand.marker) := by
  have hno : ¬ outOfBounds c.src (candX c r) (candY c r) = true := by simp [hin]
  obtain ⟨q, hq⟩ := read3_isSome (offset_lt hwf hno)
  obtain ⟨b0, b1, b2⟩ := q
  have hq3 : read3 c.src.pixels (offset c.src c.bpp (candX c r) (candY c r))
      = some (b0, b1, b2) := by rw [hb]; exact hq
  have hg := getPixel_of_read3 c.src hwf.1 _ _ b0 b1 b2 hin hq
  have hcl : classify c r = Cand.marker ↔ pack b0 b1 b2 = c.clearColour := by
    unfold classify
    rw [if_neg hno, hq3]
    simp only
    by_cases hm : pack b0 b1 b2 = c.clearColour
    · rw [if_pos hm]; exact ⟨fun _ => hm, fun _ => rfl⟩
    · rw [if_neg hm]; exact ⟨fun h => (by cases h), fun h => absurd h hm⟩
  refine ⟨⟨b0, b1, b2, hq3, pack_eq_sum b0 b1 b2, pack_lt b0 b1 b2, hg, hcl⟩, ?_, ?_⟩
  · intro h
    rw [hg] at h
    exact hcl.mpr (Option.some.inj h)
  · intro hbig r1 hm
    obtain ⟨_, q0, q1, q2, _, hp⟩ := classify_marker hm
    have := pack_lt q0 q1 q2
    omega

theorem inline_colour_eq_getPixel_witness :
    (searchOf passA 0 1).src.WF ∧ (searchOf passA 0 1).bpp = 3 ∧
    outOfBounds (searchOf passA 0 1).src (candX (searchOf passA 0 1) (startRadius passA 0 1))
      (candY (searchOf passA 0 1) (startRadius passA 0 1)) = false ∧
    ((∃ b0 b1 b2 : Byte,
      read3 (searchOf passA 0 1).src.pixels (offset (searchOf passA 0 1).src
        (searchOf passA 0 1).bpp (candX (searchOf passA 0 1) (startRadius passA 0 1))
        (candY (searchOf passA 0 1) (startRadius passA 0 1))) = some (b0, b1, b2) ∧
      pack b0 b1 b2 = b0.val + 256 * b1.val + 65536 * b2.val ∧
      pack b0 b1 b2 < 2 ^ 24 ∧
      getPixel (searchOf passA 0 1).src (candX (searchOf passA 0 1) (startRadius passA 0 1))
        (candY (searchOf passA 0 1) (startRadius passA 0 1)) = some (pack b0 b1 b2) ∧
      (classify (searchOf passA 0 1) (startRadius passA 0 1) = Cand.marker ↔
        pack b0 b1 b2 = (searchOf passA 0 1).clearColour)) ∧
    (getPixel (searchOf passA 0 1).src (candX (searchOf passA 0 1) (startRadius passA 0 1))
        (candY (searchOf passA 0 1) (startRadius passA 0 1))
        = some (searchOf passA 0 1).clearColour →
      classify (searchOf passA 0 1) (startRadius passA 0 1) = Cand.marker) ∧
    (2 ^ 24 ≤ (searchOf passA 0 1).clearColour →
      ∀ r1 : Fl, classify (searchOf passA 0 1) r1 ≠ Cand.marker)) :=
  ⟨by decide, by decide, by decide,
    inline_colour_eq_getPixel (searchOf passA 0 1) (by decide) (by decide)
      (startRadius passA 0 1) (by decide)⟩

/-- C16: under the preconditions that source and destination have equal
`W` and `H`, 3 bytes per pixel, row stride `pitch >= 3*W` and a byte buffer
of at least `H*pitch` bytes, the pass runs without an access outside a
buffer: every byte index of an in-bounds source pixel
(`iy2*pitch + 3*ix2 + c`, `c` in `0..2`) and of a destination pixel
(`iy*pitch + 3*ix + c`) lies inside the respective buffer, a source read
happens only for a candidate that passed the bounds test and never fails,
and `getPixel` never reads outside the buffer either. -/
theorem accesses_in_bounds (m : Libm) (dest src : Surface) (clearColour : Nat)
    (xOff yOff _alpha _beta : Fl)
    (hd : dest.WF) (hs : src.WF) (hw : dest.w = src.w) (hh : dest.h = src.h) :
    (∃ out, escher m dest src clearColour xOff yOff _alpha _beta = some out) ∧
    (∀ x y : Int, outOfBounds src x y = false →
      ∀ k, k < 3 → offset src 3 x y + k < src.pixels.length) ∧
    (∀ ix iy : Nat, (ix : Int) < dest.w → (iy : Int) < dest.h →
      ∀ k, k < 3 → offset dest 3 ix iy + k < dest.pixels.length) ∧
    (∀ (ix iy : Int) (r : Fl),
      classify (searchOf (passOf m src clearColour xOff yOff _alpha _beta) ix iy) r
        ≠ Cand.fault) ∧
    (∀ (ix iy : Int) (r : Fl),
      classify (searchOf (passOf m src clearColour xOff yOff _alpha _beta) ix iy) r
        ≠ Cand.outside →
      outOfBounds src
        (candX (searchOf (passOf m src clearColour xOff yOff _alpha _beta) ix iy) r)
        (candY (searchOf (passOf m src clearColour xOff yOff _alpha _beta) ix iy) r)
        = false) ∧
    (∀ x y : Int, ∃ v, getPixel src x y = some v) := by
  obtain ⟨out, hout, _⟩ :=
    escher_spec m dest src clearColour xOff yOff _alpha _beta hd hs hw hh
  refine ⟨⟨out, hout⟩, ?_, ?_, ?_, ?_, ?_⟩
  · intro x y hin k hk
    have := offset_lt hs (by simp [hin] : ¬ outOfBounds src x y = true)
    omega
  · intro ix iy hx hy k hk
    have hin := outOfBounds_nat dest ix iy hx hy
    have := offset_lt hd (by simp [hin] : ¬ outOfBounds dest ix iy = true)
    omega
  · intro ix iy r
    exact classify_ne_fault _ hs rfl r
  · intro ix iy r hne
    cases ho : outOfBounds src
        (candX (searchOf (passOf m src clearColour xOff yOff _alpha _beta) ix iy) r)
        (candY (searchOf (passOf m src clearColour xOff yOff _alpha _beta) ix iy) r) with
    | false => rfl
    | true =>
      exfalso
      apply hne
      have ho1 : outOfBounds
          (searchOf (passOf m src clearColour xOff yOff _alpha _beta) ix iy).src
          (candX (searchOf (passOf m src clearColour xOff yOff _alpha _beta) ix iy) r)
          (candY (searchOf (passOf m src clearColour xOff yOff _alpha _beta) ix iy) r)
          = true := ho
      unfold classify
      rw [if_pos ho1]
  · intro x y
    exact getPixel_isSome src hs x y

theorem accesses_in_bounds_witness :
    grey2.WF ∧ solid2.WF ∧ grey2.w = solid2.w ∧ grey2.h = solid2.h ∧
    ((∃ out, escher sampleLibm grey2 solid2 0x102030 (ofInt 1) (ofInt 1) one zero = some out) ∧
    (∀ x y : Int, outOfBounds solid2 x y = false →
      ∀ k, k < 3 → offset solid2 3 x y + k < solid2.pixels.length) ∧
    (∀ ix iy : Nat, (ix : Int) < grey2.w → (iy : Int) < grey2.h →
      ∀ k, k < 3 → offset grey2 3 ix iy + k < grey2.pixels.length) ∧
    (∀ (ix iy : Int) (r : Fl),
      classify (searchOf (passOf sampleLibm solid2 0x102030 (ofInt 1) (ofInt 1) one zero)
        ix iy) r ≠ Cand.fault) ∧
    (∀ (ix iy : Int) (r : Fl),
      classify (searchOf (passOf sampleLibm solid2 0x102030 (ofInt 1) (ofInt 1) one zero)
        ix iy) r ≠ Cand.outside →
      outOfBounds solid2
        (candX (searchOf (passOf sampleLibm solid2 0x102030 (ofInt 1) (ofInt 1) one zero)
          ix iy) r)
        (candY (searchOf (passOf sampleLibm solid2 0x102030 (ofInt 1) (ofInt 1) one zero)
          ix iy) r)
        = false) ∧
    (∀ x y : Int, ∃ v, getPixel solid2 x y = some v)) :=
  ⟨by decide, by decide, by decide, by decide,
    accesses_in_bounds sampleLibm grey2 solid2 0x102030 (ofInt 1) (ofInt 1) one zero
      (by decide) (by decide) (by decide) (by decide)⟩

/-! ## The cast to `int` and the bounds test -/

theorem toInt_inside_iff (n : Int) (hn : 0 < n ∧ n ≤ 2147483647) (u : Fl) :
    (0 ≤ toInt u ∧ toInt u < n) ↔ truncInside n u = true := by
  cases u with
  | nan => simp [toInt, truncInside]
  | inf s => simp [toInt, truncInside]
  | fin s k =>
    have hP : (2 : Nat) ^ binary32.unit = 713623846352979940529142984724747568191373312 := by
      simp only [binary32]; norm_num
    have hPi : (2 : Int) ^ 149 = 713623846352979940529142984724747568191373312 := by norm_num
    have h1 := Nat.div_add_mod k (2 ^ binary32.unit)
    have h2 := Nat.mod_lt k (Nat.pow_pos (by omega : 0 < 2) : 0 < 2 ^ binary32.unit)
    rw [hP] at h1 h2
    simp only [toInt, truncInside, signedUnits, hP, hPi, decide_eq_true_eq]
    generalize k / 713623846352979940529142984724747568191373312 = q at h1 ⊢
    generalize k % 713623846352979940529142984724747568191373312 = t at h1 h2
    cases s
    · simp only [Bool.false_eq_true, if_false]
      split <;> omega
    · simp only [if_true]
      split <;> omega

/-- The bounds test of the loops in terms of the `float` coordinates before
the cast. -/
theorem outOfBounds_cand_iff (c : Search) (hw : 0 < c.src.w ∧ c.src.w ≤ 2147483647)
    (hh : 0 < c.src.h ∧ c.src.h ≤ 2147483647) (r : Fl) :
    outOfBounds c.src (candX c r) (candY c r) = false ↔
      (truncInside c.src.w (candU c r) = true ∧ truncInside c.src.h (candV c r) = true) := by
  have hx := toInt_inside_iff c.src.w hw (candU c r)
  have hy := toInt_inside_iff c.src.h hh (candV c r)
  have ex : candX c r = toInt (candU c r) := rfl
  have ey : candY c r = toInt (candV c r) := rfl
  rw [← hx, ← hy, ← ex, ← ey]
  constructor
  · intro h
    have := outOfBounds_eq_false (by simp [h] : ¬ outOfBounds c.src (candX c r) (candY c r) = true)
    omega
  · intro h
    cases ho : outOfBounds c.src (candX c r) (candY c r) with
    | false => rfl
    | true => have := outOfBounds_eq_true ho; omega

theorem realInside_imp_truncInside (n : Int) (u : Fl) (h : realInside n u = true) :
    truncInside n u = true := by
  cases u with
  | nan => simp [realInside] at h
  | inf s => simp [realInside] at h
  | fin s k =>
    simp only [realInside, decide_eq_true_eq] at h
    simp only [truncInside, decide_eq_true_eq]
    have hPi : (2 : Int) ^ 149 = 713623846352979940529142984724747568191373312 := by norm_num
    rw [hPi] at h ⊢
    omega

/-- C14 (as stated, refuted): in the pass `passA`, the third candidate of the
inward search of pixel `(0, 1)` has the real coordinate
`u = xOff + r*x` below 0 (about `-0.35`), so it is not in `0 <= u < W`, yet
the cast gives `ix2 = 0` and the bounds test treats the candidate as inside
(it is read and found marker coloured). -/
theorem truncation_counts_outside_as_inside :
    ltF (candU (searchOf passA 0 1) (radiusAt (searchOf passA 0 1) (startRadius passA 0 1) 2))
      zero = true ∧
    realInside solid2.w
      (candU (searchOf passA 0 1) (radiusAt (searchOf passA 0 1) (startRadius passA 0 1) 2))
      = false ∧
    candX (searchOf passA 0 1) (radiusAt (searchOf passA 0 1) (startRadius passA 0 1) 2) = 0 ∧
    outOfBounds solid2
      (candX (searchOf passA 0 1) (radiusAt (searchOf passA 0 1) (startRadius passA 0 1) 2))
      (candY (searchOf passA 0 1) (radiusAt (searchOf passA 0 1) (startRadius passA 0 1) 2))
      = false ∧
    classify (searchOf passA 0 1)
      (radiusAt (searchOf passA 0 1) (startRadius passA 0 1) 2) = Cand.marker := by
  refine ⟨by decide, by decide, by decide, by decide, by decide⟩

/-- C14 (amended): for a source with `1 <= W, H <= INT_MAX`, the bounds test
of both search phases treats a candidate with real coordinates
`(u, v) = (cx + r*x, cy - r*y)` as inside the source image if and only if
`-1 < u < W` and `-1 < v < H` (the cast truncates toward zero, so a
coordinate in the open interval `(-1, 0)` counts as column or row 0); in
particular every candidate with `0 <= u < W` and `0 <= v < H` counts as
inside. -/
theorem bounds_test_truncated (c : Search) (hw : 0 < c.src.w ∧ c.src.w ≤ 2147483647)
    (hh : 0 < c.src.h ∧ c.src.h ≤ 2147483647) (r : Fl) :
    candX c r = toInt (candU c r) ∧ candY c r = toInt (candV c r) ∧
    (outOfBounds c.src (candX c r) (candY c r) = false ↔
      (truncInside c.src.w (candU c r) = true ∧ truncInside c.src.h (candV c r) = true)) ∧
    (realInside c.src.w (candU c r) = true ∧ realInside c.src.h (candV c r) = true →
      outOfBounds c.src (candX c r) (candY c r) = false) := by
  refine ⟨rfl, rfl, outOfBounds_cand_iff c hw hh r, ?_⟩
  intro h
  exact (outOfBounds_cand_iff c hw hh r).mpr
    ⟨realInside_imp_truncInside _ _ h.1, realInside_imp_truncInside _ _ h.2⟩

theorem bounds_test_truncated_witness :
    (0 < (searchOf passA 0 1).src.w ∧ (searchOf passA 0 1).src.w ≤ 2147483647) ∧
    (0 < (searchOf passA 0 1).src.h ∧ (searchOf passA 0 1).src.h ≤ 2147483647) ∧
    (candX (searchOf passA 0 1) (startRadius passA 0 1)
        = toInt (candU (searchOf passA 0 1) (startRadius passA 0 1)) ∧
      candY (searchOf passA 0 1) (startRadius passA 0 1)
        = toInt (candV (searchOf passA 0 1) (startRadius passA 0 1)) ∧
      (outOfBounds (searchOf passA 0 1).src (candX (searchOf passA 0 1) (startRadius passA 0 1))
          (candY (searchOf passA 0 1) (startRadius passA 0 1)) = false ↔
        (truncInside (searchOf passA 0 1).src.w
            (candU (searchOf passA 0 1) (startRadius passA 0 1)) = true ∧
          truncInside (searchOf passA 0 1).src.h
            (candV (searchOf passA 0 1) (startRadius passA 0 1)) = true)) ∧
      (realInside (searchOf passA 0 1).src.w
            (candU (searchOf passA 0 1) (startRadius passA 0 1)) = true ∧
          realInside (searchOf passA 0 1).src.h
            (candV (searchOf passA 0 1) (startRadius passA 0 1)) = true →
        outOfBounds (searchOf passA 0 1).src (candX (searchOf passA 0 1) (startRadius passA 0 1))
          (candY (searchOf passA 0 1) (startRadius passA 0 1)) = false)) :=
  ⟨by decide, by decide,
    bounds_test_truncated (searchOf passA 0 1) (by decide) (by decide) (startRadius passA 0 1)⟩

/-! ## One tick of the event loop -/

theorem handleEvent_total (image : Surface) (hwf : image.WF) (s : Ctl) (e : Event) :
    ∃ s1, handleEvent image s e = some s1 ∧
      s1.changed = (s.changed || dirties image e) ∧
      mapperCalls s1.log = mapperCalls s.log ∧ fileWrites s1.log = fileWrites s.log := by
  cases e with
  | keyDown k =>
    cases k
    · exact ⟨_, rfl, by simp [dirties], rfl, rfl⟩
    · refine ⟨_, rfl, by simp [dirties], ?_, ?_⟩
      · simp [mapperCalls_append, mapperCalls]
      · simp [fileWrites_append, fileWrites]
    · exact ⟨_, rfl, by simp [dirties], rfl, rfl⟩
    · exact ⟨_, rfl, by simp [dirties], rfl, rfl⟩
    · exact ⟨_, rfl, by simp [dirties], rfl, rfl⟩
    · exact ⟨_, rfl, by simp [dirties], rfl, rfl⟩
    · exact ⟨_, rfl, by simp [dirties], rfl, rfl⟩
  | quit => exact ⟨_, rfl, by simp [dirties], rfl, rfl⟩
  | other => exact ⟨_, rfl, by simp [dirties], rfl, rfl⟩
  | mouseButtonUp x y =>
    by_cases hin : (x : Int) < image.w ∧ (y : Int) < image.h
    · obtain ⟨v, hv⟩ := getPixel_isSome image hwf x y
      refine ⟨{ s with xOff := x, yOff := y, clearColour := v, changed := true }, ?_,
        by simp [dirties, hin], rfl, rfl⟩
      simp only [handleEvent, reduceCtorEq, if_false]
      rw [if_pos hin, hv]
    · refine ⟨s, ?_, by simp [dirties, hin], rfl, rfl⟩
      simp only [handleEvent, reduceCtorEq, if_false]
      rw [if_neg hin]

theorem handleEvents_total (image : Surface) (hwf : image.WF) (events : List Event) :
    ∀ s : Ctl, ∃ s1, handleEvents image s events = some s1 ∧
      s1.changed = (s.changed || events.any (dirties image)) ∧
      mapperCalls s1.log = mapperCalls s.log ∧ fileWrites s1.log = fileWrites s.log := by
  induction events with
  | nil => intro s; exact ⟨s, rfl, by simp, rfl, rfl⟩
  | cons e es ih =>
    intro s
    obtain ⟨s1, h1, c1, m1, f1⟩ := handleEvent_total image hwf s e
    obtain ⟨s2, h2, c2, m2, f2⟩ := ih s1
    refine ⟨s2, ?_, ?_, by rw [m2, m1], by rw [f2, f1]⟩
    · rw [handleEvents_cons, h1, Option.some_bind, h2]
    · rw [c2, c1, List.any_cons, Bool.or_assoc]

/-- C12 (as stated, refuted): from the state after start-up on `solid2`, in
the tick with the events "other", "space key" and "mouse button released at
`(3, 0)`" (outside the 2×2 image) no event changes the centre, the marker,
alpha or beta, yet the mapper is invoked once. -/
theorem tick_without_parameter_change_renders :
    (∀ (s : Ctl) (e : Event),
      e ∈ [Event.other, Event.keyDown SDLKey.space, Event.mouseButtonUp 3 0] →
      ∃ s2, handleEvent solid2 s e = some s2 ∧ SameParams s s2) ∧
    ∃ s1, tick sampleLibm solid2 startA
        [Event.other, Event.keyDown SDLKey.space, Event.mouseButtonUp 3 0] = some s1 ∧
      SameParams startA s1 ∧
      mapperCalls startA.log = 0 ∧ mapperCalls s1.log = 1 := by
  constructor
  · intro s e he
    simp only [List.mem_cons, List.mem_singleton, List.not_mem_nil, or_false] at he
    rcases he with rfl | rfl | rfl
    · exact ⟨s, rfl, rfl, rfl, rfl, rfl, rfl⟩
    · exact ⟨_, handleEvent_space solid2 s, rfl, rfl, rfl, rfl, rfl⟩
    · exact ⟨s, rfl, rfl, rfl, rfl, rfl, rfl⟩
  · have he : handleEvents solid2 { startA with changed := false }
        [Event.other, Event.keyDown SDLKey.space, Event.mouseButtonUp 3 0] =
        some { startA with changed := true, log := startA.log ++ [Effect.blitImage] } := rfl
    obtain ⟨out, _, h2⟩ := tick_changed sampleLibm solid2 (by decide) startA _ _ he rfl
    refine ⟨_, h2, ⟨rfl, rfl, rfl, rfl, rfl⟩, by decide, ?_⟩
    simp only [mapperCalls_append]
    rfl

/-- C12 (amended): per tick the controller invokes the mapper at most once,
and exactly once iff at least one event of the tick sets the dirty flag: an
arrow key, a mouse button released inside the source image, or the reset
(space) key, which changes no parameter.  The events themselves invoke
nothing, and the invocation uses the parameters (centre, marker, alpha,
beta) as they stand after all of the tick's events have been applied. -/
theorem tick_renders_once (m : Libm) (image : Surface) (hwf : image.WF) (s : Ctl)
    (events : List Event) :
    ∃ s2 s1, handleEvents image { s with changed := false } events = some s2 ∧
      tick m image s events = some s1 ∧
      SameParams s2 s1 ∧
      mapperCalls s2.log = mapperCalls s.log ∧
      (events.any (dirties image) = false →
        s1.log = s2.log ++ [Effect.delay] ∧
        mapperCalls s1.log = mapperCalls s.log ∧ fileWrites s1.log = fileWrites s.log) ∧
      (events.any (dirties image) = true →
        ∃ out, escher m (convertSurface image) image s2.clearColour (ofInt s2.xOff)
            (ofInt s2.yOff) s2.alpha s2.beta = some out ∧
          s1.log = s2.log ++
            [Effect.escherCall s2.clearColour s2.xOff s2.yOff s2.alpha s2.beta,
             Effect.saveBMP out, Effect.blitDest out, Effect.flip, Effect.delay] ∧
          mapperCalls s1.log = mapperCalls s.log + 1 ∧
          fileWrites s1.log = fileWrites s.log + 1) := by
  obtain ⟨s2, h2, c2, m2, f2⟩ := handleEvents_total image hwf events { s with changed := false }
  have c3 : s2.changed = events.any (dirties image) := by
    rw [c2]; simp
  have m3 : mapperCalls s2.log = mapperCalls s.log := m2
  have f3 : fileWrites s2.log = fileWrites s.log := f2
  cases hany : events.any (dirties image) with
  | false =>
    rw [hany] at c3
    have ht : tick m image s events = some { s2 with log := s2.log ++ [Effect.delay] } := by
      unfold tick
      rw [h2]
      simp only
      rw [if_neg (by simp [c3])]
    refine ⟨s2, _, h2, ht, ⟨rfl, rfl, rfl, rfl, rfl⟩, m3, ?_, ?_⟩
    · intro _
      refine ⟨rfl, ?_, ?_⟩
      · show mapperCalls (s2.log ++ [Effect.delay]) = _
        rw [mapperCalls_append, m3]; rfl
      · show fileWrites (s2.log ++ [Effect.delay]) = _
        rw [fileWrites_append, f3]; rfl
    · intro h; cases h
  | true =>
    rw [hany] at c3
    obtain ⟨out, ho, ht⟩ := tick_changed m image hwf s s2 events h2 c3
    refine ⟨s2, _, h2, ht, ⟨rfl, rfl, rfl, rfl, rfl⟩, m3, ?_, ?_⟩
    · intro h; cases h
    · intro _
      refine ⟨out, ho, by simp, ?_, ?_⟩
      · show mapperCalls (s2.log ++ _ ++ [Effect.delay]) = _
        rw [mapperCalls_append, mapperCalls_append, m3]; rfl
      · show fileWrites (s2.log ++ _ ++ [Effect.delay]) = _
        rw [fileWrites_append, fileWrites_append, f3]; rfl

theorem tick_renders_once_witness :
    solid2.WF ∧
    ∃ s2 s1, handleEvents solid2 { startA with changed := false }
        [Event.keyDown SDLKey.right, Event.mouseButtonUp 0 1] = some s2 ∧
      tick sampleLibm solid2 startA [Event.keyDown SDLKey.right, Event.mouseButtonUp 0 1]
        = some s1 ∧
      SameParams s2 s1 ∧
      mapperCalls s2.log = mapperCalls startA.log ∧
      (([Event.keyDown SDLKey.right, Event.mouseButtonUp 0 1] : List Event).any
          (dirties solid2) = false →
        s1.log = s2.log ++ [Effect.delay] ∧
        mapperCalls s1.log = mapperCalls startA.log ∧
        fileWrites s1.log = fileWrites startA.log) ∧
      (([Event.keyDown SDLKey.right, Event.mouseButtonUp 0 1] : List Event).any
          (dirties solid2) = true →
        ∃ out, escher sampleLibm (convertSurface solid2) solid2 s2.clearColour (ofInt s2.xOff)
            (ofInt s2.yOff) s2.alpha s2.beta = some out ∧
          s1.log = s2.log ++
            [Effect.escherCall s2.clearColour s2.xOff s2.yOff s2.alpha s2.beta,
             Effect.saveBMP out, Effect.blitDest out, Effect.flip, Effect.delay] ∧
          mapperCalls s1.log = mapperCalls startA.log + 1 ∧
          fileWrites s1.log = fileWrites startA.log + 1) :=
  ⟨by decide,
    tick_renders_once sampleLibm solid2 (by decide) startA
      [Event.keyDown SDLKey.right, Event.mouseButtonUp 0 1]⟩

/-! ## The first loop, candidate by candidate -/

theorem outwardRun_succ (c : Search) (n : Nat) (r : Fl) :
    outwardRun c (n + 1) r =
      match classify c r with
      | Cand.outside =>
        (outwardRun c n (fmul r c.baseScale)).map (fun t => (t.1, t.2.1 + 1, t.2.2 + 1))
      | Cand.marker => some (r, 1, 0)
      | Cand.colour _ _ _ =>
        (outwardRun c n (fmul r c.baseScale)).map (fun t => (t.1, t.2.1 + 1, t.2.2 + 1))
      | Cand.fault => none := by
  unfold classify
  rw [outwardRun]
  by_cases h : outOfBounds c.src (candX c r) (candY c r) = true
  · rw [if_pos h, if_pos h]
  · rw [if_neg h, if_neg h]
    cases hq : read3 c.src.pixels (offset c.src c.bpp (candX c r) (candY c r)) with
    | none => rfl
    | some q =>
      obtain ⟨q0, q1, q2⟩ := q
      simp only
      by_cases hm : pack q0 q1 q2 = c.clearColour
      · rw [if_pos hm, if_pos hm]
      · rw [if_neg hm, if_neg hm]

theorem outward_eq_run (c : Search) :
    ∀ (n : Nat) (r : Fl), outward c n r = (outwardRun c n r).map (fun t => t.1) := by
  intro n
  induction n with
  | zero => intro r; rfl
  | succ n ih =>
    intro r
    rw [outward_succ, outwardRun_succ]
    cases classify c r with
    | outside => simp only; rw [ih]; cases outwardRun c n (fmul r c.baseScale) <;> rfl
    | marker => rfl
    | colour q0 q1 q2 =>
      simp only; rw [ih]; cases outwardRun c n (fmul r c.baseScale) <;> rfl
    | fault => rfl

/-- While no candidate is an in-bounds marker pixel the first loop goes on:
after `n` passes the radius has been multiplied `n` times. -/
theorem outwardRun_all (c : Search) :
    ∀ (n : Nat) (r : Fl),
      (∀ j, j < n → classify c (radiusOut c r j) ≠ Cand.marker ∧
        classify c (radiusOut c r j) ≠ Cand.fault) →
      outwardRun c n r = some (radiusOut c r n, n, n) := by
  intro n
  induction n with
  | zero => intro r _; rfl
  | succ n ih =>
    intro r h
    have h0 := h 0 (by omega)
    have hrest : ∀ j, j < n → classify c (radiusOut c (fmul r c.baseScale) j) ≠ Cand.marker ∧
        classify c (radiusOut c (fmul r c.baseScale) j) ≠ Cand.fault :=
      fun j hj => h (j + 1) (by omega)
    have e : radiusOut c r (n + 1) = radiusOut c (fmul r c.baseScale) n := rfl
    rw [outwardRun_succ, e]
    cases hc : classify c r with
    | outside => simp only; rw [ih _ hrest]; rfl
    | colour q0 q1 q2 => simp only; rw [ih _ hrest]; rfl
    | marker => exact absurd hc h0.1
    | fault => exact absurd hc h0.2

/-- The first in-bounds marker candidate stops the first loop, with the
radius it was tested at. -/
theorem outwardRun_first (c : Search) :
    ∀ (k n : Nat) (r : Fl), k < n →
      (∀ j, j < k → classify c (radiusOut c r j) ≠ Cand.marker ∧
        classify c (radiusOut c r j) ≠ Cand.fault) →
      classify c (radiusOut c r k) = Cand.marker →
      outwardRun c n r = some (radiusOut c r k, k + 1, k) := by
  intro k
  induction k with
  | zero =>
    intro n r hn _ hm
    obtain ⟨n1, rfl⟩ : ∃ n1, n = n1 + 1 := ⟨n - 1, by omega⟩
    have hm0 : classify c r = Cand.marker := hm
    rw [outwardRun_succ, hm0]
    rfl
  | succ k ih =>
    intro n r hn h hm
    obtain ⟨n1, rfl⟩ : ∃ n1, n = n1 + 1 := ⟨n - 1, by omega⟩
    have h0 := h 0 (by omega)
    have hrest : ∀ j, j < k → classify c (radiusOut c (fmul r c.baseScale) j) ≠ Cand.marker ∧
        classify c (radiusOut c (fmul r c.baseScale) j) ≠ Cand.fault :=
      fun j hj => h (j + 1) (by omega)
    have e : radiusOut c r (k + 1) = radiusOut c (fmul r c.baseScale) k := rfl
    have hm1 : classify c (radiusOut c (fmul r c.baseScale) k) = Cand.marker := hm
    have hi := ih n1 (fmul r c.baseScale) (by omega) hrest hm1
    rw [outwardRun_succ, e]
    cases hc : classify c r with
    | outside => simp only; rw [hi]; rfl
    | colour q0 q1 q2 => simp only; rw [hi]; rfl
    | marker => exact absurd hc h0.1
    | fault => exact absurd hc h0.2

/-- The result of the first loop on a well-formed source. -/
theorem outwardRun_spec (c : Search) (hwf : c.src.WF) (hb : c.bpp = 3) (n : Nat) (r0 : Fl) :
    ∃ k t, outwardRun c n r0 = some (radiusOut c r0 k, t, k) ∧ t ≤ n ∧ k ≤ n ∧
      (k < n ↔ ∃ j, j < t ∧ classify c (radiusOut c r0 j) = Cand.marker) ∧
      (k < n → t = k + 1 ∧ classify c (radiusOut c r0 k) = Cand.marker ∧
        ∀ j, j < k → classify c (radiusOut c r0 j) ≠ Cand.marker) ∧
      (k = n → t = n ∧ ∀ j, j < n → classify c (radiusOut c r0 j) ≠ Cand.marker) := by
  by_cases hex : ∃ j, j < n ∧ classify c (radiusOut c r0 j) = Cand.marker
  · classical
    have hk := Nat.find_spec hex
    have hmin : ∀ j, j < Nat.find hex → classify c (radiusOut c r0 j) ≠ Cand.marker := by
      intro j hj hm
      exact Nat.find_min hex hj ⟨by omega, hm⟩
    generalize Nat.find hex = k at hk hmin
    have hrun := outwardRun_first c k n r0 hk.1
      (fun j hj => ⟨hmin j hj, classify_ne_fault c hwf hb _⟩) hk.2
    refine ⟨k, k + 1, hrun, by omega, by omega, ?_, ?_, ?_⟩
    · exact ⟨fun _ => ⟨k, by omega, hk.2⟩, fun _ => hk.1⟩
    · intro _; exact ⟨rfl, hk.2, hmin⟩
    · intro h; omega
  · have hall : ∀ j, j < n → classify c (radiusOut c r0 j) ≠ Cand.marker :=
      fun j hj hm => hex ⟨j, hj, hm⟩
    have hrun := outwardRun_all c n r0
      (fun j hj => ⟨hall j hj, classify_ne_fault c hwf hb _⟩)
    refine ⟨n, n, hrun, by omega, by omega, ?_, ?_, ?_⟩
    · exact ⟨fun h => by omega, fun ⟨j, hj, hm⟩ => absurd hm (hall j hj)⟩
    · intro h; omega
    · intro _; exact ⟨rfl, hall⟩

/-- C11 (as stated, refuted): the outward search can meet the marker on its
32nd iteration, and then it has used up all 32 iterations although a tested
candidate is an in-bounds marker pixel.  In the pass `passC` (2×2 image
`spot2`, centre `(1, 1)`, `_alpha = 0.53f`, `_beta = 0`) the outward search of
pixel `(0, 1)` runs 32 passes and multiplies `r` 31 times: its first 31
candidates are the non-marker pixels `(0, 0)` and `(0, 1)`, the 32nd is the
marker pixel `(1, 1)`.  Likewise on the 1×1 image `dot1` with
`baseScale = 0.5`, direction `(1, 0)` and `r0 = 2^30`: the candidates are
`(2^30, 0)`, ..., `(1, 0)`, all outside, and then `(0, 0)`, the marker. -/
theorem outward_marker_on_last_try :
    getPixel spot2 1 1 = some passC.clearColour ∧
    outwardRun (searchOf passC 0 1) maxTries (startRadius passC 0 1)
      = some (radiusOut (searchOf passC 0 1) (startRadius passC 0 1) 31, 32, 31) ∧
    candX (searchOf passC 0 1) (radiusOut (searchOf passC 0 1) (startRadius passC 0 1) 31) = 1 ∧
    candY (searchOf passC 0 1) (radiusOut (searchOf passC 0 1) (startRadius passC 0 1) 31) = 1 ∧
    classify (searchOf passC 0 1)
      (radiusOut (searchOf passC 0 1) (startRadius passC 0 1) 31) = Cand.marker ∧
    outwardRun searchD maxTries (f32 1 30) = some (half, 32, 31) ∧
    radiusOut searchD (f32 1 30) 31 = half ∧
    classify searchD half = Cand.marker ∧
    (∀ j, j < 31 → classify searchD (radiusOut searchD (f32 1 30) j) = Cand.outside) := by
  refine ⟨by decide, by decide, by decide, by decide, by decide, by decide, by decide,
    by decide, by decide⟩

/-- C11 (amended): the outward search for one pixel, started at radius
`r0`, runs `t <= 32` iterations and ends with the radius obtained from `r0`
by `k <= 32` multiplications by `baseScale`.  It ends with `k < 32` exactly
when a tested candidate is in bounds and marker-coloured; that candidate is
then the last one tested, `t = k + 1` (so `t = 32` when the marker is met on
the 32nd iteration), and the candidate at the final `r` is that in-bounds
marker pixel (`r` is not shrunk on the stopping iteration); if no tested
candidate is an in-bounds marker pixel then `k = 32` and `t = 32`. -/
theorem outward_search_result (c : Search) (hwf : c.src.WF) (hb : c.bpp = 3) (r0 : Fl) :
    ∃ k t, outwardRun c maxTries r0 = some (radiusOut c r0 k, t, k) ∧
      outward c maxTries r0 = some (radiusOut c r0 k) ∧
      t ≤ 32 ∧ k ≤ 32 ∧
      (k < 32 ↔ ∃ j, j < t ∧ classify c (radiusOut c r0 j) = Cand.marker) ∧
      (k < 32 → t = k + 1 ∧ classify c (radiusOut c r0 k) = Cand.marker ∧
        ∀ j, j < k → classify c (radiusOut c r0 j) ≠ Cand.marker) ∧
      (k = 32 → t = 32 ∧ ∀ j, j < 32 → classify c (radiusOut c r0 j) ≠ Cand.marker) := by
  obtain ⟨k, t, h1, h2, h3, h4, h5, h6⟩ := outwardRun_spec c hwf hb maxTries r0
  refine ⟨k, t, h1, ?_, h2, h3, h4, h5, h6⟩
  rw [outward_eq_run, h1]
  rfl

theorem outward_search_result_witness :
    (searchOf passC 0 1).src.WF ∧ (searchOf passC 0 1).bpp = 3 ∧
    ∃ k t, outwardRun (searchOf passC 0 1) maxTries (startRadius passC 0 1)
        = some (radiusOut (searchOf passC 0 1) (startRadius passC 0 1) k, t, k) ∧
      outward (searchOf passC 0 1) maxTries (startRadius passC 0 1)
        = some (radiusOut (searchOf passC 0 1) (startRadius passC 0 1) k) ∧
      t ≤ 32 ∧ k ≤ 32 ∧
      (k < 32 ↔ ∃ j, j < t ∧ classify (searchOf passC 0 1)
        (radiusOut (searchOf passC 0 1) (startRadius passC 0 1) j) = Cand.marker) ∧
      (k < 32 → t = k + 1 ∧ classify (searchOf passC 0 1)
          (radiusOut (searchOf passC 0 1) (startRadius passC 0 1) k) = Cand.marker ∧
        ∀ j, j < k → classify (searchOf passC 0 1)
          (radiusOut (searchOf passC 0 1) (startRadius passC 0 1) j) ≠ Cand.marker) ∧
      (k = 32 → t = 32 ∧ ∀ j, j < 32 → classify (searchOf passC 0 1)
        (radiusOut (searchOf passC 0 1) (startRadius passC 0 1) j) ≠ Cand.marker) :=
  ⟨by decide, by decide,
    outward_search_result (searchOf passC 0 1) (by decide) (by decide) (startRadius passC 0 1)⟩

/-! ## Multiplying and dividing a `float` by one -/

theorem bitLenAux_le (fuel : Nat) : ∀ n b : Nat, n < 2 ^ b → bitLenAux fuel n ≤ b := by
  induction fuel with
  | zero => intro n b _; simp [bitLenAux]
  | succ f ih =>
    intro n b hn
    rw [bitLenAux]
    by_cases h0 : n = 0
    · rw [if_pos h0]; omega
    · rw [if_neg h0]
      cases b with
      | zero => simp at hn; omega
      | succ b =>
        have : n / 2 < 2 ^ b := by
          rw [pow_succ] at hn
          omega
        have := ih (n / 2) b this
        omega

theorem lt_two_pow_bitLenAux (fuel : Nat) :
    ∀ n : Nat, n < 2 ^ bitLenAux fuel n ∨ fuel ≤ bitLenAux fuel n := by
  induction fuel with
  | zero => intro n; right; simp [bitLenAux]
  | succ f ih =>
    intro n
    rw [bitLenAux]
    by_cases h0 : n = 0
    · rw [if_pos h0]; left; subst h0; simp
    · rw [if_neg h0]
      rcases ih (n / 2) with h | h
      · left
        rw [pow_succ]
        omega
      · right; omega

theorem roundQ_isFloat (s : Bool) (n d : Nat) : IsFloat (roundQ binary32 s n d) := by
  unfold roundQ
  simp only
  generalize hsh : bitLen (n / d) - binary32.prec = sh
  generalize hm1 : (if d * 2 ^ sh < 2 * (n % (d * 2 ^ sh)) ∨
      2 * (n % (d * 2 ^ sh)) = d * 2 ^ sh ∧ n / (d * 2 ^ sh) % 2 = 1
    then n / (d * 2 ^ sh) + 1 else n / (d * 2 ^ sh)) = m1
  by_cases hov : 2 ^ binary32.top ≤ m1 * 2 ^ sh
  · rw [if_pos hov]; trivial
  · rw [if_neg hov]
    have hlt : m1 * 2 ^ sh < 2 ^ 277 := by
      have : binary32.top = 277 := rfl
      rw [this] at hov
      omega
    refine ⟨hlt, ?_⟩
    have hm1le : m1 ≤ n / (d * 2 ^ sh) + 1 := by
      rw [← hm1]; split <;> omega
    have hdiv : n / (d * 2 ^ sh) = n / d / 2 ^ sh := (Nat.div_div_eq_div_mul n d (2 ^ sh)).symm
    have hprec : binary32.prec = 24 := rfl
    rcases lt_two_pow_bitLenAux 4400 (n / d) with hq | hq
    · have hb : bitLen (n / d) ≤ sh + 24 := by rw [← hsh, hprec]; omega
      have hq2 : n / d < 2 ^ (sh + 24) :=
        Nat.lt_of_lt_of_le hq (Nat.pow_le_pow_right (by omega) hb)
      have hm : n / d / 2 ^ sh < 2 ^ 24 := by
        rw [Nat.div_lt_iff_lt_mul (Nat.pow_pos (by omega))]
        rw [pow_add] at hq2
        rw [Nat.mul_comm]
        exact hq2
      by_cases he : m1 = 2 ^ 24
      · refine ⟨1, 24 + sh, ?_, by norm_num⟩
        rw [he, pow_add, Nat.one_mul]
      · exact ⟨m1, sh, rfl, by omega⟩
    · have hsh2 : 4376 ≤ sh := by
        rw [← hsh, hprec]
        unfold bitLen
        omega
      by_cases hz : m1 = 0
      · exact ⟨0, 0, by rw [hz]; simp, by norm_num⟩
      · exfalso
        have h1 : 2 ^ 277 ≤ 2 ^ sh := Nat.pow_le_pow_right (by omega) (by omega)
        have h2 : 1 * 2 ^ sh ≤ m1 * 2 ^ sh := Nat.mul_le_mul_right _ (by omega)
        omega

theorem roundQ_id (s1 s : Bool) (k d : Nat) (hk : IsFloat (Fl.fin s1 k)) (hd : 0 < d) :
    roundQ binary32 s (k * d) d = Fl.fin s k := by
  obtain ⟨hlt, m, e, hke, hm⟩ := hk
  unfold roundQ
  simp only
  rw [Nat.mul_div_cancel k hd]
  generalize hsh : bitLen k - binary32.prec = sh
  have hprec : binary32.prec = 24 := rfl
  have hkb : k < 2 ^ (24 + e) := by
    rw [hke, pow_add]
    exact Nat.mul_lt_mul_of_lt_of_le hm (Nat.le_refl _) (Nat.pow_pos (by omega))
  have hbl : bitLen k ≤ 24 + e := bitLenAux_le 4400 k (24 + e) hkb
  have hshe : sh ≤ e := by rw [← hsh, hprec]; omega
  have hdvd : 2 ^ sh ∣ k := by
    rw [hke]
    exact Dvd.dvd.mul_left (pow_dvd_pow 2 hshe) m
  obtain ⟨q, hq⟩ := hdvd
  have hpos : 0 < 2 ^ sh := Nat.pow_pos (by omega)
  have e1 : k * d = (d * 2 ^ sh) * q := by rw [hq]; ring
  have hden : 0 < d * 2 ^ sh := Nat.mul_pos hd hpos
  have e2 : k * d / (d * 2 ^ sh) = q := by rw [e1]; exact Nat.mul_div_cancel_left q hden
  have e3 : k * d % (d * 2 ^ sh) = 0 := by rw [e1]; exact Nat.mul_mod_right _ _
  rw [e2, e3]
  have hcond : ¬ (d * 2 ^ sh < 2 * 0 ∨ 2 * 0 = d * 2 ^ sh ∧ q % 2 = 1) := by omega
  rw [if_neg hcond]
  have hkq : q * 2 ^ sh = k := by rw [hq]; ring
  rw [hkq]
  have htop : binary32.top = 277 := rfl
  rw [if_neg (by rw [htop]; omega)]

theorem one_eq : one = Fl.fin false (2 ^ 149) := by decide

theorem fmul_isFloat (a b : Fl) : IsFloat (fmul a b) := by
  unfold fmul mulF
  cases a with
  | nan => trivial
  | inf s1 =>
    cases b with
    | nan => trivial
    | inf s2 => trivial
    | fin s2 k2 => simp only; split <;> trivial
  | fin s1 k1 =>
    cases b with
    | nan => trivial
    | inf s2 => simp only; split <;> trivial
    | fin s2 k2 => exact roundQ_isFloat _ _ _

theorem fmul_one (r : Fl) (h : IsFloat r) : fmul r one = r := by
  rw [one_eq]
  cases r with
  | nan => rfl
  | inf s => simp [fmul, mulF]
  | fin s k =>
    have hu : binary32.unit = 149 := rfl
    simp only [fmul, mulF, hu, Bool.xor_false]
    exact roundQ_id s s k (2 ^ 149) h (Nat.pow_pos (by omega))

theorem fdiv_one (r : Fl) (h : IsFloat r) : fdiv r one = r := by
  rw [one_eq]
  cases r with
  | nan => rfl
  | inf s => simp [fdiv, divF]
  | fin s k =>
    have hu : binary32.unit = 149 := rfl
    have hne : ¬ (2 ^ 149 = 0) := by norm_num
    simp only [fdiv, divF, hu, Bool.xor_false]
    rw [if_neg hne]
    exact roundQ_id s s k (2 ^ 149) h (Nat.pow_pos (by omega))

/-! ## The searches when `baseScale` is one -/

theorem startRadius_isFloat (P : Pass) (ix iy : Int) : IsFloat (startRadius P ix iy) := by
  unfold startRadius remap
  exact fmul_isFloat _ _

theorem searchOf_baseScale (P : Pass) (ix iy : Int) :
    (searchOf P ix iy).baseScale = P.baseScale := rfl

theorem radiusOut_one (c : Search) (hbs : c.baseScale = one) (r : Fl) (hr : IsFloat r) :
    ∀ k, radiusOut c r k = r := by
  intro k
  induction k with
  | zero => rfl
  | succ k ih =>
    have e : radiusOut c r (k + 1) = radiusOut c (fmul r c.baseScale) k := rfl
    rw [e, hbs, fmul_one r hr, ih]

theorem radiusAt_one (c : Search) (hbs : c.baseScale = one) (r : Fl) (hr : IsFloat r) :
    ∀ k, radiusAt c r k = r := by
  intro k
  induction k with
  | zero => rfl
  | succ k ih =>
    have e : radiusAt c r (k + 1) = radiusAt c (fdiv r c.baseScale) k := rfl
    rw [e, hbs, fdiv_one r hr, ih]

theorem inwardRun_succ (c : Search) (n : Nat) (r : Fl) :
    inwardRun c (n + 1) r =
      match classify c r with
      | Cand.outside => some (Outcome.put 0xff 0x0 0x0, 1)
      | Cand.marker => (inwardRun c n (fdiv r c.baseScale)).map (fun t => (t.1, t.2 + 1))
      | Cand.colour q0 q1 q2 => some (Outcome.put q0 q1 q2, 1)
      | Cand.fault => none := by
  unfold classify
  rw [inwardRun]
  by_cases h : outOfBounds c.src (candX c r) (candY c r) = true
  · rw [if_pos h, if_pos h]
  · rw [if_neg h, if_neg h]
    cases hq : read3 c.src.pixels (offset c.src c.bpp (candX c r) (candY c r)) with
    | none => rfl
    | some q =>
      obtain ⟨q0, q1, q2⟩ := q
      simp only
      by_cases hm : pack q0 q1 q2 = c.clearColour
      · rw [if_pos hm, if_neg (by simp [hm])]
      · rw [if_neg hm, if_pos hm]

theorem inwardOutcome_eq_run (c : Search) :
    ∀ (n : Nat) (r : Fl), inwardOutcome c n r = (inwardRun c n r).map (fun t => t.1) := by
  intro n
  induction n with
  | zero => intro r; rfl
  | succ n ih =>
    intro r
    rw [inwardOutcome_succ, inwardRun_succ]
    cases classify c r with
    | outside => rfl
    | marker => simp only; rw [ih]; cases inwardRun c n (fdiv r c.baseScale) <;> rfl
    | colour q0 q1 q2 => rfl
    | fault => rfl

/-- With `baseScale = 1` and a marker candidate at `r`, the second loop
tests that candidate `n` times and stores nothing. -/
theorem inwardRun_one_marker (c : Search) (hbs : c.baseScale = one) (r : Fl) (hr : IsFloat r)
    (hm : classify c r = Cand.marker) : ∀ n, inwardRun c n r = some (Outcome.keep, n) := by
  intro n
  induction n with
  | zero => rfl
  | succ n ih =>
    rw [inwardRun_succ, hm]
    simp only
    rw [hbs, fdiv_one r hr, ih]
    rfl

/-- With `baseScale = 1` and a candidate at `r` that is not an in-bounds
marker pixel, the first loop tests it `n` times. -/
theorem outwardRun_one_other (c : Search) (hbs : c.baseScale = one) (r : Fl) (hr : IsFloat r)
    (hm : classify c r ≠ Cand.marker) (hf : classify c r ≠ Cand.fault) (n : Nat) :
    outwardRun c n r = some (r, n, n) := by
  have h := outwardRun_all c n r (fun j _ => by
    rw [radiusOut_one c hbs r hr j]; exact ⟨hm, hf⟩)
  rw [radiusOut_one c hbs r hr n] at h
  exact h

theorem pixelOutcome_of_runs (P : Pass) (ix iy : Int) (hc : atCentre P ix iy = false)
    (r1 : Fl) (t k n : Nat) (o : Outcome)
    (h1 : outwardRun (searchOf P ix iy) maxTries (startRadius P ix iy) = some (r1, t, k))
    (h2 : inwardRun (searchOf P ix iy) maxTries r1 = some (o, n)) :
    pixelOutcome P ix iy = some o := by
  rw [pixelOutcome_eq, hc, outward_eq_run, h1]
  simp only [Bool.false_eq_true, if_false, Option.map_some', Option.some_bind]
  rw [inwardOutcome_eq_run, h2]
  rfl

/-- C13 (as stated, refuted): in the pass `passB` (`_alpha = 0`, so
`baseScale = 1`) the single candidate of pixel `(0, 1)` is the in-bounds
marker pixel `(0, 0)`; the outward search stops after one iteration (no
multiplication), not after 32, and only the inward search uses its 32
iterations. -/
theorem unit_scale_marker_stops_outward_at_once :
    (searchOf passB 0 1).baseScale = one ∧
    classify (searchOf passB 0 1) (startRadius passB 0 1) = Cand.marker ∧
    candX (searchOf passB 0 1) (startRadius passB 0 1) = 0 ∧
    candY (searchOf passB 0 1) (startRadius passB 0 1) = 0 ∧
    outwardRun (searchOf passB 0 1) maxTries (startRadius passB 0 1)
      = some (startRadius passB 0 1, 1, 0) ∧
    inwardRun (searchOf passB 0 1) maxTries (startRadius passB 0 1)
      = some (Outcome.keep, 32) := by
  refine ⟨by decide, by decide, by decide, by decide, by decide, by decide⟩

/-- C13 (amended): when `baseScale` is exactly 1 (as for `_alpha = 0` with
`expf(-0) = 1`), the radius `r` is unchanged by both search phases, so every
tested candidate of a pixel (not at the centre) is the same source position,
and that single candidate decides the pixel: out of bounds gives red after
32 outward iterations and one inward iteration; in bounds and non-marker
gives that source colour after 32 outward iterations and one inward
iteration; in bounds and marker-coloured stops the outward phase at its
first iteration, uses the full 32-iteration budget of the inward phase and
leaves the destination pixel's bytes as they were before the pass.  Here
`c` and `r0` name the search state and the start radius of pixel
`(ix, iy)`. -/
theorem unit_base_scale (m : Libm) (dest src : Surface) (clearColour : Nat)
    (xOff yOff _alpha _beta : Fl)
    (hd : dest.WF) (hs : src.WF) (hw : dest.w = src.w) (hh : dest.h = src.h)
    (hbs : baseScaleOf m (normalise _alpha) = one)
    (ix iy : Nat) (hx : (ix : Int) < dest.w) (hy : (iy : Int) < dest.h)
    (hc : atCentre (passOf m src clearColour xOff yOff _alpha _beta) ix iy = false)
    (c : Search) (r0 : Fl)
    (hcdef : c = searchOf (passOf m src clearColour xOff yOff _alpha _beta) ix iy)
    (hrdef : r0 = startRadius (passOf m src clearColour xOff yOff _alpha _beta) ix iy) :
    (m.expf (fneg zero) = one → baseScaleOf m (normalise zero) = one) ∧
    (∀ k, radiusOut c r0 k = r0 ∧ radiusAt c r0 k = r0) ∧
    ∃ out, escher m dest src clearColour xOff yOff _alpha _beta = some out ∧
      (classify c r0 = Cand.outside →
        outwardRun c maxTries r0 = some (r0, 32, 32) ∧
        inwardRun c maxTries r0 = some (Outcome.put 0xff 0x0 0x0, 1) ∧
        read3 out.pixels (offset out 3 ix iy) = some (0xff, 0x0, 0x0)) ∧
      (∀ q0 q1 q2, classify c r0 = Cand.colour q0 q1 q2 →
        outwardRun c maxTries r0 = some (r0, 32, 32) ∧
        inwardRun c maxTries r0 = some (Outcome.put q0 q1 q2, 1) ∧
        read3 out.pixels (offset out 3 ix iy) = some (q0, q1, q2) ∧
        read3 src.pixels (offset src 3 (candX c r0) (candY c r0)) = some (q0, q1, q2)) ∧
      (classify c r0 = Cand.marker →
        outwardRun c maxTries r0 = some (r0, 1, 0) ∧
        inwardRun c maxTries r0 = some (Outcome.keep, 32) ∧
        read3 out.pixels (offset out 3 ix iy) =
          read3 dest.pixels (offset dest 3 ix iy)) := by
  have hcb : c.baseScale = one := by rw [hcdef]; exact hbs
  have hr : IsFloat r0 := by rw [hrdef]; exact startRadius_isFloat _ ix iy
  have hsrc : c.src = src := by rw [hcdef]; rfl
  have hbpp : c.bpp = 3 := by rw [hcdef]; rfl
  have hnf : classify c r0 ≠ Cand.fault := classify_ne_fault c (by rw [hsrc]; exact hs) hbpp r0
  have key := pixelOutcome_of_runs (passOf m src clearColour xOff yOff _alpha _beta) ix iy hc
  rw [← hcdef, ← hrdef] at key
  obtain ⟨out, hout, _, _, _, _, _, _, hpix⟩ :=
    escher_spec m dest src clearColour xOff yOff _alpha _beta hd hs hw hh
  obtain ⟨o, ho, hbytes⟩ := hpix ix iy hx hy
  refine ⟨?_, fun k => ⟨radiusOut_one c hcb r0 hr k, radiusAt_one c hcb r0 hr k⟩,
    out, hout, ?_, ?_, ?_⟩
  · intro he
    have e : baseScaleOf m (normalise zero) = m.expf (fneg zero) := by
      unfold baseScaleOf
      congr 1
    rw [e, he]
  · intro hcase
    have h1 := outwardRun_one_other c hcb r0 hr (by rw [hcase]; exact fun h => by cases h)
      hnf maxTries
    have h2 : inwardRun c maxTries r0 = some (Outcome.put 0xff 0x0 0x0, 1) := by
      show inwardRun c (31 + 1) r0 = _
      rw [inwardRun_succ, hcase]
    rw [key _ _ _ _ _ h1 h2] at ho
    cases ho
    exact ⟨h1, h2, hbytes⟩
  · intro q0 q1 q2 hcase
    have h1 := outwardRun_one_other c hcb r0 hr (by rw [hcase]; exact fun h => by cases h)
      hnf maxTries
    have h2 : inwardRun c maxTries r0 = some (Outcome.put q0 q1 q2, 1) := by
      show inwardRun c (31 + 1) r0 = _
      rw [inwardRun_succ, hcase]
    rw [key _ _ _ _ _ h1 h2] at ho
    cases ho
    have h4 := (classify_colour hcase).2.1
    rw [hsrc, hbpp] at h4
    exact ⟨h1, h2, hbytes, h4⟩
  · intro hcase
    have h1 : outwardRun c maxTries r0 = some (r0, 1, 0) := by
      show outwardRun c (31 + 1) r0 = _
      rw [outwardRun_succ, hcase]
    have h2 := inwardRun_one_marker c hcb r0 hr hcase maxTries
    rw [key _ _ _ _ _ h1 h2] at ho
    cases ho
    exact ⟨h1, h2, hbytes⟩

theorem unit_base_scale_witness :
    grey2.WF ∧ solid2.WF ∧ grey2.w = solid2.w ∧ grey2.h = solid2.h ∧
    baseScaleOf sampleLibm (normalise zero) = one ∧
    (((0 : Nat) : Int) < grey2.w) ∧ (((1 : Nat) : Int) < grey2.h) ∧
    atCentre passB ((0 : Nat) : Int) ((1 : Nat) : Int) = false ∧
    ((sampleLibm.expf (fneg zero) = one → baseScaleOf sampleLibm (normalise zero) = one) ∧
    (∀ k, radiusOut (searchOf passB 0 1) (startRadius passB 0 1) k = startRadius passB 0 1 ∧
      radiusAt (searchOf passB 0 1) (startRadius passB 0 1) k = startRadius passB 0 1) ∧
    ∃ out, escher sampleLibm grey2 solid2 0x102030 (ofInt 1) (ofInt 1) zero zero = some out ∧
      (classify (searchOf passB 0 1) (startRadius passB 0 1) = Cand.outside →
        outwardRun (searchOf passB 0 1) maxTries (startRadius passB 0 1)
          = some (startRadius passB 0 1, 32, 32) ∧
        inwardRun (searchOf passB 0 1) maxTries (startRadius passB 0 1)
          = some (Outcome.put 0xff 0x0 0x0, 1) ∧
        read3 out.pixels (offset out 3 ((0 : Nat) : Int) ((1 : Nat) : Int))
          = some (0xff, 0x0, 0x0)) ∧
      (∀ q0 q1 q2,
        classify (searchOf passB 0 1) (startRadius passB 0 1) = Cand.colour q0 q1 q2 →
        outwardRun (searchOf passB 0 1) maxTries (startRadius passB 0 1)
          = some (startRadius passB 0 1, 32, 32) ∧
        inwardRun (searchOf passB 0 1) maxTries (startRadius passB 0 1)
          = some (Outcome.put q0 q1 q2, 1) ∧
        read3 out.pixels (offset out 3 ((0 : Nat) : Int) ((1 : Nat) : Int))
          = some (q0, q1, q2) ∧
        read3 solid2.pixels (offset solid2 3
          (candX (searchOf passB 0 1) (startRadius passB 0 1))
          (candY (searchOf passB 0 1) (startRadius passB 0 1))) = some (q0, q1, q2)) ∧
      (classify (searchOf passB 0 1) (startRadius passB 0 1) = Cand.marker →
        outwardRun (searchOf passB 0 1) maxTries (startRadius passB 0 1)
          = some (startRadius passB 0 1, 1, 0) ∧
        inwardRun (searchOf passB 0 1) maxTries (startRadius passB 0 1)
          = some (Outcome.keep, 32) ∧
        read3 out.pixels (offset out 3 ((0 : Nat) : Int) ((1 : Nat) : Int)) =
          read3 grey2.pixels (offset grey2 3 ((0 : Nat) : Int) ((1 : Nat) : Int)))) :=
  ⟨by decide, by decide, by decide, by decide, by decide, by decide, by decide, by decide,
    unit_base_scale sampleLibm grey2 solid2 0x102030 (ofInt 1) (ofInt 1) zero zero
      (by decide) (by decide) (by decide) (by decide) (by decide) 0 1 (by decide) (by decide)
      (by decide) (searchOf passB 0 1) (startRadius passB 0 1) rfl rfl⟩

end Escher
